import Mathlib

/-!
# RALLOC: a shallow embedding of `r_alloc.c`

The allocator works on raw memory, so the embedding keeps memory as a byte map and
follows the C statements one by one.  Target: LP64, little-endian (x86-64 Linux).

* `sizeof(size_t) = 8`, pointers are 8 bytes.
* `struct __memblck` is `{ size_t size; struct __memblck* next_block; bool active; }`:
  `size` at offset 0, `next_block` at offset 8, `active` (one byte) at offset 16,
  `sizeof = 24`.
* `struct __memarena` is `{ next_arena; free_list; uint8_t data[]; }`:
  `next_arena` at offset 0, `free_list` at offset 8, `data` at offset 16.
* `struct __memman` (the Manager) lives in a mapping of its own; its two fields are
  kept as fields of `State`.
* `size_t` and pointer arithmetic is taken modulo `2^64` (`wrap`, `wsub`).
* Every `while` loop over a linked structure takes a `fuel` bound; `none` means the
  loop did not finish within `fuel` iterations.
* `mmap` is an oracle: the caller of `r_malloc` supplies what the kernel would
  answer (`none` is `MAP_FAILED`, `some a` the address of a zero-filled mapping).
  `State.mapped` records the arena and large-block mappings that are held.
* Loads and stores are not checked against the mappings: memory is total, and an
  address outside every mapping reads as whatever was last stored there.  The
  concrete runs below only touch addresses inside a held mapping.
-/

namespace Ralloc

/-! ## Constants -/

/-- Size of the address space and of `size_t`: `2^64`. -/
def W : Nat := 18446744073709551616

/-- The macro `ARENA_SIZE`, `8*1024*1024`. -/
def ARENA_SIZE : Nat := 8 * 1024 * 1024

/-- The macro `MIN_ALLOC_SIZE`. -/
def MIN_ALLOC_SIZE : Nat := 32

/-- The value of `sizeof(struct __memblck)`. -/
def HDR : Nat := 24

/-- The value of `sizeof(struct __memarena)`, which is also the offset of `data`. -/
def ARENA_HDR : Nat := 16

/-- The value of `sizeof(size_t)`. -/
def WORD : Nat := 8

/-- Reduction modulo `2^64`: the arithmetic of `size_t` and of pointers. -/
def wrap (x : Nat) : Nat := x % W

/-- Subtraction `x - y` of `size_t` values or pointers, modulo `2^64` (for
`x, y < 2^64`): a negative difference wraps around. -/
def wsub (x y : Nat) : Nat := if y ≤ x then x - y else x + W - y

/-! ## Byte memory -/

/-- Memory: the byte stored at each address. -/
abbrev Mem := Nat → Nat

/-- Load of one byte. -/
def read8 (m : Mem) (a : Nat) : Nat := m a % 256

/-- Store of one byte. -/
def write8 (m : Mem) (a v : Nat) : Mem := fun x => if x = a then v % 256 else m x

/-- Little-endian load of `n` bytes. -/
def readN (m : Mem) (a : Nat) : Nat → Nat
  | 0 => 0
  | n + 1 => read8 m a + 256 * readN m (a + 1) n

/-- Little-endian store of the low `n` bytes of `v`. -/
def writeN (m : Mem) (a v : Nat) : Nat → Mem
  | 0 => m
  | n + 1 => writeN (write8 m a v) (a + 1) (v / 256) n

/-- Load of a `size_t` or a pointer. -/
def read64 (m : Mem) (a : Nat) : Nat := readN m a 8

/-- Store of a `size_t` or a pointer. -/
def write64 (m : Mem) (a v : Nat) : Mem := writeN m a v 8

/-- A fresh anonymous mapping reads as zero. -/
def zero_fill (m : Mem) (a len : Nat) : Mem :=
  fun x => if a ≤ x ∧ x < a + len then 0 else m x

/-! ## Field access -/

/-- Field `blk->size`. -/
def blk_size (m : Mem) (blk : Nat) : Nat := read64 m blk

/-- Field `blk->next_block`. -/
def blk_next (m : Mem) (blk : Nat) : Nat := read64 m (blk + 8)

/-- Field `blk->active`, read as a C truth value (any non-zero byte is true). -/
def blk_active (m : Mem) (blk : Nat) : Bool := read8 m (blk + 16) != 0

/-- Assignment `blk->size = v`. -/
def set_size (m : Mem) (blk v : Nat) : Mem := write64 m blk v

/-- Assignment `blk->next_block = v`. -/
def set_next (m : Mem) (blk v : Nat) : Mem := write64 m (blk + 8) v

/-- Assignment `blk->active = b`. -/
def set_active (m : Mem) (blk : Nat) (b : Bool) : Mem :=
  write8 m (blk + 16) (if b then 1 else 0)

/-- Field `arena->next_arena`. -/
def arena_next (m : Mem) (arena : Nat) : Nat := read64 m arena

/-- Field `arena->free_list`. -/
def arena_free_list (m : Mem) (arena : Nat) : Nat := read64 m (arena + 8)

/-- Address of `arena->data`. -/
def arena_data (arena : Nat) : Nat := arena + ARENA_HDR

/-- Address `arena->data + ARENA_SIZE`, one past the arena's data region. -/
def arena_end (arena : Nat) : Nat := arena_data arena + ARENA_SIZE

/-! ## State -/

/-- The allocator state: memory, the two file-level statics, the Manager's fields,
and the list of arena and large-block mappings currently held from the kernel. -/
structure State where
  /-- Byte contents of memory. -/
  mem : Mem
  /-- The static `manager_initialized`. -/
  manager_initialized : Bool
  /-- Field `mem0->arenas`. -/
  arenas : Nat
  /-- Field `mem0->global_free_list`. -/
  global_free_list : Nat
  /-- Regions `(address, length)` mapped by `mmap` and not yet given back by `munmap`. -/
  mapped : List (Nat × Nat)

/-- The state of the program before the first call. -/
def State.init : State :=
  { mem := fun _ => 0, manager_initialized := false, arenas := 0,
    global_free_list := 0, mapped := [] }

/-- Function `get_manager`: on first use the Manager's two pointers are set to `NULL`. -/
def get_manager (s : State) : State :=
  if s.manager_initialized then s
  else { s with arenas := 0, global_free_list := 0, manager_initialized := true }

/-- Function `__alloc_size`: `sizeof(struct __memblck) + ((size + 7) & ~7)` in `size_t`. -/
def __alloc_size (size : Nat) : Nat :=
  let aligned_size := Nat.land (wrap (size + WORD - 1)) (W - WORD)
  wrap (HDR + aligned_size)

/-- Function `__block_to_ptr`. -/
def __block_to_ptr (blk : Nat) : Nat := wrap (blk + HDR)

/-- Function `__ptr_to_block`. -/
def __ptr_to_block (ptr : Nat) : Nat := wsub ptr HDR

/-! ## Finding a block -/

/-- Inner `while (current)` loop of `__find_arena_block`, over the free list of the
arena `p_arenas`.  `prev` is the address of the pointer that leads to `current`.
Result `some none`: the list holds no fit; `some (some (blk, m))`: `blk` was taken. -/
def find_arena_walk (p_arenas alloc_size : Nat) :
    Nat → Mem → Nat → Nat → Option (Option (Nat × Mem))
  | 0, _, _, _ => none
  | fuel + 1, m, prev, current =>
    if current = 0 then some none
    else if alloc_size ≤ blk_size m current then
      let m := write64 m prev (blk_next m current)
      let space_remaining := wsub (blk_size m current) alloc_size
      if HDR + MIN_ALLOC_SIZE ≤ space_remaining then
        let split := wrap (current + alloc_size)
        let m := set_size m split space_remaining
        let m := set_next m split (arena_free_list m p_arenas)
        let m := write64 m (p_arenas + 8) split
        let m := set_size m current alloc_size
        some (some (current, m))
      else some (some (current, m))
    else find_arena_walk p_arenas alloc_size fuel m (current + 8) (blk_next m current)

/-- Outer `while (p_arenas)` loop of `__find_arena_block`; `inner` bounds each
free-list walk.  The block `0` is `NULL`. -/
def find_arena_loop (alloc_size inner : Nat) : Nat → Mem → Nat → Option (Nat × Mem)
  | 0, _, _ => none
  | fuel + 1, m, p_arenas =>
    if p_arenas = 0 then some (0, m)
    else
      match find_arena_walk p_arenas alloc_size inner m (p_arenas + 8)
          (arena_free_list m p_arenas) with
      | none => none
      | some (some r) => some r
      | some none => find_arena_loop alloc_size inner fuel m (arena_next m p_arenas)

/-- Function `__find_arena_block`. -/
def __find_arena_block (fuel : Nat) (mman : State) (alloc_size : Nat) :
    Option (Nat × State) :=
  match find_arena_loop alloc_size fuel fuel mman.mem mman.arenas with
  | none => none
  | some (blk, m) => some (blk, { mman with mem := m })

/-- Store through a `struct __memblck**` that points either at the Manager's
`global_free_list` field (`none`) or at a `next_block` field in memory. -/
def store_link (s : State) (prev : Option Nat) (v : Nat) : State :=
  match prev with
  | none => { s with global_free_list := v }
  | some a => { s with mem := write64 s.mem a v }

/-- The loop of `__find_global_block`. -/
def find_global_walk (alloc_size : Nat) :
    Nat → State → Option Nat → Nat → Option (Nat × State)
  | 0, _, _, _ => none
  | fuel + 1, s, prev, current =>
    if current = 0 then some (0, s)
    else if alloc_size ≤ blk_size s.mem current then
      let s := store_link s prev (blk_next s.mem current)
      let space_remaining := wsub (blk_size s.mem current) alloc_size
      if HDR + MIN_ALLOC_SIZE ≤ space_remaining then
        let split := wrap (current + alloc_size)
        let m := set_size s.mem split space_remaining
        let m := set_next m split s.global_free_list
        let m := set_size m current alloc_size
        some (current, { s with mem := m, global_free_list := split })
      else some (current, s)
    else find_global_walk alloc_size fuel s (some (current + 8)) (blk_next s.mem current)

/-- Function `__find_global_block`. -/
def __find_global_block (fuel : Nat) (mman : State) (alloc_size : Nat) :
    Option (Nat × State) :=
  find_global_walk alloc_size fuel mman none mman.global_free_list

/-- Function `__create_new_allocation`.  `os` is the answer of the one `mmap` call. -/
def __create_new_allocation (fuel : Nat) (os : Option Nat) (mman : State)
    (alloc_size : Nat) : Option (Nat × State) :=
  if alloc_size < ARENA_SIZE / 16 then
    let arena_total_size := ARENA_HDR + ARENA_SIZE
    match os with
    | none => some (0, mman)
    | some new_arena =>
      let m := zero_fill mman.mem new_arena arena_total_size
      let m := write64 m new_arena mman.arenas
      let m := write64 m (new_arena + 8) (arena_data new_arena)
      let initial_block := arena_data new_arena
      let m := set_size m initial_block ARENA_SIZE
      let m := set_next m initial_block 0
      __find_arena_block fuel
        { mman with mem := m, arenas := new_arena,
                    mapped := (new_arena, arena_total_size) :: mman.mapped }
        alloc_size
  else
    let total_size := wrap (alloc_size + HDR)
    match os with
    | none => some (0, mman)
    | some mem_addr =>
      let m := zero_fill mman.mem mem_addr total_size
      let m := set_size m mem_addr total_size
      let m := set_active m mem_addr true
      some (mem_addr, { mman with mem := m, mapped := (mem_addr, total_size) :: mman.mapped })

/-- Function `r_malloc`.  The result is the returned pointer (`0` is `NULL`) and the
new state. -/
def r_malloc (fuel : Nat) (os : Option Nat) (s : State) (size : Nat) :
    Option (Nat × State) :=
  if size = 0 then some (0, s)
  else
    let mman := get_manager s
    let alloc_size := __alloc_size size
    match (if alloc_size < ARENA_SIZE / 16 then __find_arena_block fuel mman alloc_size
           else __find_global_block fuel mman alloc_size) with
    | none => none
    | some (newblck, s1) =>
      match (if newblck = 0 then __create_new_allocation fuel os s1 alloc_size
             else some (newblck, s1)) with
      | none => none
      | some (newblck, s2) =>
        if newblck ≠ 0 then
          some (__block_to_ptr newblck, { s2 with mem := set_active s2.mem newblck true })
        else some (0, s2)

/-! ## Releasing a block -/

/-- Function `__find_container_arena`, as a loop over the arena list. -/
def find_container_walk (m : Mem) (memblck : Nat) : Nat → Nat → Option Nat
  | 0, _ => none
  | fuel + 1, p_arenas =>
    if p_arenas = 0 then some 0
    else if arena_data p_arenas ≤ memblck ∧ memblck < arena_end p_arenas then some p_arenas
    else find_container_walk m memblck fuel (arena_next m p_arenas)

/-- Function `__find_container_arena`. -/
def __find_container_arena (fuel : Nat) (mman : State) (memblck : Nat) : Option Nat :=
  find_container_walk mman.mem memblck fuel mman.arenas

/-- The loop of `__remove_free_list_entry`. -/
def remove_walk (memblck : Nat) : Nat → Mem → Nat → Nat → Option Mem
  | 0, _, _, _ => none
  | fuel + 1, m, prev, current =>
    if current = 0 then some m
    else if current = memblck then some (write64 m prev (blk_next m current))
    else remove_walk memblck fuel m (current + 8) (blk_next m current)

/-- Function `__remove_free_list_entry`. -/
def __remove_free_list_entry (fuel : Nat) (m : Mem) (arena memblck : Nat) : Option Mem :=
  remove_walk memblck fuel m (arena + 8) (arena_free_list m arena)

/-- The loop of `__find_previous_block`. -/
def prev_walk (m : Mem) (blk : Nat) : Nat → Nat → Option Nat
  | 0, _ => none
  | fuel + 1, blk_head =>
    if blk_head = 0 then some 0
    else if blk_next m blk_head = blk then some blk_head
    else prev_walk m blk fuel (blk_next m blk_head)

/-- Function `__find_previous_block`: the free-list entry whose `next_block` is `blk`. -/
def __find_previous_block (fuel : Nat) (m : Mem) (arena blk : Nat) : Option Nat :=
  prev_walk m blk fuel (arena_free_list m arena)

/-- Function `__aggregate_arena_blocks`. -/
def __aggregate_arena_blocks (fuel : Nat) (m : Mem) (arena blk : Nat) : Option Mem :=
  let next := wrap (blk + blk_size m blk)
  let forward :=
    if next < arena_end arena ∧ blk_active m next = false then
      let m := set_size m blk (wrap (blk_size m blk + blk_size m next))
      __remove_free_list_entry fuel m arena next
    else some m
  match forward with
  | none => none
  | some m =>
    match __find_previous_block fuel m arena blk with
    | none => none
    | some prev =>
      if prev ≠ 0 ∧ blk_active m prev = false ∧ wrap (prev + blk_size m prev) = blk then
        let m := set_size m prev (wrap (blk_size m prev + blk_size m blk))
        __remove_free_list_entry fuel m arena blk
      else some m

/-- The `while (prev->next_arena != arena)` loop of `__remove_arena`. -/
def remove_arena_walk (m : Mem) (arena : Nat) : Nat → Nat → Option Nat
  | 0, _ => none
  | fuel + 1, prev =>
    if arena_next m prev ≠ arena then remove_arena_walk m arena fuel (arena_next m prev)
    else some prev

/-- Function `__remove_arena`: unlink the arena and `munmap` it. -/
def __remove_arena (fuel : Nat) (mman : State) (arena : Nat) : Option State :=
  let unlinked :=
    if mman.arenas = arena then some { mman with arenas := arena_next mman.mem arena }
    else
      match remove_arena_walk mman.mem arena fuel mman.arenas with
      | none => none
      | some prev =>
        some { mman with mem := write64 mman.mem prev (arena_next mman.mem arena) }
  match unlinked with
  | none => none
  | some s => some { s with mapped := s.mapped.erase (arena, ARENA_HDR + ARENA_SIZE) }

/-- Function `__free_arena_block`. -/
def __free_arena_block (fuel : Nat) (mman : State) (blk : Nat) : Option State :=
  match __find_container_arena fuel mman blk with
  | none => none
  | some arena =>
    if arena = 0 then some mman
    else
      match __aggregate_arena_blocks fuel mman.mem arena blk with
      | none => none
      | some m =>
        let m := set_next m blk (arena_free_list m arena)
        let m := write64 m (arena + 8) blk
        let m := set_active m blk false
        let mb := arena_free_list m arena
        if blk_size m mb = ARENA_SIZE then __remove_arena fuel { mman with mem := m } arena
        else some { mman with mem := m }

/-- The loop of `__aggregate_global_blocks`; `blk` is the function's local copy of
its argument, `prev = 0` is `NULL`. -/
def aggregate_global_walk : Nat → State → Nat → Nat → Nat → Option State
  | 0, _, _, _, _ => none
  | fuel + 1, s, blk, prev, current =>
    if current = 0 then some s
    else if wrap (current + blk_size s.mem current) = blk then
      let m := set_size s.mem current (wrap (blk_size s.mem current + blk_size s.mem blk))
      let s :=
        if prev ≠ 0 then { s with mem := set_next m prev (blk_next m current) }
        else { s with mem := m, global_free_list := blk_next m current }
      aggregate_global_walk fuel s current current (blk_next s.mem current)
    else if wrap (blk + blk_size s.mem blk) = current then
      let m := set_size s.mem blk (wrap (blk_size s.mem blk + blk_size s.mem current))
      let s :=
        if prev ≠ 0 then { s with mem := set_next m prev (blk_next m current) }
        else { s with mem := m, global_free_list := blk_next m current }
      aggregate_global_walk fuel s blk current (blk_next s.mem current)
    else aggregate_global_walk fuel s blk current (blk_next s.mem current)

/-- Function `__aggregate_global_blocks`. -/
def __aggregate_global_blocks (fuel : Nat) (mman : State) (blk : Nat) : Option State :=
  aggregate_global_walk fuel mman blk 0 mman.global_free_list

/-- Function `__free_global_block`. -/
def __free_global_block (fuel : Nat) (mman : State) (blk : Nat) : Option State :=
  match __aggregate_global_blocks fuel mman blk with
  | none => none
  | some s =>
    let m := set_next s.mem blk s.global_free_list
    let m := set_active m blk false
    some { s with mem := m, global_free_list := blk }

/-- Function `r_free`. -/
def r_free (fuel : Nat) (s : State) (ptr : Nat) : Option State :=
  if ptr = 0 then some s
  else
    let block := __ptr_to_block ptr
    let mman := get_manager s
    if blk_size mman.mem block ≤ ARENA_SIZE then __free_arena_block fuel mman block
    else __free_global_block fuel mman block

/-! ## Queries -/

/-- Function `r_alloc_size`. -/
def r_alloc_size (s : State) (ptr : Nat) : Nat :=
  if ptr = 0 then 0
  else wsub (blk_size s.mem (__ptr_to_block ptr)) HDR

/-- First loop of `r_allocated`, over the global free list: `some (some b)` is
`return b`, `some none` means the list ended without a match. -/
def allocated_global_walk (m : Mem) (blk : Nat) : Nat → Nat → Option (Option Bool)
  | 0, _ => none
  | fuel + 1, global =>
    if global = 0 then some none
    else if global = blk then some (some (blk_active m global))
    else allocated_global_walk m blk fuel (blk_next m global)

/-- Innermost loop of `r_allocated`, over one arena's free list: is `blk` on it? -/
def allocated_free_walk (m : Mem) (blk : Nat) : Nat → Nat → Option Bool
  | 0, _ => none
  | fuel + 1, current =>
    if current = 0 then some false
    else if current = blk then some true
    else allocated_free_walk m blk fuel (blk_next m current)

/-- Second loop of `r_allocated`, over the arenas. -/
def allocated_arena_walk (m : Mem) (blk inner : Nat) : Nat → Nat → Option Bool
  | 0, _ => none
  | fuel + 1, arena =>
    if arena = 0 then some false
    else if arena_data arena ≤ blk ∧ blk < arena_end arena then
      match allocated_free_walk m blk inner (arena_free_list m arena) with
      | none => none
      | some found => some (!found)
    else allocated_arena_walk m blk inner fuel (arena_next m arena)

/-- Function `r_allocated`. -/
def r_allocated (fuel : Nat) (s : State) (ptr : Nat) : Option Bool :=
  if ptr = 0 then some false
  else
    let blk := __ptr_to_block ptr
    let mman := get_manager s
    match allocated_global_walk mman.mem blk fuel mman.global_free_list with
    | none => none
    | some (some b) => some b
    | some none => allocated_arena_walk mman.mem blk fuel fuel mman.arenas

/-- Inner loop of `r_total_allocated`: the linear walk over the blocks of one arena. -/
def total_block_walk (m : Mem) (stop : Nat) : Nat → Nat → Nat → Option Nat
  | 0, _, _ => none
  | fuel + 1, blk, total =>
    if blk < stop then
      let total :=
        if blk_active m blk then wrap (total + wsub (blk_size m blk) HDR) else total
      total_block_walk m stop fuel (wrap (blk + blk_size m blk)) total
    else some total

/-- Outer loop of `r_total_allocated`, over the arenas. -/
def total_arena_walk (m : Mem) (inner : Nat) : Nat → Nat → Nat → Option Nat
  | 0, _, _ => none
  | fuel + 1, arena, total =>
    if arena = 0 then some total
    else
      match total_block_walk m (arena_end arena) inner (arena_data arena) total with
      | none => none
      | some total => total_arena_walk m inner fuel (arena_next m arena) total

/-- Last loop of `r_total_allocated`, over the global free list. -/
def total_global_walk (m : Mem) : Nat → Nat → Nat → Option Nat
  | 0, _, _ => none
  | fuel + 1, global_block, total =>
    if global_block = 0 then some total
    else
      let total :=
        if blk_active m global_block then
          wrap (total + wsub (blk_size m global_block) HDR)
        else total
      total_global_walk m fuel (blk_next m global_block) total

/-- Function `r_total_allocated`. -/
def r_total_allocated (fuel : Nat) (s : State) : Option Nat :=
  let mem0 := get_manager s
  match total_arena_walk mem0.mem fuel fuel mem0.arenas 0 with
  | none => none
  | some total => total_global_walk mem0.mem fuel mem0.global_free_list total

/-! ## Reallocation -/

/-- The byte-copy loop of `r_realloc`: `count` more iterations starting at index `i`. -/
def copy_bytes (new_ptr ptr : Nat) : Nat → Nat → Mem → Mem
  | 0, _, m => m
  | count + 1, i, m =>
    copy_bytes new_ptr ptr count (i + 1)
      (write8 m (wrap (new_ptr + i)) (read8 m (wrap (ptr + i))))

/-- Function `r_realloc`. -/
def r_realloc (fuel : Nat) (os : Option Nat) (s : State) (ptr size : Nat) :
    Option (Nat × State) :=
  if ptr = 0 then r_malloc fuel os s size
  else if size = 0 then
    match r_free fuel s ptr with
    | none => none
    | some s1 => some (0, s1)
  else
    let block := __ptr_to_block ptr
    let old_size := wsub (blk_size s.mem block) HDR
    if size ≤ old_size then some (ptr, s)
    else
      match r_malloc fuel os s size with
      | none => none
      | some (new_ptr, s1) =>
        if new_ptr = 0 then some (0, s1)
        else
          let m := copy_bytes new_ptr ptr old_size 0 s1.mem
          match r_free fuel { s1 with mem := m } ptr with
          | none => none
          | some s2 => some (new_ptr, s2)

/-! ## Client runs -/

/-- One call of a client program.  `free i` and `realloc _ i _` act on the pointer
returned by the `i`-th allocating call of the run (counted from 0). -/
inductive Call where
  | malloc (os : Option Nat) (size : Nat)
  | free (i : Nat)
  | realloc (os : Option Nat) (i : Nat) (size : Nat)

/-- Run a list of calls from state `s`; `ptrs` collects the pointers returned so far. -/
def run_calls (fuel : Nat) : List Call → State → List Nat → Option (State × List Nat)
  | [], s, ptrs => some (s, ptrs)
  | Call.malloc os size :: rest, s, ptrs =>
    match r_malloc fuel os s size with
    | none => none
    | some (p, s1) => run_calls fuel rest s1 (ptrs ++ [p])
  | Call.free i :: rest, s, ptrs =>
    match r_free fuel s (ptrs.getD i 0) with
    | none => none
    | some s1 => run_calls fuel rest s1 ptrs
  | Call.realloc os i size :: rest, s, ptrs =>
    match r_realloc fuel os s (ptrs.getD i 0) size with
    | none => none
    | some (p, s1) => run_calls fuel rest s1 (ptrs ++ [p])

/-- The address range `[block, block + block.size)` of the block behind pointer `p`
meets that of the block behind pointer `q`. -/
def blocks_overlap (s : State) (p q : Nat) : Bool :=
  let a := __ptr_to_block p
  let b := __ptr_to_block q
  decide (a < b + blk_size s.mem b) && decide (b < a + blk_size s.mem a)

/-- A page-aligned address in the `mmap` area, used as the kernel's answer in the
concrete runs below. -/
def MAP0 : Nat := 0x7f0000000000

/-- One mebibyte. -/
def MiB : Nat := 1024 * 1024

/-! ## The benchmark of `r_comparator.c` -/

/-- The array `test_sizes` of `r_comparator.c`. -/
def test_sizes : List Nat := [16, 32, 64, 128, 256, 512, 1024, 2048, 4096, 8192]

/-- The inner loop of `benchmark`, `ptr = alloc_func(size); free_func(ptr);`, with
`r_malloc` and `r_free` as the two functions.  The list gives the kernel's answer to
the `mmap` call of each iteration, so its length is the number of iterations. -/
def benchmark_loop (fuel size : Nat) : List (Option Nat) → State → Option State
  | [], s => some s
  | os :: rest, s =>
    match r_malloc fuel os s size with
    | none => none
    | some (ptr, s1) =>
      match r_free fuel s1 ptr with
      | none => none
      | some s2 => benchmark_loop fuel size rest s2

/-- A Manager with no arena and an empty global free list, holding no mapping. -/
def vacant (s : State) : Prop :=
  (get_manager s).arenas = 0 ∧ (get_manager s).global_free_list = 0 ∧ s.mapped = []

/-- An answer of `mmap` for an arena: not `NULL`, and the arena fits below `2^64`. -/
def map_ok (a : Nat) : Prop := a ≠ 0 ∧ a + (ARENA_HDR + ARENA_SIZE) ≤ W

instance map_ok_decidable (a : Nat) : Decidable (map_ok a) := by
  unfold map_ok
  infer_instance

/-! ## Memory contents used in the proofs -/

/-- Memory after `__create_new_allocation` has set up a new arena at `a` whose
successor link is `next`. -/
def fresh_mem (m : Mem) (a next : Nat) : Mem :=
  set_next (set_size (write64 (write64 (zero_fill m a (ARENA_HDR + ARENA_SIZE)) a next)
    (a + 8) (arena_data a)) (arena_data a) ARENA_SIZE) (arena_data a) 0

/-- Memory after `__find_arena_block` has split a block of planned size `q` off the
start of the new arena `a`. -/
def split_mem (m : Mem) (a next q : Nat) : Mem :=
  set_size (write64 (set_next (set_size (write64 (fresh_mem m a next) (a + 8) 0)
    (arena_data a + q) (ARENA_SIZE - q)) (arena_data a + q) 0) (a + 8) (arena_data a + q))
    (arena_data a) q

/-- Memory after `r_malloc` has served a request of planned size `q` from the new
arena `a`. -/
def carved_mem (m : Mem) (a next q : Nat) : Mem :=
  set_active (split_mem m a next q) (arena_data a) true

/-! ## Predicates and runs used to state the claims -/

/-- The walk of claim C6: starting at `blk`, advance by the `size` field; the result is
`true` when the walk reaches `stop` exactly, within `fuel` steps, over blocks of
non-zero size. -/
def arena_partitioned (m : Mem) (stop : Nat) : Nat → Nat → Bool
  | 0, _ => false
  | fuel + 1, blk =>
    if blk = stop then true
    else if stop < blk then false
    else if blk_size m blk = 0 then false
    else arena_partitioned m stop fuel (wrap (blk + blk_size m blk))

/-- The entries of the linked list that starts at `head` (at most `n` of them), each as
`(address, size, active)`. -/
def list_entries (m : Mem) : Nat → Nat → List (Nat × Nat × Bool)
  | 0, _ => []
  | n + 1, head =>
    if head = 0 then []
    else (head, blk_size m head, blk_active m head) :: list_entries m n (blk_next m head)

/-- The calls that lead to two overlapping live blocks: a 40 MiB mapping is released
and reused for three 10 MiB blocks; these are released first, last, middle; then
10 MiB and 35 MiB are requested. -/
def overlap_calls : List Call :=
  [ Call.malloc (some MAP0) (40 * MiB), Call.free 0,
    Call.malloc none (10 * MiB), Call.malloc none (10 * MiB), Call.malloc none (10 * MiB),
    Call.free 1, Call.free 3, Call.free 2,
    Call.malloc none (10 * MiB), Call.malloc none (35 * MiB) ]

/-- The calls that leave a live block on the global free list: as `overlap_calls` up
to the three releases, then three 10 MiB requests, the release of the first of them,
a 1 MiB request and its release. -/
def stale_calls : List Call :=
  [ Call.malloc (some MAP0) (40 * MiB), Call.free 0,
    Call.malloc none (10 * MiB), Call.malloc none (10 * MiB), Call.malloc none (10 * MiB),
    Call.free 1, Call.free 3, Call.free 2,
    Call.malloc none (10 * MiB), Call.malloc none (10 * MiB), Call.malloc none (10 * MiB),
    Call.free 4, Call.malloc none MiB, Call.free 7 ]

/-- A caller stores the byte `v` into the `count` bytes that start at `ptr` (a `memset`
on memory it owns). -/
def fill (m : Mem) (ptr v : Nat) : Nat → Mem
  | 0 => m
  | count + 1 => fill (write8 m ptr v) (ptr + 1) v count

/-- The `count` bytes that start at `ptr`. -/
def bytes (m : Mem) (ptr : Nat) : Nat → List Nat
  | 0 => []
  | count + 1 => read8 m ptr :: bytes m (ptr + 1) count

/-- The search that `r_malloc` runs before it asks the kernel for memory: the arena
free lists when the planned size is small, the global free list otherwise.  The block
`0` in the result means that nothing fits. -/
def find_step (fuel : Nat) (mman : State) (alloc_size : Nat) : Option (Nat × State) :=
  if alloc_size < ARENA_SIZE / 16 then __find_arena_block fuel mman alloc_size
  else __find_global_block fuel mman alloc_size

/-- The state after `r_malloc(100)` on the fresh Manager, the arena mapped at `MAP0`:
one live block of planned size 128 at the data start, its pointer is `MAP0 + 40`. -/
def one_block_state : State :=
  { mem := carved_mem (fun _ => 0) MAP0 0 128, manager_initialized := true, arenas := MAP0,
    global_free_list := 0, mapped := [(MAP0, ARENA_HDR + ARENA_SIZE)] }

/-- Sixteen requests of 524256 bytes (planned size 524280, the largest small one): they
fill the arena mapped at `MAP0` up to a free remainder of 128 bytes. -/
def fill_calls : List Call :=
  Call.malloc (some MAP0) 524256 :: List.replicate 15 (Call.malloc none 524256)

/-- The state after `fill_calls` on the fresh Manager. -/
def filled_state : State :=
  ((run_calls 4 fill_calls State.init []).map Prod.fst).getD State.init

/-- The calls that put one block on the global free list with a live block right
behind it: a 40 MiB mapping is released and reused for a 10 MiB block `x` and a 30 MiB
block `y`, which consume it exactly; then `x` is released. -/
def back_merge_calls : List Call :=
  [ Call.malloc (some MAP0) (40 * MiB), Call.free 0,
    Call.malloc none (10 * MiB), Call.malloc none (30 * MiB), Call.free 1 ]

/-! ## Free lists as lists of blocks -/

/-- Following the link `nxt` from `head` visits the addresses `l`, none of them `NULL`,
and then reaches `NULL`. -/
def chain (nxt : Nat → Nat) : Nat → List Nat → Prop
  | head, [] => head = 0
  | head, x :: l => head = x ∧ x ≠ 0 ∧ chain nxt (nxt x) l

instance chain_decidable (nxt : Nat → Nat) : (l : List Nat) → (head : Nat) →
    Decidable (chain nxt head l)
  | [], head => by unfold chain; infer_instance
  | x :: l, head => by
    unfold chain
    have := chain_decidable nxt l (nxt x)
    infer_instance

/-- The blocks at the addresses `l` each have room for their header, end below `2^64`,
and no two of them overlap. -/
def blocks_ok (m : Mem) (l : List Nat) : Prop :=
  (∀ x ∈ l, HDR ≤ blk_size m x ∧ x + blk_size m x ≤ W) ∧
  l.Pairwise (fun x y => x + blk_size m x ≤ y ∨ y + blk_size m y ≤ x)

instance blocks_ok_decidable (m : Mem) (l : List Nat) : Decidable (blocks_ok m l) := by
  unfold blocks_ok
  infer_instance

/-- The free list of the arena `p` holds the blocks `l`, in this order; they lie in the
data region of the arena, which ends below `2^64`, and satisfy `blocks_ok`. -/
def arena_list (m : Mem) (p : Nat) (l : List Nat) : Prop :=
  chain (blk_next m) (arena_free_list m p) l ∧ blocks_ok m l ∧ arena_end p ≤ W ∧
  ∀ x ∈ l, arena_data p ≤ x ∧ x + blk_size m x ≤ arena_end p

instance arena_list_decidable (m : Mem) (p : Nat) (l : List Nat) :
    Decidable (arena_list m p l) := by
  unfold arena_list
  infer_instance

/-- The global free list holds the blocks `l`, in this order, and they satisfy
`blocks_ok`. -/
def global_list (s : State) (l : List Nat) : Prop :=
  chain (blk_next s.mem) s.global_free_list l ∧ blocks_ok s.mem l

instance global_list_decidable (s : State) (l : List Nat) : Decidable (global_list s l) := by
  unfold global_list
  infer_instance

/-- The address of the pointer that leads to the element after `l`, when `prev` is the
address of the pointer that leads to the first element of `l`. -/
def last_link (prev : Nat) : List Nat → Nat
  | [] => prev
  | x :: l => last_link (x + 8) l

/-- Memory after the walk of `__find_arena_block` has taken the block `fit` of the arena
`p` for the planned size `q`; `lk` is the address of the pointer that led to `fit`. -/
def taken_mem (p q : Nat) (m : Mem) (lk fit : Nat) : Mem :=
  if HDR + MIN_ALLOC_SIZE ≤ blk_size m fit - q then
    set_size (write64 (set_next (set_size (write64 m lk (blk_next m fit)) (fit + q)
      (blk_size m fit - q)) (fit + q)
      (arena_free_list (set_size (write64 m lk (blk_next m fit)) (fit + q)
        (blk_size m fit - q)) p))
      (p + 8) (fit + q)) fit q
  else write64 m lk (blk_next m fit)

/-- The link that leads to the element after `l` in a walk of the global free list:
`none` is the Manager's field `global_free_list`. -/
def last_glink (prev : Option Nat) : List Nat → Option Nat
  | [] => prev
  | x :: l => last_glink (some (x + 8)) l

/-- State after the walk of `__find_global_block` has taken the block `fit` for the
planned size `q`; `lk` is the link that led to `fit`. -/
def taken_state (q : Nat) (s : State) (lk : Option Nat) (fit : Nat) : State :=
  if HDR + MIN_ALLOC_SIZE ≤ blk_size s.mem fit - q then
    { store_link s lk (blk_next s.mem fit) with
      mem := set_size (set_next (set_size (store_link s lk (blk_next s.mem fit)).mem (fit + q)
        (blk_size s.mem fit - q)) (fit + q)
        (store_link s lk (blk_next s.mem fit)).global_free_list) fit q,
      global_free_list := fit + q }
  else store_link s lk (blk_next s.mem fit)

/-- Every arena of the list has a free list without a block of size `q` or more, short
enough to be walked with `fuel`. -/
def arenas_miss (m : Mem) (q fuel : Nat) (as1 : List Nat) : Prop :=
  ∀ B ∈ as1, ∃ l, l.length < fuel ∧ chain (blk_next m) (arena_free_list m B) l ∧
    ∀ x ∈ l, blk_size m x < q

/-- The state after `r_malloc(8)`, `r_malloc(24)`, `r_malloc(64)`, the release of the
first block, `r_malloc(16 MiB)` and its release, on the fresh Manager: the free list
of the arena `MAP0` holds a block of 32 bytes and the remainder of the arena, the
global free list holds one block of `16 MiB + 48` bytes. -/
def two_lists_state : State :=
  ((run_calls 8
      [Call.malloc (some MAP0) 8, Call.malloc none 24, Call.malloc none 64, Call.free 0,
       Call.malloc (some (MAP0 + 16 * MiB)) (16 * MiB), Call.free 3]
      State.init []).map Prod.fst).getD State.init

/-- The memories `m` and `m'` hold the same bytes outside `[lo, hi)`. -/
def same_outside (lo hi : Nat) (m m' : Mem) : Prop :=
  ∀ b, b < lo ∨ hi ≤ b → read8 m' b = read8 m b

/-- The arenas `as1` are full for the planned size `q`: the free list of each is a
well-formed list of blocks smaller than `q`, short enough to be walked with `fuel`. -/
def arenas_full (m : Mem) (q fuel : Nat) (as1 : List Nat) : Prop :=
  ∀ B ∈ as1, ∃ l, l.length < fuel ∧ arena_list m B l ∧ ∀ x ∈ l, blk_size m x < q

/-! ## States with a free list that does not end -/

/-- A step of a client program: a call of the allocator, or a store of the `size_t`
value `v` at offset `off` of the memory returned by the `i`-th allocating call. -/
inductive Step where
  | call (c : Call)
  | store (i off v : Nat)

/-- Run a list of steps from state `s`; `ptrs` collects the pointers returned so far. -/
def run_steps (fuel : Nat) : List Step → State → List Nat → Option (State × List Nat)
  | [], s, ptrs => some (s, ptrs)
  | Step.call c :: rest, s, ptrs =>
    match run_calls fuel [c] s ptrs with
    | none => none
    | some (s1, ptrs1) => run_steps fuel rest s1 ptrs1
  | Step.store i off v :: rest, s, ptrs =>
    run_steps fuel rest { s with mem := write64 s.mem (ptrs.getD i 0 + off) v } ptrs

/-- The steps that lead to a free block whose size field came from a payload:
`p0 = r_malloc(100)`, the stores `((size_t*)p0)[0] = 32` and
`((size_t*)p0)[4] = SIZE_MAX - 7`, `r_realloc(p0, SIZE_MAX)` and `r_malloc(100)`; then the
round trip `p = r_malloc(8)`, `r_free(p)`. -/
def payload_steps : List Step :=
  [ Step.call (Call.malloc (some MAP0) 100), Step.store 0 0 32, Step.store 0 32 (W - 8),
    Step.call (Call.realloc none 0 (W - 1)), Step.call (Call.malloc none 100),
    Step.call (Call.malloc none 8), Step.call (Call.free 3) ]

/-- The calls `p = r_malloc(SIZE_MAX - 23)`, `r_free(p)` on the fresh Manager. -/
def loop_calls : List Call := [Call.malloc (some MAP0) (W - 24), Call.free 0]

/-- The state after `loop_calls`: the free list of the arena `MAP0` is the block
`MAP0 + 16` of size 0, whose `next_block` is the block itself. -/
def loop_state : State :=
  ((run_calls 8 loop_calls State.init []).map Prod.fst).getD State.init

/-- The state after the first twelve calls of `stale_calls`: the global free list is the
block `MAP0 + 10 MiB + 24` of size `30 MiB + 24`, whose `next_block` is the block itself;
the blocks behind the pointers `MAP0 + 20 MiB + 72` and `MAP0 + 24` are live. -/
def stale_state : State :=
  ((run_calls 16 (stale_calls.take 12) State.init []).map Prod.fst).getD State.init

/-! ## Memory lemmas -/

theorem wrap_eq (x : Nat) : wrap x = x % 18446744073709551616 := rfl

theorem wrap_of_lt (x : Nat) (h : x < 18446744073709551616) : wrap x = x :=
  Nat.mod_eq_of_lt h

theorem wsub_of_le (x y : Nat) (h : y ≤ x) : wsub x y = x - y := by
  simp [wsub, h]

theorem read8_write8_same (m : Mem) (a v : Nat) : read8 (write8 m a v) a = v % 256 := by
  simp [read8, write8]

theorem read8_write8_ne (m : Mem) (a v b : Nat) (h : b ≠ a) :
    read8 (write8 m a v) b = read8 m b := by
  simp [read8, write8, h]

theorem readN_write8_out (m : Mem) (a v : Nat) (n b : Nat) (h : b + n ≤ a ∨ a < b) :
    readN (write8 m a v) b n = readN m b n := by
  induction n generalizing b with
  | zero => rfl
  | succ n ih =>
    simp only [readN]
    rw [read8_write8_ne _ _ _ _ (by omega), ih (b + 1) (by omega)]

theorem read8_writeN_out (m : Mem) (a v : Nat) (n b : Nat) (h : b < a ∨ a + n ≤ b) :
    read8 (writeN m a v n) b = read8 m b := by
  induction n generalizing m a v with
  | zero => rfl
  | succ n ih =>
    simp only [writeN]
    rw [ih _ _ _ (by omega), read8_write8_ne _ _ _ _ (by omega)]

theorem readN_writeN_out (m : Mem) (a v : Nat) (n b k : Nat) (h : b + k ≤ a ∨ a + n ≤ b) :
    readN (writeN m a v n) b k = readN m b k := by
  induction k generalizing b with
  | zero => rfl
  | succ k ih =>
    simp only [readN]
    rw [read8_writeN_out _ _ _ _ _ (by omega), ih (b + 1) (by omega)]

theorem readN_writeN_same (m : Mem) (a v : Nat) (n : Nat) :
    readN (writeN m a v n) a n = v % 256 ^ n := by
  induction n generalizing m a v with
  | zero => simp [readN, Nat.mod_one]
  | succ n ih =>
    simp only [readN, writeN]
    rw [ih, read8_writeN_out _ _ _ _ _ (by omega), read8_write8_same]
    rw [pow_succ, Nat.mul_comm (256 ^ n) 256, Nat.mod_mul]

theorem read8_zero_fill_in (m : Mem) (a len b : Nat) (h : a ≤ b ∧ b < a + len) :
    read8 (zero_fill m a len) b = 0 := by
  simp [read8, zero_fill, h]

theorem read8_zero_fill_out (m : Mem) (a len b : Nat) (h : b < a ∨ a + len ≤ b) :
    read8 (zero_fill m a len) b = read8 m b := by
  have : ¬ (a ≤ b ∧ b < a + len) := by omega
  simp [read8, zero_fill, this]

theorem readN_zero_fill_in (m : Mem) (a len b k : Nat) (h : a ≤ b ∧ b + k ≤ a + len) :
    readN (zero_fill m a len) b k = 0 := by
  induction k generalizing b with
  | zero => rfl
  | succ k ih =>
    simp only [readN]
    rw [read8_zero_fill_in _ _ _ _ (by omega), ih (b + 1) (by omega)]

theorem read64_write64_same (m : Mem) (a v : Nat) (h : v < 18446744073709551616) :
    read64 (write64 m a v) a = v := by
  unfold read64 write64
  rw [readN_writeN_same]
  exact Nat.mod_eq_of_lt (by simpa using h)

theorem read64_write64_out (m : Mem) (a v b : Nat) (h : b + 8 ≤ a ∨ a + 8 ≤ b) :
    read64 (write64 m a v) b = read64 m b :=
  readN_writeN_out m a v 8 b 8 h

theorem read64_write8_out (m : Mem) (a v b : Nat) (h : b + 8 ≤ a ∨ a < b) :
    read64 (write8 m a v) b = read64 m b :=
  readN_write8_out m a v 8 b h

theorem read8_write64_out (m : Mem) (a v b : Nat) (h : b < a ∨ a + 8 ≤ b) :
    read8 (write64 m a v) b = read8 m b :=
  read8_writeN_out m a v 8 b h

theorem read64_zero_fill_in (m : Mem) (a len b : Nat) (h : a ≤ b ∧ b + 8 ≤ a + len) :
    read64 (zero_fill m a len) b = 0 :=
  readN_zero_fill_in m a len b 8 h

attribute [irreducible] read8 write8 readN writeN zero_fill wrap wsub

/-! ## One allocation and release on a vacant Manager -/

theorem get_manager_eq (s : State)
    (hs1 : (get_manager s).arenas = 0) (hs2 : (get_manager s).global_free_list = 0) :
    get_manager s = { mem := s.mem, manager_initialized := true, arenas := 0,
                      global_free_list := 0, mapped := s.mapped } := by
  unfold get_manager at *
  by_cases h : s.manager_initialized = true
  · simp only [h, if_true] at hs1 hs2 ⊢
    cases s
    simp_all
  · simp [h]

theorem find_arena_loop_null (q inner fuel : Nat) (m : Mem) :
    find_arena_loop q inner (fuel + 1) m 0 = some (0, m) := by
  simp [find_arena_loop]

theorem find_arena_block_null (fuel q : Nat) (s : State) (h : s.arenas = 0) :
    __find_arena_block (fuel + 1) s q = some (0, s) := by
  cases s
  simp_all [__find_arena_block, find_arena_loop_null]

theorem ARENA_SIZE_eq : ARENA_SIZE = 8388608 := rfl

theorem find_arena_walk_fresh (m : Mem) (a next q fuel : Nat)
    (ha : a + 8388624 ≤ 18446744073709551616) (hq1 : 24 ≤ q) (hq2 : q < 524288) :
    find_arena_walk a q (fuel + 1) (fresh_mem m a next) (a + 8) (arena_data a)
      = some (some (arena_data a, split_mem m a next q)) := by
  have e1 : blk_size (fresh_mem m a next) (arena_data a) = 8388608 := by
    simp (disch := omega) only [blk_size, fresh_mem, set_next, set_size, arena_data, ARENA_HDR,
      ARENA_SIZE_eq, read64_write64_out]
    rw [read64_write64_same _ _ _ (by omega)]
  have e2 : blk_next (fresh_mem m a next) (arena_data a) = 0 := by
    simp only [blk_next, fresh_mem, set_next, set_size, arena_data, ARENA_HDR, ARENA_SIZE]
    rw [read64_write64_same _ _ _ (by omega)]
  have e3 : blk_size (write64 (fresh_mem m a next) (a + 8) 0) (arena_data a) = 8388608 := by
    simp only [blk_size, arena_data, ARENA_HDR] at e1 ⊢
    rw [read64_write64_out _ _ _ _ (by omega), e1]
  unfold find_arena_walk
  have hne : arena_data a ≠ 0 := by simp [arena_data, ARENA_HDR]
  rw [if_neg hne, if_pos (by rw [e1]; omega)]
  simp only [e2, e3]
  have e4 : wsub 8388608 q = 8388608 - q := wsub_of_le _ _ (by omega)
  have e5 : wrap (arena_data a + q) = arena_data a + q := by
    rw [wrap_eq]; simp only [arena_data, ARENA_HDR]; omega
  rw [e4, e5, if_pos (by simp only [HDR, MIN_ALLOC_SIZE]; omega)]
  have e6 : arena_free_list (set_size (write64 (fresh_mem m a next) (a + 8) 0)
      (arena_data a + q) (8388608 - q)) a = 0 := by
    simp (disch := omega) only [arena_free_list, set_size, arena_data, ARENA_HDR,
      read64_write64_out]
    rw [read64_write64_same _ _ _ (by omega)]
  simp only [e6, split_mem, ARENA_SIZE_eq]

theorem create_fresh_arena (s : State) (a q fuel : Nat) (ha0 : a ≠ 0)
    (ha : a + 8388624 ≤ 18446744073709551616) (hq1 : 24 ≤ q) (hq2 : q < 524288) :
    __create_new_allocation (fuel + 1) (some a) s q
      = some (arena_data a,
          { s with mem := split_mem s.mem a s.arenas q, arenas := a,
                   mapped := (a, ARENA_HDR + ARENA_SIZE) :: s.mapped }) := by
  have hq2' : q < ARENA_SIZE / 16 := by
    have : ARENA_SIZE / 16 = 524288 := by decide
    omega
  unfold __create_new_allocation
  rw [if_pos hq2']
  simp only [__find_arena_block]
  unfold find_arena_loop
  rw [if_neg ha0]
  have e0 : arena_free_list (fresh_mem s.mem a s.arenas) a = arena_data a := by
    simp (disch := omega) only [arena_free_list, fresh_mem, set_next, set_size, arena_data,
      ARENA_HDR, read64_write64_out]
    rw [read64_write64_same _ _ _ (by omega)]
  have h := find_arena_walk_fresh s.mem a s.arenas q fuel ha hq1 hq2
  simp only [fresh_mem] at h e0
  simp only [e0, h]

theorem r_malloc_fresh (s : State) (a q size fuel : Nat)
    (hs1 : (get_manager s).arenas = 0) (hs2 : (get_manager s).global_free_list = 0)
    (ha0 : a ≠ 0) (ha : a + 8388624 ≤ 18446744073709551616)
    (hsz : size ≠ 0) (hq : __alloc_size size = q) (hq1 : 24 ≤ q) (hq2 : q < 524288) :
    r_malloc (fuel + 1) (some a) s size
      = some (a + 40, { mem := carved_mem s.mem a 0 q, manager_initialized := true,
                        arenas := a, global_free_list := 0,
                        mapped := (a, ARENA_HDR + ARENA_SIZE) :: s.mapped }) := by
  have hq2' : q < ARENA_SIZE / 16 := by
    have : ARENA_SIZE / 16 = 524288 := by decide
    omega
  have hd : arena_data a ≠ 0 := by simp [arena_data, ARENA_HDR]
  have hp : __block_to_ptr (arena_data a) = a + 40 := by
    simp only [__block_to_ptr, wrap_eq, arena_data, ARENA_HDR, HDR]; omega
  unfold r_malloc
  rw [if_neg hsz]
  simp only [get_manager_eq s hs1 hs2, hq, hq2', if_true]
  rw [find_arena_block_null _ _ _ rfl]
  simp only [if_true]
  rw [create_fresh_arena _ _ _ _ ha0 ha hq1 hq2]
  simp only [hd, ne_eq, not_false_eq_true, if_true, hp, carved_mem]

theorem aggregate_carved (m : Mem) (a nx q fuel : Nat)
    (ha : a + 8388624 ≤ 18446744073709551616) (hq1 : 24 ≤ q) (hq2 : q < 524288) :
    __aggregate_arena_blocks (fuel + 1) (carved_mem m a nx q) a (a + 16)
      = some (write64 (set_size (carved_mem m a nx q) (a + 16) 8388608) (a + 8) 0) := by
  have r1 : blk_size (carved_mem m a nx q) (a + 16) = q := by
    simp (disch := omega) only [blk_size, carved_mem, split_mem, fresh_mem, set_active, set_next,
      set_size, arena_data, ARENA_HDR, ARENA_SIZE_eq, read64_write8_out, read64_write64_same]
  have r2 : blk_size (carved_mem m a nx q) (a + 16 + q) = 8388608 - q := by
    simp (disch := omega) only [blk_size, carved_mem, split_mem, fresh_mem, set_active, set_next,
      set_size, arena_data, ARENA_HDR, ARENA_SIZE_eq, read64_write8_out, read64_write64_out,
      read64_write64_same]
  have r3 : blk_active (carved_mem m a nx q) (a + 16 + q) = false := by
    simp (disch := omega) only [blk_active, carved_mem, split_mem, fresh_mem, set_active,
      set_next, set_size, arena_data, ARENA_HDR, ARENA_SIZE_eq, read8_write8_ne,
      read8_write64_out, read8_zero_fill_in]
    rfl
  have r4 : arena_free_list (set_size (carved_mem m a nx q) (a + 16) 8388608) a = a + 16 + q := by
    simp (disch := omega) only [arena_free_list, carved_mem, split_mem, fresh_mem, set_active,
      set_next, set_size, arena_data, ARENA_HDR, ARENA_SIZE_eq, read64_write8_out,
      read64_write64_out, read64_write64_same]
  have r5 : blk_next (set_size (carved_mem m a nx q) (a + 16) 8388608) (a + 16 + q) = 0 := by
    simp (disch := omega) only [blk_next, carved_mem, split_mem, fresh_mem, set_active,
      set_next, set_size, arena_data, ARENA_HDR, ARENA_SIZE_eq, read64_write8_out,
      read64_write64_out, read64_write64_same]
  have r6 : arena_free_list
      (write64 (set_size (carved_mem m a nx q) (a + 16) 8388608) (a + 8) 0) a = 0 := by
    simp (disch := omega) only [arena_free_list, read64_write64_same]
  have e1 : wrap (a + 16 + q) = a + 16 + q := by rw [wrap_eq]; omega
  have e2 : wrap (q + (8388608 - q)) = 8388608 := by rw [wrap_eq]; omega
  unfold __aggregate_arena_blocks
  simp only [r1, e1, r2, r3, e2]
  rw [if_pos ⟨by simp only [arena_end, arena_data, ARENA_HDR, ARENA_SIZE_eq]; omega, trivial⟩]
  unfold __remove_free_list_entry remove_walk
  rw [r4, if_neg (by omega), if_pos rfl, r5]
  simp only
  unfold __find_previous_block prev_walk
  rw [r6, if_pos rfl]
  simp only [ne_eq, not_true_eq_false, false_and, if_false]

theorem r_free_carved (m : Mem) (mp : List (Nat × Nat)) (a q fuel : Nat) (ha0 : a ≠ 0)
    (ha : a + 8388624 ≤ 18446744073709551616) (hq1 : 24 ≤ q) (hq2 : q < 524288) :
    ∃ m', r_free (fuel + 1)
        { mem := carved_mem m a 0 q, manager_initialized := true, arenas := a,
          global_free_list := 0, mapped := (a, ARENA_HDR + ARENA_SIZE) :: mp } (a + 40)
      = some { mem := m', manager_initialized := true, arenas := 0,
               global_free_list := 0, mapped := mp } := by
  have hb : __ptr_to_block (a + 40) = a + 16 := by
    simp only [__ptr_to_block, HDR]
    rw [wsub_of_le _ _ (by omega)]
    omega
  have r1 : blk_size (carved_mem m a 0 q) (a + 16) = q := by
    simp (disch := omega) only [blk_size, carved_mem, split_mem, fresh_mem, set_active, set_next,
      set_size, arena_data, ARENA_HDR, ARENA_SIZE_eq, read64_write8_out, read64_write64_same]
  unfold r_free
  rw [if_neg (by omega)]
  simp only [get_manager, if_true]
  rw [hb]
  rw [r1]
  rw [if_pos (by rw [ARENA_SIZE_eq]; omega)]
  unfold __free_arena_block __find_container_arena find_container_walk
  rw [if_neg ha0, if_pos (by simp only [arena_data, arena_end, ARENA_HDR, ARENA_SIZE_eq]; omega)]
  simp only [if_neg ha0]
  rw [aggregate_carved m a 0 q fuel ha hq1 hq2]
  simp only
  have r6 : arena_free_list
      (write64 (set_size (carved_mem m a 0 q) (a + 16) 8388608) (a + 8) 0) a = 0 := by
    simp (disch := omega) only [arena_free_list, read64_write64_same]
  rw [r6]
  generalize hM : set_active (write64 (set_next
      (write64 (set_size (carved_mem m a 0 q) (a + 16) 8388608) (a + 8) 0) (a + 16) 0)
      (a + 8) (a + 16)) (a + 16) false = M
  have r7 : arena_free_list M a = a + 16 := by
    subst hM
    simp (disch := omega) only [arena_free_list, set_active, set_next, read64_write8_out,
      read64_write64_same]
  have r8 : blk_size M (a + 16) = 8388608 := by
    subst hM
    simp (disch := omega) only [blk_size, set_active, set_next, set_size, read64_write8_out,
      read64_write64_out, read64_write64_same]
  have r9 : arena_next M a = 0 := by
    subst hM
    simp (disch := omega) only [arena_next, carved_mem, split_mem, fresh_mem, set_active,
      set_next, set_size, arena_data, ARENA_HDR, ARENA_SIZE_eq, read64_write8_out,
      read64_write64_out, read64_write64_same]
  rw [r7, r8, if_pos ARENA_SIZE_eq.symm]
  unfold __remove_arena
  simp only [if_true, r9, List.erase_cons_head]
  exact ⟨M, rfl⟩

theorem r_total_allocated_vacant (s : State) (fuel : Nat) (h : vacant s) :
    r_total_allocated (fuel + 1) s = some 0 := by
  obtain ⟨h1, h2, _⟩ := h
  unfold r_total_allocated
  simp only [h1, h2, total_arena_walk, total_global_walk, if_true]

theorem test_sizes_plan (size : Nat) (h : size ∈ test_sizes) :
    size ≠ 0 ∧ 24 ≤ __alloc_size size ∧ __alloc_size size < 524288 := by
  simp only [test_sizes, List.mem_cons, List.mem_singleton, List.not_mem_nil, or_false] at h
  rcases h with rfl | rfl | rfl | rfl | rfl | rfl | rfl | rfl | rfl | rfl <;> decide!

theorem benchmark_iteration (s : State) (a size fuel : Nat) (hs : vacant s) (ha : map_ok a)
    (hsize : size ∈ test_sizes) :
    ∃ s1 s2, r_malloc (fuel + 1) (some a) s size = some (a + 40, s1) ∧
      s1.arenas = a ∧ s1.mapped = [(a, ARENA_HDR + ARENA_SIZE)] ∧
      r_free (fuel + 1) s1 (a + 40) = some s2 ∧ vacant s2 := by
  obtain ⟨h1, h2, h3⟩ := hs
  obtain ⟨ha0, ha1⟩ := ha
  have ha2 : a + 8388624 ≤ 18446744073709551616 := by
    simpa only [W, ARENA_HDR, ARENA_SIZE] using ha1
  obtain ⟨hz, hq1, hq2⟩ := test_sizes_plan size hsize
  obtain ⟨m', hm'⟩ := r_free_carved s.mem [] a (__alloc_size size) fuel ha0 ha2 hq1 hq2
  have hm := r_malloc_fresh s a _ size fuel h1 h2 ha0 ha2 hz rfl hq1 hq2
  rw [h3] at hm
  exact ⟨_, _, hm, rfl, rfl, hm', rfl, rfl, rfl⟩

/-! ## Supporting facts -/

/-- The mask `~(sizeof(size_t) - 1)` rounds a `size_t` down to a multiple of 8. -/
theorem land_align (x : Nat) (hx : x < 18446744073709551616) :
    Nat.land x 18446744073709551608 = x / 8 * 8 := by
  show x &&& 18446744073709551608 = x / 8 * 8
  apply Nat.eq_of_testBit_eq
  intro i
  have h1 : (18446744073709551608 : Nat) = (2 ^ 61 - 1) <<< 3 := by decide
  have h2 : x / 8 * 8 = (x >>> 3) <<< 3 := by
    rw [Nat.shiftLeft_eq, Nat.shiftRight_eq_div_pow]
  rw [h2, Nat.testBit_and, h1, Nat.testBit_shiftLeft, Nat.testBit_shiftLeft,
    Nat.testBit_shiftRight, Nat.testBit_two_pow_sub_one]
  by_cases hi : 3 ≤ i
  · have e : 3 + (i - 3) = i := by omega
    simp only [hi, decide_True, Bool.true_and, e, ge_iff_le]
    by_cases h64 : i < 64
    · have : i - 3 < 61 := by omega
      simp [this]
    · have hlt : x < 2 ^ i := lt_of_lt_of_le hx (by
        have : (18446744073709551616 : Nat) = 2 ^ 64 := by norm_num
        rw [this]
        exact Nat.pow_le_pow_right (by norm_num) (by omega))
      simp [Nat.testBit_lt_two_pow hlt]
  · simp [hi]

/-- Support for C2: when `size + 31` does not wrap, `__alloc_size` is the header plus
`size` rounded up to a multiple of 8, hence at least `size + 24`. -/
theorem alloc_size_eq (n : Nat) (hn : n + 31 < 18446744073709551616) :
    __alloc_size n = 24 + (n + 7) / 8 * 8 := by
  unfold __alloc_size
  simp only [WORD, W, HDR, wrap_eq]
  have e1 : (n + 8 - 1) % 18446744073709551616 = n + 7 := by omega
  have e2 : (18446744073709551616 - 8 : Nat) = 18446744073709551608 := by norm_num
  rw [e1, e2, land_align _ (by omega)]
  omega

theorem aggregate_global_walk_initialized (fuel : Nat) (s s' : State) (blk prev current : Nat)
    (h : aggregate_global_walk fuel s blk prev current = some s') :
    s'.manager_initialized = s.manager_initialized := by
  induction fuel generalizing s blk prev current with
  | zero => simp [aggregate_global_walk] at h
  | succ n ih =>
    unfold aggregate_global_walk at h
    split at h
    · cases h; rfl
    · split at h
      · have := ih _ _ _ _ h
        rw [this]
        split <;> rfl
      · split at h
        · have := ih _ _ _ _ h
          rw [this]
          split <;> rfl
        · exact ih _ _ _ _ h

theorem blk_active_set_active (m : Mem) (blk : Nat) (b : Bool) :
    blk_active (set_active m blk b) blk = b := by
  unfold blk_active set_active
  rw [read8_write8_same]
  cases b <;> rfl

/-- Support for C4: a release that takes the global path (`block->size > ARENA_SIZE`)
leaves the block at the head of the global free list with its flag cleared, so
`r_allocated` answers `false`, in every state. -/
theorem r_allocated_after_global_free (fuel fuel' : Nat) (s s' : State) (p : Nat)
    (hblk : __ptr_to_block p ≠ 0)
    (hsz : ARENA_SIZE < blk_size (get_manager s).mem (__ptr_to_block p))
    (hf : r_free fuel s p = some s') :
    r_allocated (fuel' + 1) s' p = some false := by
  by_cases hp : p = 0
  · simp [r_allocated, hp]
  · unfold r_free at hf
    rw [if_neg hp] at hf
    simp only at hf
    rw [if_neg (by omega)] at hf
    unfold __free_global_block __aggregate_global_blocks at hf
    cases hagg : aggregate_global_walk fuel (get_manager s) (__ptr_to_block p) 0
        (get_manager s).global_free_list with
    | none => rw [hagg] at hf; cases hf
    | some s1 =>
      rw [hagg] at hf
      simp only [Option.some.injEq] at hf
      have hinit : s1.manager_initialized = true := by
        rw [aggregate_global_walk_initialized _ _ _ _ _ _ hagg]
        unfold get_manager
        split
        · assumption
        · rfl
      subst hf
      unfold r_allocated
      rw [if_neg hp]
      simp only [get_manager, hinit, if_true]
      unfold allocated_global_walk
      rw [if_neg hblk, if_pos rfl, blk_active_set_active]

/-- Support for C6: when the planned size `q` does not wrap (`24 ≤ q < 512 KiB`), the
first allocation from a new arena leaves it partitioned into the block of size `q`
and the remainder of size `8 MiB - q`. -/
theorem carved_mem_partitioned (m : Mem) (a nx q fuel : Nat)
    (ha : a + 8388624 < 18446744073709551616) (hq1 : 24 ≤ q) (hq2 : q < 524288) :
    arena_partitioned (carved_mem m a nx q) (arena_end a) (fuel + 3) (arena_data a) = true := by
  have r1 : blk_size (carved_mem m a nx q) (a + 16) = q := by
    simp (disch := omega) only [blk_size, carved_mem, split_mem, fresh_mem, set_active, set_next,
      set_size, arena_data, ARENA_HDR, ARENA_SIZE_eq, read64_write8_out, read64_write64_same]
  have r2 : blk_size (carved_mem m a nx q) (a + 16 + q) = 8388608 - q := by
    simp (disch := omega) only [blk_size, carved_mem, split_mem, fresh_mem, set_active, set_next,
      set_size, arena_data, ARENA_HDR, ARENA_SIZE_eq, read64_write8_out, read64_write64_out,
      read64_write64_same]
  have e1 : wrap (a + 16 + q) = a + 16 + q := by rw [wrap_eq]; omega
  have e2 : wrap (a + 16 + q + (8388608 - q)) = a + 16 + 8388608 := by rw [wrap_eq]; omega
  simp only [arena_end, arena_data, ARENA_HDR, ARENA_SIZE_eq]
  unfold arena_partitioned
  rw [if_neg (by omega), if_neg (by omega), r1, if_neg (by omega), e1]
  unfold arena_partitioned
  rw [if_neg (by omega), if_neg (by omega), r2, if_neg (by omega), e2]
  unfold arena_partitioned
  rw [if_pos rfl]

theorem r_alloc_size_carved (m : Mem) (mp : List (Nat × Nat)) (a q : Nat)
    (ha : a + 8388624 ≤ 18446744073709551616) (hq1 : 24 ≤ q) (hq2 : q < 524288) :
    r_alloc_size { mem := carved_mem m a 0 q, manager_initialized := true, arenas := a,
                   global_free_list := 0, mapped := mp } (a + 40) = q - 24 := by
  have hb : __ptr_to_block (a + 40) = a + 16 := by
    simp only [__ptr_to_block, HDR]
    rw [wsub_of_le _ _ (by omega)]
    omega
  have r1 : blk_size (carved_mem m a 0 q) (a + 16) = q := by
    simp (disch := omega) only [blk_size, carved_mem, split_mem, fresh_mem, set_active, set_next,
      set_size, arena_data, ARENA_HDR, ARENA_SIZE_eq, read64_write8_out, read64_write64_same]
  unfold r_alloc_size
  rw [if_neg (by omega), hb]
  simp only [r1, HDR]
  rw [wsub_of_le _ _ (by omega)]

/-- Support for C2: on a vacant Manager a request that plans less than 512 KiB
(so without wrap) gets a block whose `r_alloc_size` is `size` rounded up to a
multiple of 8, hence at least `size`. -/
theorem r_malloc_fresh_size (s : State) (a size fuel : Nat) (hs : vacant s) (ha : map_ok a)
    (hz : size ≠ 0) (hsz : size ≤ 524256) :
    ∃ s1, r_malloc (fuel + 1) (some a) s size = some (a + 40, s1) ∧
      r_alloc_size s1 (a + 40) = (size + 7) / 8 * 8 ∧ size ≤ r_alloc_size s1 (a + 40) := by
  obtain ⟨h1, h2, h3⟩ := hs
  obtain ⟨ha0, ha1⟩ := ha
  have ha2 : a + 8388624 ≤ 18446744073709551616 := by
    simpa only [W, ARENA_HDR, ARENA_SIZE] using ha1
  have hq := alloc_size_eq size (by omega)
  have hq1 : 24 ≤ __alloc_size size := by omega
  have hq2 : __alloc_size size < 524288 := by omega
  have e := r_alloc_size_carved s.mem ((a, ARENA_HDR + ARENA_SIZE) :: s.mapped) a
    (__alloc_size size) ha2 hq1 hq2
  refine ⟨_, r_malloc_fresh s a _ size fuel h1 h2 ha0 ha2 hz rfl hq1 hq2, ?_, ?_⟩
  · rw [e, hq]; omega
  · rw [e, hq]; omega

/-- On an intact run the predicates of the claims hold: after `r_malloc(64)` and
`r_malloc(200)` on the fresh Manager the arena is partitioned, the two blocks do not
overlap, both pointers are live, and `r_total_allocated()` is the sum `64 + 200` of
their sizes. -/
theorem intact_run_example :
    ((run_calls 8 [Call.malloc (some MAP0) 64, Call.malloc none 200] State.init []).map
        (fun r => (r.2, arena_partitioned r.1.mem (arena_end MAP0) 8 (arena_data MAP0),
                   blocks_overlap r.1 (r.2.getD 0 0) (r.2.getD 1 0))),
     (run_calls 8 [Call.malloc (some MAP0) 64, Call.malloc none 200] State.init []).map
        (fun r => (r.2.map (r_alloc_size r.1), r.2.map (r_allocated 8 r.1),
                   r_total_allocated 8 r.1)))
      = (some ([MAP0 + 40, MAP0 + 128], true, false),
         some ([64, 200], [some true, some true], some 264)) := by
  decide!

/-- Support for C4: examples of intact runs where `r_allocated` is `false` after the
release.  Four runs on the fresh Manager: a 200-byte block released next to a live one (it goes
on the arena free list, the neighbour stays live), a 200-byte block released alone
(its arena is unmapped), a 16 MiB block (global free list), and a 4 MiB block (the
release does nothing). -/
theorem r_allocated_after_free_examples :
    ((run_calls 8 [Call.malloc (some MAP0) 200, Call.malloc none 200, Call.free 0]
        State.init []).map
        (fun r => (r_allocated 8 r.1 (r.2.getD 0 0), r_allocated 8 r.1 (r.2.getD 1 0))),
     (run_calls 8 [Call.malloc (some MAP0) 200, Call.free 0] State.init []).map
        (fun r => (r_allocated 8 r.1 (r.2.getD 0 0), r.1.arenas)),
     (run_calls 8 [Call.malloc (some MAP0) (16 * MiB), Call.free 0] State.init []).map
        (fun r => (r_allocated 8 r.1 (r.2.getD 0 0), r.1.global_free_list)),
     (run_calls 8 [Call.malloc (some MAP0) (4 * MiB), Call.free 0] State.init []).map
        (fun r => (r_allocated 8 r.1 (r.2.getD 0 0), r.1.global_free_list)))
      = (some (some false, some true), some (some false, 0), some (some false, MAP0),
         some (some false, 0)) := by
  decide!

/-- Support for C9: a block larger than `ARENA_SIZE` is reused.  After
`p = r_malloc(16 MiB); r_free(p)`, a second `r_malloc(16 MiB)` returns `p` again
without a new mapping. -/
theorem large_block_reused_above_arena_size :
    (run_calls 8 [Call.malloc (some MAP0) (16 * MiB), Call.free 0,
                  Call.malloc none (16 * MiB)] State.init []).map
        (fun r => (r.2, r.1.global_free_list, r.1.mapped))
      = some ([MAP0 + 24, MAP0 + 24], 0, [(MAP0, 16 * MiB + 48)]) := by
  decide!

/-- Support for C14, the example of the claim: `p = r_malloc(100)` is filled with
100 bytes `0xAB`; `r_realloc(p, 300)` returns `q = MAP0 + 168` with
`r_alloc_size(q) = 304`, the first 100 bytes of `q` are `0xAB`, and `r_allocated(p)`
is `false` afterwards. -/
theorem r_realloc_grow_example :
    (r_malloc 8 (some MAP0) State.init 100).bind (fun r =>
      (r_realloc 8 none { r.2 with mem := fill r.2.mem r.1 0xAB 100 } r.1 300).map
        (fun r2 => (r.1, r2.1, r_alloc_size r2.2 r2.1, bytes r2.2.mem r2.1 100,
                    r_allocated 8 r2.2 r.1)))
      = some (MAP0 + 40, MAP0 + 168, 304, List.replicate 100 0xAB, some false) := by
  decide!

/-- A block taken by the free-list walk of `__find_arena_block` is not `NULL`. -/
theorem find_arena_walk_hit_ne (p q : Nat) (fuel : Nat) (m : Mem) (prev cur : Nat)
    (blk : Nat) (m' : Mem)
    (h : find_arena_walk p q fuel m prev cur = some (some (blk, m'))) : blk ≠ 0 := by
  induction fuel generalizing m prev cur with
  | zero => simp [find_arena_walk] at h
  | succ k ih =>
    unfold find_arena_walk at h
    split at h
    · cases h
    · split at h
      · simp only at h
        split at h <;>
        · simp only [Option.some.injEq, Prod.mk.injEq] at h
          omega
      · exact ih _ _ _ h

/-- When the loop over the arenas ends with `NULL`, it has written nothing. -/
theorem find_arena_loop_miss (q inner fuel : Nat) (m : Mem) (p : Nat) (m' : Mem)
    (h : find_arena_loop q inner fuel m p = some (0, m')) : m' = m := by
  induction fuel generalizing p with
  | zero => simp [find_arena_loop] at h
  | succ k ih =>
    unfold find_arena_loop at h
    split at h
    · simp only [Option.some.injEq, Prod.mk.injEq, true_and] at h
      exact h.symm
    · split at h
      · cases h
      · rename_i r hr
        simp only [Option.some.injEq] at h
        subst h
        exact absurd rfl (find_arena_walk_hit_ne _ _ _ _ _ _ _ _ hr)
      · exact ih _ h

/-- Support for C15 and C16: `__find_arena_block` that returns `NULL` leaves the state
as it found it. -/
theorem find_arena_block_miss (fuel q : Nat) (s s1 : State)
    (h : __find_arena_block fuel s q = some (0, s1)) : s1 = s := by
  unfold __find_arena_block at h
  split at h
  · cases h
  · rename_i blk m hm
    simp only [Option.some.injEq, Prod.mk.injEq] at h
    obtain ⟨h1, h2⟩ := h
    subst h1
    have := find_arena_loop_miss _ _ _ _ _ _ hm
    subst this
    rw [← h2]

/-- Support for C15: the walk of `__find_global_block` that returns `NULL` leaves the
state as it found it. -/
theorem find_global_walk_miss (q fuel : Nat) (s : State) (prev : Option Nat) (cur : Nat)
    (s1 : State) (h : find_global_walk q fuel s prev cur = some (0, s1)) : s1 = s := by
  induction fuel generalizing s prev cur with
  | zero => simp [find_global_walk] at h
  | succ k ih =>
    unfold find_global_walk at h
    split at h
    · simp only [Option.some.injEq, Prod.mk.injEq, true_and] at h
      exact h.symm
    · split at h
      · simp only at h
        split at h <;>
        · simp only [Option.some.injEq, Prod.mk.injEq] at h
          omega
      · exact ih _ _ _ h

/-- Support for C15: a search that returns `NULL` returns the state it was given. -/
theorem find_step_miss (fuel q : Nat) (s : State)
    (h : (find_step fuel s q).map Prod.fst = some 0) : find_step fuel s q = some (0, s) := by
  cases hr : find_step fuel s q with
  | none => rw [hr] at h; cases h
  | some r =>
    obtain ⟨b, s1⟩ := r
    rw [hr] at h
    simp only [Option.map_some', Option.some.injEq] at h
    subst h
    have e : s1 = s := by
      unfold find_step at hr
      split at hr
      · exact find_arena_block_miss _ _ _ _ hr
      · exact find_global_walk_miss _ _ _ _ _ _ hr
    rw [e]

/-- Support for C15: when `mmap` fails, `__create_new_allocation` returns `NULL` and
the state it was given, for both kinds of request. -/
theorem create_new_allocation_refused (fuel q : Nat) (s : State) :
    __create_new_allocation fuel none s q = some (0, s) := by
  unfold __create_new_allocation
  split <;> rfl

/-- Support for C15: a request that finds no fit and whose `mmap` fails returns `NULL`;
the state is the one `get_manager` produced at the start of the call. -/
theorem r_malloc_refused (fuel n : Nat) (s : State) (hn : n ≠ 0)
    (hmiss : (find_step fuel (get_manager s) (__alloc_size n)).map Prod.fst = some 0) :
    r_malloc fuel none s n = some (0, get_manager s) := by
  have h1 := find_step_miss _ _ _ hmiss
  unfold find_step at h1
  unfold r_malloc
  rw [if_neg hn]
  simp only [h1, if_true, create_new_allocation_refused]
  simp

/-- Once the Manager exists, `get_manager` changes nothing. -/
theorem get_manager_initialized (s : State) (h : s.manager_initialized = true) :
    get_manager s = s := by
  simp [get_manager, h]

/-- Support for C16: a search of the arenas whose result is `NULL` returns the state it
was given. -/
theorem find_arena_block_miss_eq (fuel q : Nat) (s : State)
    (h : (__find_arena_block fuel s q).map Prod.fst = some 0) :
    __find_arena_block fuel s q = some (0, s) := by
  cases hr : __find_arena_block fuel s q with
  | none => rw [hr] at h; cases h
  | some r =>
    obtain ⟨b, s1⟩ := r
    rw [hr] at h
    simp only [Option.map_some', Option.some.injEq] at h
    subst h
    rw [find_arena_block_miss _ _ _ _ hr]

/-- Support for C16: a small request that finds no fit in any arena and whose `mmap`
succeeds at `a` is served from the start of the new arena `a`, which is linked in
front of the former head of the arena sequence. -/
theorem r_malloc_fresh_arena (s : State) (a q size fuel : Nat)
    (ha0 : a ≠ 0) (ha : a + 8388624 ≤ 18446744073709551616)
    (hsz : size ≠ 0) (hq : __alloc_size size = q) (hq1 : 24 ≤ q) (hq2 : q < 524288)
    (hmiss : (__find_arena_block (fuel + 1) (get_manager s) q).map Prod.fst = some 0) :
    r_malloc (fuel + 1) (some a) s size
      = some (a + 40, { get_manager s with
                        mem := carved_mem s.mem a (get_manager s).arenas q, arenas := a,
                        mapped := (a, ARENA_HDR + ARENA_SIZE) :: s.mapped }) := by
  have hq2' : q < ARENA_SIZE / 16 := by
    have : ARENA_SIZE / 16 = 524288 := by decide
    omega
  have hd : arena_data a ≠ 0 := by simp [arena_data, ARENA_HDR]
  have hp : __block_to_ptr (arena_data a) = a + 40 := by
    simp only [__block_to_ptr, wrap_eq, arena_data, ARENA_HDR, HDR]; omega
  have hmem : (get_manager s).mem = s.mem := by unfold get_manager; split <;> rfl
  have hmap : (get_manager s).mapped = s.mapped := by unfold get_manager; split <;> rfl
  have h1 := find_arena_block_miss_eq _ _ _ hmiss
  unfold r_malloc
  rw [if_neg hsz]
  simp only [hq, hq2', if_true, h1]
  rw [create_fresh_arena _ _ _ _ ha0 ha hq1 hq2]
  simp only [hd, ne_eq, not_false_eq_true, if_true, hp, carved_mem, hmem, hmap]

/-- A list whose head has no successor has one entry. -/
theorem list_entries_single (m : Mem) (b : Nat) (k : Nat) (hb : b ≠ 0)
    (hn : blk_next m b = 0) :
    list_entries m (k + 1) b = [(b, blk_size m b, blk_active m b)] := by
  unfold list_entries
  rw [if_neg hb, hn]
  cases k <;> simp [list_entries]

/-- Support for C16: the fields of a new arena `a` after the first block of planned
size `q` has been carved from it. -/
theorem carved_mem_layout (m : Mem) (a nx q : Nat)
    (ha : a + 8388624 ≤ 18446744073709551616) (hq1 : 24 ≤ q) (hq2 : q < 524288)
    (hnx : nx < 18446744073709551616) :
    arena_next (carved_mem m a nx q) a = nx ∧
    arena_free_list (carved_mem m a nx q) a = a + 16 + q ∧
    blk_size (carved_mem m a nx q) (a + 16) = q ∧
    blk_active (carved_mem m a nx q) (a + 16) = true ∧
    blk_size (carved_mem m a nx q) (a + 16 + q) = 8388608 - q ∧
    blk_next (carved_mem m a nx q) (a + 16 + q) = 0 ∧
    blk_active (carved_mem m a nx q) (a + 16 + q) = false := by
  refine ⟨?_, ?_, ?_, ?_, ?_, ?_, ?_⟩
  · simp (disch := omega) only [arena_next, carved_mem, split_mem, fresh_mem, set_active,
      set_next, set_size, arena_data, ARENA_HDR, ARENA_SIZE_eq, read64_write8_out,
      read64_write64_out, read64_write64_same]
  · simp (disch := omega) only [arena_free_list, carved_mem, split_mem, fresh_mem, set_active,
      set_next, set_size, arena_data, ARENA_HDR, ARENA_SIZE_eq, read64_write8_out,
      read64_write64_out, read64_write64_same]
  · simp (disch := omega) only [blk_size, carved_mem, split_mem, fresh_mem, set_active, set_next,
      set_size, arena_data, ARENA_HDR, ARENA_SIZE_eq, read64_write8_out, read64_write64_same]
  · simp only [carved_mem, arena_data, ARENA_HDR, blk_active_set_active]
  · simp (disch := omega) only [blk_size, carved_mem, split_mem, fresh_mem, set_active, set_next,
      set_size, arena_data, ARENA_HDR, ARENA_SIZE_eq, read64_write8_out, read64_write64_out,
      read64_write64_same]
  · simp (disch := omega) only [blk_next, carved_mem, split_mem, fresh_mem, set_active,
      set_next, set_size, arena_data, ARENA_HDR, ARENA_SIZE_eq, read64_write8_out,
      read64_write64_out, read64_write64_same]
  · simp (disch := omega) only [blk_active, carved_mem, split_mem, fresh_mem, set_active,
      set_next, set_size, arena_data, ARENA_HDR, ARENA_SIZE_eq, read8_write8_ne,
      read8_write64_out, read8_zero_fill_in]
    rfl

/-- Support for C16: `filled_state` has the one arena `MAP0`, whose free list holds a
single block of 128 bytes; sixteen blocks of 524256 payload bytes are live. -/
theorem filled_state_layout :
    (filled_state.arenas, filled_state.mapped,
     list_entries filled_state.mem 4 (arena_free_list filled_state.mem MAP0),
     r_total_allocated 20 filled_state)
      = (MAP0, [(MAP0, ARENA_HDR + ARENA_SIZE)], [(MAP0 + 8388496, 128, false)],
         some (16 * 524256)) := by
  decide!

/-- Support for C13 and C15: `one_block_state` is the state after `r_malloc(100)` on the
fresh Manager, and `MAP0 + 40` is the pointer returned. -/
theorem one_block_state_reached :
    r_malloc 1 (some MAP0) State.init 100 = some (MAP0 + 40, one_block_state) :=
  r_malloc_fresh State.init MAP0 128 100 0 rfl rfl (by decide) (by decide) (by decide)
    (by decide!) (by decide) (by decide)

/-! ## The two searches on well-formed free lists -/

theorem find_global_block_miss_eq (fuel q : Nat) (s : State)
    (h : (__find_global_block fuel s q).map Prod.fst = some 0) :
    __find_global_block fuel s q = some (0, s) := by
  cases hr : __find_global_block fuel s q with
  | none => rw [hr] at h; cases h
  | some r =>
    obtain ⟨b, s1⟩ := r
    rw [hr] at h
    simp only [Option.map_some', Option.some.injEq] at h
    subst h
    rw [find_global_walk_miss _ _ _ _ _ _ hr]

/-- Memory after `__create_new_allocation` and `r_malloc` have set up a standalone
mapping of `total` bytes at `a`. -/
theorem r_malloc_large_fresh_eq (fuel n a : Nat) (s : State) (hn : n ≠ 0)
    (hq : ARENA_SIZE / 16 ≤ __alloc_size n) (hq2 : __alloc_size n + 24 < W)
    (ha0 : a ≠ 0) (ha : a + 24 < W)
    (hmiss : (__find_global_block fuel (get_manager s) (__alloc_size n)).map Prod.fst
               = some 0) :
    r_malloc fuel (some a) s n
      = some (a + 24,
          { get_manager s with
            mem := set_active (set_active (set_size
              (zero_fill s.mem a (__alloc_size n + 24)) a (__alloc_size n + 24)) a true) a true,
            mapped := (a, __alloc_size n + 24) :: s.mapped }) := by
  have h1 := find_global_block_miss_eq _ _ _ hmiss
  have hmap : (get_manager s).mapped = s.mapped := by unfold get_manager; split <;> rfl
  have hmem : (get_manager s).mem = s.mem := by unfold get_manager; split <;> rfl
  generalize hqq : __alloc_size n = q at *
  simp only [W] at hq2 ha
  have hp : __block_to_ptr a = a + 24 := by
    simp only [__block_to_ptr, wrap_eq, HDR]; omega
  have hw : wrap (q + HDR) = q + 24 := by
    simp only [wrap_eq, HDR]; omega
  unfold r_malloc
  rw [if_neg hn]
  simp only [hqq, if_neg (not_lt.mpr hq), h1, if_true]
  unfold __create_new_allocation
  simp only [if_neg (not_lt.mpr hq), hw, ha0, ne_eq, not_false_eq_true, if_true, hp, hmap, hmem]

/-- Support for C19: a large request that misses the global free list and whose `mmap`
succeeds at `a` records a mapping of planned size + 24 bytes, stores planned size + 24
in the size field of the block at `a`, and `r_alloc_size` of the returned pointer is
the planned size, header included. -/
theorem r_malloc_large_fresh (fuel n a : Nat) (s : State) (hn : n ≠ 0)
    (hq : ARENA_SIZE / 16 ≤ __alloc_size n) (hq2 : __alloc_size n + 24 < W)
    (ha0 : a ≠ 0) (ha : a + 24 < W)
    (hmiss : (__find_global_block fuel (get_manager s) (__alloc_size n)).map Prod.fst
               = some 0) :
    ∃ s', r_malloc fuel (some a) s n = some (a + 24, s') ∧
      s'.mapped = (a, __alloc_size n + 24) :: s.mapped ∧
      blk_size s'.mem a = __alloc_size n + 24 ∧
      r_alloc_size s' (a + 24) = __alloc_size n := by
  have hm := r_malloc_large_fresh_eq fuel n a s hn hq hq2 ha0 ha hmiss
  generalize __alloc_size n = q at *
  simp only [W] at hq2 ha
  have hb : __ptr_to_block (a + 24) = a := by
    simp only [__ptr_to_block, HDR]
    rw [wsub_of_le _ _ (by omega)]
    omega
  have hsz : ∀ m : Mem, blk_size (set_active (set_active (set_size m a (q + 24)) a true) a true) a
      = q + 24 := by
    intro m
    simp (disch := omega) only [blk_size, set_active, set_size, read64_write8_out,
      read64_write64_same]
  refine ⟨_, hm, rfl, hsz _, ?_⟩
  unfold r_alloc_size
  rw [if_neg (by omega), hb]
  simp only [hsz, HDR]
  rw [wsub_of_le _ _ (by omega)]
  omega

theorem read8_lt (m : Mem) (a : Nat) : read8 m a < 256 := by
  unfold read8
  exact Nat.mod_lt _ (by norm_num)

theorem readN_lt (m : Mem) (a n : Nat) : readN m a n < 256 ^ n := by
  induction n generalizing a with
  | zero => simp [readN]
  | succ n ih =>
    simp only [readN]
    have h1 := read8_lt m a
    have h2 := ih (a + 1)
    rw [pow_succ]
    nlinarith

theorem read64_lt (m : Mem) (a : Nat) : read64 m a < 18446744073709551616 := by
  have := readN_lt m a 8
  unfold read64
  norm_num at this
  exact this

theorem chain_congr (n1 n2 : Nat → Nat) (l : List Nat) (h : Nat)
    (heq : ∀ x ∈ l, n2 x = n1 x) (hc : chain n1 h l) : chain n2 h l := by
  induction l generalizing h with
  | nil => exact hc
  | cons x l ih =>
    obtain ⟨h1, h2, h3⟩ := hc
    refine ⟨h1, h2, ?_⟩
    rw [heq x (List.mem_cons_self _ _)]
    exact ih _ (fun y hy => heq y (List.mem_cons_of_mem _ hy)) h3

theorem chain_head (nxt : Nat → Nat) (l : List Nat) (h : Nat) (hc : chain nxt h l) :
    h = l.headD 0 := by
  cases l with
  | nil => exact hc
  | cons x l => exact hc.1

theorem chain_not_mem_zero (nxt : Nat → Nat) (l : List Nat) (h : Nat) (hc : chain nxt h l) :
    ∀ x ∈ l, x ≠ 0 := by
  induction l generalizing h with
  | nil => intro x hx; cases hx
  | cons y l ih =>
    obtain ⟨_, h2, h3⟩ := hc
    intro x hx
    rcases List.mem_cons.mp hx with rfl | hx
    · exact h2
    · exact ih _ h3 x hx

theorem last_link_cases (prev : Nat) (l : List Nat) :
    (l = [] ∧ last_link prev l = prev) ∨ ∃ y ∈ l, last_link prev l = y + 8 := by
  induction l generalizing prev with
  | nil => exact Or.inl ⟨rfl, rfl⟩
  | cons x l ih =>
    right
    rcases ih (x + 8) with ⟨hl, h⟩ | ⟨y, hy, h⟩
    · exact ⟨x, List.mem_cons_self _ _, by simpa [last_link] using h⟩
    · exact ⟨y, List.mem_cons_of_mem _ hy, by simpa [last_link] using h⟩

/-- The walk of `__find_arena_block` passes the blocks that are too small. -/
theorem find_arena_walk_skip (p q : Nat) (m : Mem) (l1 rest : List Nat) (k prev cur : Nat)
    (hc : chain (blk_next m) cur (l1 ++ rest)) (hs : ∀ x ∈ l1, blk_size m x < q) :
    find_arena_walk p q (l1.length + k) m prev cur
      = find_arena_walk p q k m (last_link prev l1) (rest.headD 0) ∧
    chain (blk_next m) (rest.headD 0) rest := by
  induction l1 generalizing prev cur with
  | nil =>
    simp only [List.nil_append] at hc
    have := chain_head _ _ _ hc
    subst this
    simp only [List.length_nil, Nat.zero_add, last_link]
    exact ⟨trivial, hc⟩
  | cons x l1 ih =>
    obtain ⟨h1, h2, h3⟩ := hc
    subst h1
    have hx := hs cur (List.mem_cons_self _ _)
    have := ih (cur + 8) (blk_next m cur) h3 (fun y hy => hs y (List.mem_cons_of_mem _ hy))
    refine ⟨?_, this.2⟩
    have e : (cur :: l1).length + k = (l1.length + k) + 1 := by simp; omega
    have e2 : last_link prev (cur :: l1) = last_link (cur + 8) l1 := rfl
    rw [e, e2, ← this.1]
    conv => lhs; unfold find_arena_walk
    rw [if_neg h2, if_neg (by omega)]

/-- A free list without a fit is walked to its end. -/
theorem find_arena_walk_none (p q : Nat) (m : Mem) (l : List Nat) (k prev cur : Nat)
    (hc : chain (blk_next m) cur l) (hs : ∀ x ∈ l, blk_size m x < q) :
    find_arena_walk p q (l.length + (k + 1)) m prev cur = some none := by
  have h := find_arena_walk_skip p q m l [] (k + 1) prev cur (by simpa using hc) hs
  rw [h.1]
  simp [find_arena_walk]

theorem last_link_mem (x : Nat) (l : List Nat) : ∃ y ∈ x :: l, last_link (x + 8) l = y + 8 := by
  rcases last_link_cases (x + 8) l with ⟨_, h⟩ | ⟨y, hy, h⟩
  · exact ⟨x, List.mem_cons_self _ _, h⟩
  · exact ⟨y, List.mem_cons_of_mem _ hy, h⟩

theorem blk_next_lt (m : Mem) (x : Nat) : blk_next m x < 18446744073709551616 :=
  read64_lt _ _

theorem blk_size_lt (m : Mem) (x : Nat) : blk_size m x < 18446744073709551616 :=
  read64_lt _ _

/-- Storing the successor of `fit` through the pointer that leads to `fit` takes `fit`
out of the list that starts at the pointer stored at `lk`. -/
theorem chain_unlink (m : Mem) (fit : Nat) (l2 : List Nat) (l1 : List Nat) (lk : Nat)
    (hc : chain (blk_next m) (read64 m lk) (l1 ++ fit :: l2))
    (hlk : ∀ x ∈ l1 ++ l2, lk ≤ x ∨ x + 16 ≤ lk)
    (hp : (l1 ++ l2).Pairwise (fun x y => x + 8 ≤ y ∨ y + 8 ≤ x)) :
    chain (blk_next (write64 m (last_link lk l1) (blk_next m fit)))
      (read64 (write64 m (last_link lk l1) (blk_next m fit)) lk) (l1 ++ l2) := by
  induction l1 generalizing lk with
  | nil =>
    simp only [List.nil_append, last_link] at hc hlk hp ⊢
    obtain ⟨_, _, h3⟩ := hc
    rw [read64_write64_same _ _ _ (blk_next_lt _ _)]
    refine chain_congr _ _ _ _ ?_ h3
    intro x hx
    have := hlk x hx
    simp only [blk_next]
    rw [read64_write64_out _ _ _ _ (by omega)]
  | cons x l1 ih =>
    obtain ⟨h1, h2, h3⟩ := hc
    simp only [List.cons_append, List.pairwise_cons] at hp
    have hlk' : ∀ z ∈ l1 ++ l2, x + 8 ≤ z ∨ z + 16 ≤ x + 8 := by
      intro z hz
      have := hp.1 z hz
      omega
    have := ih (x + 8) h3 hlk' hp.2
    obtain ⟨y, hy, e⟩ := last_link_mem x l1
    have hy' : lk ≤ y ∨ y + 16 ≤ lk := by
      rcases List.mem_cons.mp hy with rfl | hy
      · exact hlk _ (List.mem_cons_self _ _)
      · exact hlk _ (List.mem_cons_of_mem _ (List.mem_append_left _ hy))
    refine ⟨?_, h2, this⟩
    show read64 (write64 m (last_link (x + 8) l1) (blk_next m fit)) lk = x
    rw [e, read64_write64_out _ _ _ _ (by omega)]
    exact h1

theorem pairwise_mem_cases (R : Nat → Nat → Prop) (hsymm : ∀ x y, R x y → R y x)
    (l : List Nat) (hp : l.Pairwise R) : ∀ x ∈ l, ∀ y ∈ l, x = y ∨ R x y := by
  induction l with
  | nil => intro x hx; cases hx
  | cons a l ih =>
    rw [List.pairwise_cons] at hp
    intro x hx y hy
    rcases List.mem_cons.mp hx with ex | hx <;> rcases List.mem_cons.mp hy with ey | hy
    · exact Or.inl (ex.trans ey.symm)
    · rw [ex]; exact Or.inr (hp.1 y hy)
    · rw [ey]; exact Or.inr (hsymm _ _ (hp.1 x hx))
    · exact ih hp.2 x hx y hy

/-- What `arena_list` says about a list with a distinguished element. -/
theorem arena_list_facts (m : Mem) (p : Nat) (l1 l2 : List Nat) (fit : Nat)
    (hl : arena_list m p (l1 ++ fit :: l2)) :
    p + 8388624 ≤ 18446744073709551616 ∧
    (p + 16 ≤ fit ∧ 24 ≤ blk_size m fit ∧ fit + blk_size m fit ≤ p + 8388624) ∧
    (∀ x ∈ l1 ++ l2, p + 16 ≤ x ∧ 24 ≤ blk_size m x ∧ x + blk_size m x ≤ p + 8388624 ∧
      (x + blk_size m x ≤ fit ∨ fit + blk_size m fit ≤ x)) ∧
    (l1 ++ l2).Pairwise (fun x y => x + blk_size m x ≤ y ∨ y + blk_size m y ≤ x) ∧
    (∀ x ∈ l1 ++ l2, ∀ y ∈ l1 ++ l2,
      x = y ∨ (x + blk_size m x ≤ y ∨ y + blk_size m y ≤ x)) := by
  obtain ⟨_, ⟨hb1, hb2⟩, he, hr⟩ := hl
  simp only [arena_end, arena_data, ARENA_HDR, ARENA_SIZE_eq, W, HDR] at *
  have hfit : fit ∈ l1 ++ fit :: l2 := by simp
  have hsub : ∀ x ∈ l1 ++ l2, x ∈ l1 ++ fit :: l2 := by
    intro x hx
    simp only [List.mem_append, List.mem_cons] at hx ⊢
    tauto
  have hall := pairwise_mem_cases _ (fun x y h => h.symm) _ hb2
  have hpw : (l1 ++ l2).Pairwise (fun x y => x + blk_size m x ≤ y ∨ y + blk_size m y ≤ x) := by
    refine hb2.sublist ?_
    exact List.Sublist.append (List.Sublist.refl _) (List.sublist_cons_self _ _)
  have hne : ∀ x ∈ l1 ++ l2, x ≠ fit := by
    intro x hx e
    subst e
    rw [List.pairwise_append] at hb2
    obtain ⟨_, h2, h3⟩ := hb2
    rw [List.pairwise_cons] at h2
    have hs := (hb1 x hfit).1
    rcases List.mem_append.mp hx with h | h
    · have := h3 x h x (List.mem_cons_self _ _)
      omega
    · have := h2.1 x h
      omega
  have f1 := hr fit hfit
  have f2 := hb1 fit hfit
  refine ⟨by omega, ⟨by omega, by omega, by omega⟩, ?_, hpw,
    pairwise_mem_cases _ (fun x y h => h.symm) _ hpw⟩
  intro x hx
  have g1 := hr x (hsub x hx)
  have g2 := hb1 x (hsub x hx)
  refine ⟨by omega, by omega, by omega, ?_⟩
  rcases hall x (hsub x hx) fit hfit with e | h
  · exact absurd e (hne x hx)
  · exact h

/-- Where the pointer that leads to `fit` is stored: in the arena header or in the
`next_block` field of another block of the list. -/
theorem link_facts (m : Mem) (p : Nat) (l1 l2 : List Nat) (fit : Nat)
    (hl : arena_list m p (l1 ++ fit :: l2)) :
    (last_link (p + 8) l1 = p + 8 ∨ p + 24 ≤ last_link (p + 8) l1) ∧
    last_link (p + 8) l1 + 8 ≤ p + 8388624 ∧
    (last_link (p + 8) l1 + 8 ≤ fit ∨ fit + blk_size m fit + 8 ≤ last_link (p + 8) l1) ∧
    ∀ x ∈ l1 ++ l2, x + 8 ≤ last_link (p + 8) l1 ∨ last_link (p + 8) l1 + 8 ≤ x := by
  obtain ⟨h0, hf, hx, _, hall⟩ := arena_list_facts m p l1 l2 fit hl
  rcases last_link_cases (p + 8) l1 with ⟨_, e⟩ | ⟨y, hy, e⟩
  · rw [e]
    refine ⟨Or.inl rfl, by omega, by omega, ?_⟩
    intro x hx'
    have := hx x hx'
    omega
  · rw [e]
    have hy' : y ∈ l1 ++ l2 := List.mem_append_left _ hy
    have gy := hx y hy'
    refine ⟨Or.inr (by omega), by omega, by omega, ?_⟩
    intro x hx'
    have gx := hx x hx'
    rcases hall x hx' y hy' with e | h
    · omega
    · omega

theorem find_arena_walk_hit_eq (p q : Nat) (m : Mem) (l1 l2 : List Nat) (fit k : Nat)
    (hl : arena_list m p (l1 ++ fit :: l2)) (hs : ∀ x ∈ l1, blk_size m x < q)
    (hfit : q ≤ blk_size m fit) :
    find_arena_walk p q (l1.length + (k + 1)) m (p + 8) (arena_free_list m p)
      = some (some (fit, taken_mem p q m (last_link (p + 8) l1) fit)) := by
  obtain ⟨h0, hf, _, _, _⟩ := arena_list_facts m p l1 l2 fit hl
  obtain ⟨_, _, hk, _⟩ := link_facts m p l1 l2 fit hl
  have hsk := find_arena_walk_skip p q m l1 (fit :: l2) (k + 1) (p + 8) _ hl.1 hs
  rw [hsk.1]
  simp only [List.headD_cons]
  generalize last_link (p + 8) l1 = lk at *
  have e1 : blk_size (write64 m lk (blk_next m fit)) fit = blk_size m fit := by
    simp only [blk_size]
    simp only [blk_size] at hk hf
    rw [read64_write64_out _ _ _ _ (by omega)]
  unfold find_arena_walk
  rw [if_neg (by omega), if_pos hfit]
  simp only [e1]
  rw [wsub_of_le _ _ hfit]
  unfold taken_mem
  by_cases hsp : HDR + MIN_ALLOC_SIZE ≤ blk_size m fit - q
  · rw [if_pos hsp, if_pos hsp]
    have e2 : wrap (fit + q) = fit + q := by
      rw [wrap_eq]
      simp only [HDR, MIN_ALLOC_SIZE] at hsp
      omega
    rw [e2]
  · rw [if_neg hsp, if_neg hsp]

theorem blocks_ok_congr (m m' : Mem) (l : List Nat)
    (heq : ∀ x ∈ l, blk_size m' x = blk_size m x) (h : blocks_ok m l) : blocks_ok m' l := by
  obtain ⟨h1, h2⟩ := h
  refine ⟨fun x hx => by rw [heq x hx]; exact h1 x hx, ?_⟩
  refine h2.imp_of_mem ?_
  intro a b ha hb hab
  rw [heq a ha, heq b hb]
  exact hab

/-- After the unlink of `fit` the free list of the arena holds the other blocks. -/
theorem unlinked_arena_list (m : Mem) (p : Nat) (l1 l2 : List Nat) (fit : Nat)
    (hl : arena_list m p (l1 ++ fit :: l2)) :
    arena_list (write64 m (last_link (p + 8) l1) (blk_next m fit)) p (l1 ++ l2) ∧
    (∀ x ∈ l1 ++ l2, blk_size (write64 m (last_link (p + 8) l1) (blk_next m fit)) x
        = blk_size m x) ∧
    blk_size (write64 m (last_link (p + 8) l1) (blk_next m fit)) fit = blk_size m fit := by
  obtain ⟨h0, hf, hx, hpw, hall⟩ := arena_list_facts m p l1 l2 fit hl
  obtain ⟨_, _, hk, hk2⟩ := link_facts m p l1 l2 fit hl
  have hsz : ∀ x ∈ l1 ++ l2, blk_size (write64 m (last_link (p + 8) l1) (blk_next m fit)) x
        = blk_size m x := by
    intro x hx'
    have := hk2 x hx'
    simp only [blk_size]
    rw [read64_write64_out _ _ _ _ (by omega)]
  have hsub : ∀ x ∈ l1 ++ l2, x ∈ l1 ++ fit :: l2 := by
    intro x hx
    simp only [List.mem_append, List.mem_cons] at hx ⊢
    tauto
  refine ⟨⟨?_, ?_, hl.2.2.1, ?_⟩, hsz, ?_⟩
  · refine chain_unlink m fit l2 l1 (p + 8) hl.1 ?_ ?_
    · intro x hx'
      have := hx x hx'
      omega
    · refine hpw.imp_of_mem ?_
      intro a b ha hb hab
      have := hx a ha
      have := hx b hb
      omega
  · refine blocks_ok_congr m _ _ hsz ⟨fun x hx' => hl.2.1.1 x (hsub x hx'), hpw⟩
  · intro x hx'
    rw [hsz x hx']
    exact hl.2.2.2 x (hsub x hx')
  · simp only [blk_size] at hk hf ⊢
    rw [read64_write64_out _ _ _ _ (by omega)]

/-- The split: a remainder header is written at `fit + q` inside the block `fit` of size
`s`, which is not on the list; the remainder becomes the head of the arena's list. -/
theorem split_arena_list (m1 : Mem) (p q s fit : Nat) (l : List Nat)
    (hl : arena_list m1 p l) (hf1 : p + 16 ≤ fit) (hf2 : fit + s ≤ p + 8388624)
    (hd : ∀ x ∈ l, x + blk_size m1 x ≤ fit ∨ fit + s ≤ x)
    (hq : 8 ≤ q) (hs : q + 56 ≤ s) :
    arena_list (set_size (write64 (set_next (set_size m1 (fit + q) (s - q)) (fit + q)
        (arena_free_list (set_size m1 (fit + q) (s - q)) p)) (p + 8) (fit + q)) fit q)
      p ((fit + q) :: l) ∧
    (∀ x ∈ l, blk_size (set_size (write64 (set_next (set_size m1 (fit + q) (s - q)) (fit + q)
        (arena_free_list (set_size m1 (fit + q) (s - q)) p)) (p + 8) (fit + q)) fit q) x
      = blk_size m1 x) ∧
    blk_size (set_size (write64 (set_next (set_size m1 (fit + q) (s - q)) (fit + q)
        (arena_free_list (set_size m1 (fit + q) (s - q)) p)) (p + 8) (fit + q)) fit q) fit
      = q ∧
    blk_size (set_size (write64 (set_next (set_size m1 (fit + q) (s - q)) (fit + q)
        (arena_free_list (set_size m1 (fit + q) (s - q)) p)) (p + 8) (fit + q)) fit q)
        (fit + q)
      = s - q := by
  obtain ⟨hc, ⟨hb1, hb2⟩, he, hr⟩ := hl
  simp only [arena_end, arena_data, ARENA_HDR, ARENA_SIZE_eq, W, HDR] at he hr hb1
  have e0 : arena_free_list (set_size m1 (fit + q) (s - q)) p = arena_free_list m1 p := by
    simp only [arena_free_list, set_size]
    rw [read64_write64_out _ _ _ _ (by omega)]
  rw [e0]
  have hh : arena_free_list m1 p < 18446744073709551616 := read64_lt _ _
  generalize arena_free_list m1 p = h at hc hh ⊢
  generalize hM : set_size (write64 (set_next (set_size m1 (fit + q) (s - q)) (fit + q) h)
    (p + 8) (fit + q)) fit q = M
  have hsz : ∀ x ∈ l, blk_size M x = blk_size m1 x := by
    intro x hx
    have g1 := hr x hx
    have g2 := hb1 x hx
    have g3 := hd x hx
    subst hM
    simp (disch := omega) only [blk_size, set_size, set_next, read64_write64_out]
  have hnx : ∀ x ∈ l, blk_next M x = blk_next m1 x := by
    intro x hx
    have g1 := hr x hx
    have g2 := hb1 x hx
    have g3 := hd x hx
    subst hM
    simp (disch := omega) only [blk_next, set_size, set_next, read64_write64_out]
  have e1 : blk_size M fit = q := by
    subst hM
    simp (disch := omega) only [blk_size, set_size, read64_write64_same]
  have e2 : blk_size M (fit + q) = s - q := by
    subst hM
    simp (disch := omega) only [blk_size, set_size, set_next, read64_write64_out,
      read64_write64_same]
  have e3 : blk_next M (fit + q) = h := by
    subst hM
    simp (disch := omega) only [blk_next, set_size, set_next, read64_write64_out,
      read64_write64_same]
  have e4 : arena_free_list M p = fit + q := by
    subst hM
    simp (disch := omega) only [arena_free_list, set_size, set_next, read64_write64_out,
      read64_write64_same]
  refine ⟨⟨?_, ⟨?_, ?_⟩, ?_, ?_⟩, hsz, e1, e2⟩
  · rw [e4]
    refine ⟨rfl, by omega, ?_⟩
    rw [e3]
    exact chain_congr _ _ _ _ hnx hc
  · intro x hx
    rcases List.mem_cons.mp hx with e | hx
    · subst e
      rw [e2]
      simp only [HDR, W]
      omega
    · rw [hsz x hx]
      have := hb1 x hx
      simp only [HDR, W]
      omega
  · rw [List.pairwise_cons]
    refine ⟨?_, ?_⟩
    · intro x hx
      rw [e2, hsz x hx]
      have := hd x hx
      omega
    · refine hb2.imp_of_mem ?_
      intro a b ha hb hab
      rw [hsz a ha, hsz b hb]
      exact hab
  · simp only [arena_end, arena_data, ARENA_HDR, ARENA_SIZE_eq, W]
    omega
  · intro x hx
    simp only [arena_end, arena_data, ARENA_HDR, ARENA_SIZE_eq]
    rcases List.mem_cons.mp hx with e | hx
    · subst e
      rw [e2]
      omega
    · rw [hsz x hx]
      have := hr x hx
      omega

theorem last_glink_some (a : Nat) (l : List Nat) :
    last_glink (some a) l = some (last_link a l) := by
  induction l generalizing a with
  | nil => rfl
  | cons x l ih => exact ih (x + 8)

/-- The walk of `__find_global_block` passes the blocks that are too small. -/
theorem find_global_walk_skip (q : Nat) (s : State) (l1 rest : List Nat) (k : Nat)
    (prev : Option Nat) (cur : Nat)
    (hc : chain (blk_next s.mem) cur (l1 ++ rest)) (hs : ∀ x ∈ l1, blk_size s.mem x < q) :
    find_global_walk q (l1.length + k) s prev cur
      = find_global_walk q k s (last_glink prev l1) (rest.headD 0) ∧
    chain (blk_next s.mem) (rest.headD 0) rest := by
  induction l1 generalizing prev cur with
  | nil =>
    simp only [List.nil_append] at hc
    have := chain_head _ _ _ hc
    subst this
    simp only [List.length_nil, Nat.zero_add, last_glink]
    exact ⟨trivial, hc⟩
  | cons x l1 ih =>
    obtain ⟨h1, h2, h3⟩ := hc
    subst h1
    have hx := hs cur (List.mem_cons_self _ _)
    have := ih (some (cur + 8)) (blk_next s.mem cur) h3
      (fun y hy => hs y (List.mem_cons_of_mem _ hy))
    refine ⟨?_, this.2⟩
    have e : (cur :: l1).length + k = (l1.length + k) + 1 := by simp; omega
    have e2 : last_glink prev (cur :: l1) = last_glink (some (cur + 8)) l1 := rfl
    rw [e, e2, ← this.1]
    conv => lhs; unfold find_global_walk
    rw [if_neg h2, if_neg (by omega)]

/-- What `blocks_ok` says about a list with a distinguished element. -/
theorem blocks_ok_facts (m : Mem) (l1 l2 : List Nat) (fit : Nat)
    (hl : blocks_ok m (l1 ++ fit :: l2)) :
    (24 ≤ blk_size m fit ∧ fit + blk_size m fit ≤ 18446744073709551616) ∧
    (∀ x ∈ l1 ++ l2, 24 ≤ blk_size m x ∧ x + blk_size m x ≤ 18446744073709551616 ∧
      (x + blk_size m x ≤ fit ∨ fit + blk_size m fit ≤ x)) ∧
    (l1 ++ l2).Pairwise (fun x y => x + blk_size m x ≤ y ∨ y + blk_size m y ≤ x) ∧
    (∀ x ∈ l1 ++ l2, ∀ y ∈ l1 ++ l2,
      x = y ∨ (x + blk_size m x ≤ y ∨ y + blk_size m y ≤ x)) := by
  obtain ⟨hb1, hb2⟩ := hl
  simp only [W, HDR] at *
  have hfit : fit ∈ l1 ++ fit :: l2 := by simp
  have hsub : ∀ x ∈ l1 ++ l2, x ∈ l1 ++ fit :: l2 := by
    intro x hx
    simp only [List.mem_append, List.mem_cons] at hx ⊢
    tauto
  have hall := pairwise_mem_cases _ (fun x y h => h.symm) _ hb2
  have hpw : (l1 ++ l2).Pairwise (fun x y => x + blk_size m x ≤ y ∨ y + blk_size m y ≤ x) := by
    refine hb2.sublist ?_
    exact List.Sublist.append (List.Sublist.refl _) (List.sublist_cons_self _ _)
  have hne : ∀ x ∈ l1 ++ l2, x ≠ fit := by
    intro x hx e
    subst e
    rw [List.pairwise_append] at hb2
    obtain ⟨_, h2, h3⟩ := hb2
    rw [List.pairwise_cons] at h2
    have hs := (hb1 x hfit).1
    rcases List.mem_append.mp hx with h | h
    · have := h3 x h x (List.mem_cons_self _ _)
      omega
    · have := h2.1 x h
      omega
  have f2 := hb1 fit hfit
  refine ⟨⟨by omega, by omega⟩, ?_, hpw, pairwise_mem_cases _ (fun x y h => h.symm) _ hpw⟩
  intro x hx
  have g2 := hb1 x (hsub x hx)
  refine ⟨by omega, by omega, ?_⟩
  rcases hall x (hsub x hx) fit hfit with e | h
  · exact absurd e (hne x hx)
  · exact h

theorem find_global_walk_hit_eq (q : Nat) (s : State) (l1 l2 : List Nat) (fit k : Nat)
    (hl : global_list s (l1 ++ fit :: l2)) (hs : ∀ x ∈ l1, blk_size s.mem x < q)
    (hfit : q ≤ blk_size s.mem fit) :
    find_global_walk q (l1.length + (k + 1)) s none s.global_free_list
      = some (fit, taken_state q s (last_glink none l1) fit) := by
  obtain ⟨hf, hx, _, hall⟩ := blocks_ok_facts s.mem l1 l2 fit hl.2
  have hsk := find_global_walk_skip q s l1 (fit :: l2) (k + 1) none _ hl.1 hs
  rw [hsk.1]
  simp only [List.headD_cons]
  have hne : fit ≠ 0 := hsk.2.2.1
  have e1 : blk_size (store_link s (last_glink none l1) (blk_next s.mem fit)).mem fit
      = blk_size s.mem fit := by
    cases l1 with
    | nil => rfl
    | cons x l1 =>
      show blk_size (store_link s (last_glink (some (x + 8)) l1) (blk_next s.mem fit)).mem fit
        = blk_size s.mem fit
      rw [last_glink_some]
      simp only [store_link, blk_size]
      obtain ⟨y, hy, e⟩ := last_link_mem x l1
      have gy := hx y (List.mem_append_left _ hy)
      simp only [blk_size] at gy hf
      rw [e, read64_write64_out _ _ _ _ (by omega)]
  generalize last_glink none l1 = lk at *
  unfold find_global_walk
  rw [if_neg hne, if_pos hfit]
  simp only [e1]
  rw [wsub_of_le _ _ hfit]
  unfold taken_state
  by_cases hsp : HDR + MIN_ALLOC_SIZE ≤ blk_size s.mem fit - q
  · rw [if_pos hsp, if_pos hsp]
    have e2 : wrap (fit + q) = fit + q := by
      rw [wrap_eq]
      simp only [HDR, MIN_ALLOC_SIZE] at hsp
      omega
    rw [e2]
  · rw [if_neg hsp, if_neg hsp]

/-- After the unlink of `fit` the global free list holds the other blocks. -/
theorem unlinked_global_list (s : State) (l1 l2 : List Nat) (fit : Nat)
    (hl : global_list s (l1 ++ fit :: l2)) :
    global_list (store_link s (last_glink none l1) (blk_next s.mem fit)) (l1 ++ l2) ∧
    (∀ x ∈ l1 ++ l2, blk_size (store_link s (last_glink none l1) (blk_next s.mem fit)).mem x
        = blk_size s.mem x) ∧
    blk_size (store_link s (last_glink none l1) (blk_next s.mem fit)).mem fit
      = blk_size s.mem fit ∧
    (store_link s (last_glink none l1) (blk_next s.mem fit)).global_free_list
      < 18446744073709551616 ∧
    (store_link s (last_glink none l1) (blk_next s.mem fit)).arenas = s.arenas ∧
    (store_link s (last_glink none l1) (blk_next s.mem fit)).mapped = s.mapped ∧
    (store_link s (last_glink none l1) (blk_next s.mem fit)).manager_initialized
      = s.manager_initialized := by
  obtain ⟨hf, hx, hpw, hall⟩ := blocks_ok_facts s.mem l1 l2 fit hl.2
  have hsub : ∀ x ∈ l1 ++ l2, x ∈ l1 ++ fit :: l2 := by
    intro x hx
    simp only [List.mem_append, List.mem_cons] at hx ⊢
    tauto
  cases l1 with
  | nil =>
    simp only [last_glink, store_link, List.nil_append] at *
    obtain ⟨⟨_, _, h3⟩, _⟩ := hl
    refine ⟨⟨h3, ⟨fun x hx' => ?_, hpw⟩⟩, fun _ _ => trivial, trivial, blk_next_lt _ _, trivial, trivial, trivial⟩
    have := hx x hx'
    simp only [HDR, W]
    omega
  | cons a l1 =>
    have hlk : last_glink none (a :: l1) = some (last_link (a + 8) l1) := last_glink_some _ _
    rw [hlk]
    simp only [store_link]
    obtain ⟨y, hy, e⟩ := last_link_mem a l1
    have hy' : y ∈ (a :: l1) ++ l2 := List.mem_append_left _ hy
    have ha' : a ∈ (a :: l1) ++ l2 := by simp
    have hsz : ∀ x ∈ (a :: l1) ++ l2,
        blk_size (write64 s.mem (last_link (a + 8) l1) (blk_next s.mem fit)) x
          = blk_size s.mem x := by
      intro x hx'
      have gx := hx x hx'
      have gy := hx y hy'
      simp only [blk_size] at gx gy ⊢
      rw [e, read64_write64_out _ _ _ _ ?_]
      rcases hall x hx' y hy' with e' | h
      · omega
      · simp only [blk_size] at h
        omega
    obtain ⟨⟨h1, h2, h3⟩, _⟩ := hl
    have hpw' := hpw
    simp only [List.cons_append, List.pairwise_cons] at hpw'
    have hch := chain_unlink s.mem fit l2 l1 (a + 8) h3
      (by
        intro z hz
        have := hpw'.1 z hz
        have := hx a ha'
        have := hx z (List.mem_cons_of_mem _ hz)
        omega)
      (by
        refine hpw'.2.imp_of_mem ?_
        intro u v hu hv huv
        have := hx u (List.mem_cons_of_mem _ hu)
        have := hx v (List.mem_cons_of_mem _ hv)
        omega)
    have ga := hx a ha'
    refine ⟨⟨⟨h1, h2, hch⟩, ?_⟩, hsz, ?_, ?_, trivial, trivial, trivial⟩
    · exact blocks_ok_congr s.mem _ _ hsz
        ⟨fun x hx' => by have := hx x hx'; simp only [HDR, W]; omega, hpw⟩
    · have gy := hx y hy'
      simp only [blk_size] at gy hf ⊢
      rw [e, read64_write64_out _ _ _ _ (by omega)]
    · rw [h1]
      omega

/-- The split on the global free list: a remainder header is written at `fit + q`
inside the block `fit` of size `sz`, which is not on the list; the remainder becomes
the head of the list. -/
theorem split_global_list (s1 : State) (q sz fit : Nat) (l : List Nat)
    (hl : global_list s1 l) (hh : s1.global_free_list < 18446744073709551616)
    (hf2 : fit + sz ≤ 18446744073709551616)
    (hd : ∀ x ∈ l, x + blk_size s1.mem x ≤ fit ∨ fit + sz ≤ x)
    (hq : 8 ≤ q) (hs : q + 56 ≤ sz) (M : Mem)
    (hM : M = set_size (set_next (set_size s1.mem (fit + q) (sz - q)) (fit + q)
      s1.global_free_list) fit q) :
    global_list { s1 with mem := M, global_free_list := fit + q } ((fit + q) :: l) ∧
    (∀ x ∈ l, blk_size M x = blk_size s1.mem x) ∧
    blk_size M fit = q ∧ blk_size M (fit + q) = sz - q := by
  obtain ⟨hc, ⟨hb1, hb2⟩⟩ := hl
  simp only [W, HDR] at hb1
  generalize s1.global_free_list = h at hc hh hM
  have hsz : ∀ x ∈ l, blk_size M x = blk_size s1.mem x := by
    intro x hx
    have g2 := hb1 x hx
    have g3 := hd x hx
    subst hM
    simp (disch := omega) only [blk_size, set_size, set_next, read64_write64_out]
  have hnx : ∀ x ∈ l, blk_next M x = blk_next s1.mem x := by
    intro x hx
    have g2 := hb1 x hx
    have g3 := hd x hx
    subst hM
    simp (disch := omega) only [blk_next, set_size, set_next, read64_write64_out]
  have e1 : blk_size M fit = q := by
    subst hM
    simp (disch := omega) only [blk_size, set_size, read64_write64_same]
  have e2 : blk_size M (fit + q) = sz - q := by
    subst hM
    simp (disch := omega) only [blk_size, set_size, set_next, read64_write64_out,
      read64_write64_same]
  have e3 : blk_next M (fit + q) = h := by
    subst hM
    simp (disch := omega) only [blk_next, set_size, set_next, read64_write64_out,
      read64_write64_same]
  refine ⟨⟨?_, ⟨?_, ?_⟩⟩, hsz, e1, e2⟩
  · refine ⟨rfl, by omega, ?_⟩
    show chain (blk_next M) (blk_next M (fit + q)) l
    rw [e3]
    exact chain_congr _ _ _ _ hnx hc
  · intro x hx
    show HDR ≤ blk_size M x ∧ x + blk_size M x ≤ W
    rcases List.mem_cons.mp hx with e | hx
    · subst e
      rw [e2]
      simp only [HDR, W]
      omega
    · rw [hsz x hx]
      have := hb1 x hx
      simp only [HDR, W]
      omega
  · show List.Pairwise (fun x y => x + blk_size M x ≤ y ∨ y + blk_size M y ≤ x) ((fit + q) :: l)
    rw [List.pairwise_cons]
    refine ⟨?_, ?_⟩
    · intro x hx
      rw [e2, hsz x hx]
      have := hd x hx
      omega
    · refine hb2.imp_of_mem ?_
      intro a b ha hb hab
      rw [hsz a ha, hsz b hb]
      exact hab

/-- The split rule on one arena free list. -/
theorem find_arena_walk_hit (p q : Nat) (m : Mem) (l1 l2 : List Nat) (fit k : Nat)
    (hl : arena_list m p (l1 ++ fit :: l2)) (hs : ∀ x ∈ l1, blk_size m x < q)
    (hfit : q ≤ blk_size m fit) (hq : 8 ≤ q) :
    find_arena_walk p q (l1.length + (k + 1)) m (p + 8) (arena_free_list m p)
      = some (some (fit, taken_mem p q m (last_link (p + 8) l1) fit)) ∧
    (∀ x ∈ l1 ++ l2, blk_size (taken_mem p q m (last_link (p + 8) l1) fit) x = blk_size m x) ∧
    (if HDR + MIN_ALLOC_SIZE ≤ blk_size m fit - q then
       blk_size (taken_mem p q m (last_link (p + 8) l1) fit) fit = q ∧
       blk_size (taken_mem p q m (last_link (p + 8) l1) fit) (fit + q) = blk_size m fit - q ∧
       arena_list (taken_mem p q m (last_link (p + 8) l1) fit) p ((fit + q) :: (l1 ++ l2))
     else
       blk_size (taken_mem p q m (last_link (p + 8) l1) fit) fit = blk_size m fit ∧
       arena_list (taken_mem p q m (last_link (p + 8) l1) fit) p (l1 ++ l2)) := by
  refine ⟨find_arena_walk_hit_eq p q m l1 l2 fit k hl hs hfit, ?_⟩
  obtain ⟨h0, hf, hx, _, _⟩ := arena_list_facts m p l1 l2 fit hl
  obtain ⟨hu1, hu2, hu3⟩ := unlinked_arena_list m p l1 l2 fit hl
  unfold taken_mem
  by_cases hsp : HDR + MIN_ALLOC_SIZE ≤ blk_size m fit - q
  · simp only [if_pos hsp]
    simp only [HDR, MIN_ALLOC_SIZE] at hsp
    obtain ⟨g1, g2, g3, g4⟩ := split_arena_list _ p q (blk_size m fit) fit (l1 ++ l2) hu1
      (by omega) (by omega)
      (by
        intro x hx'
        rw [hu2 x hx']
        exact (hx x hx').2.2.2)
      hq (by omega)
    exact ⟨fun x hx' => by rw [g2 x hx', hu2 x hx'], g3, g4, g1⟩
  · simp only [if_neg hsp]
    exact ⟨hu2, hu3, hu1⟩

/-- The loop over the arenas passes the arenas whose free list holds no fit. -/
theorem find_arena_loop_skip (q inner : Nat) (m : Mem) (as1 rest : List Nat) (k head : Nat)
    (hc : chain (arena_next m) head (as1 ++ rest))
    (hmiss : ∀ B ∈ as1, find_arena_walk B q inner m (B + 8) (arena_free_list m B) = some none) :
    find_arena_loop q inner (as1.length + k) m head
      = find_arena_loop q inner k m (rest.headD 0) := by
  induction as1 generalizing head with
  | nil =>
    simp only [List.nil_append] at hc
    have := chain_head _ _ _ hc
    subst this
    simp
  | cons B as1 ih =>
    obtain ⟨h1, h2, h3⟩ := hc
    subst h1
    have e : (head :: as1).length + k = (as1.length + k) + 1 := by simp; omega
    rw [e, ← ih _ h3 (fun C hC => hmiss C (List.mem_cons_of_mem _ hC))]
    conv => lhs; unfold find_arena_loop
    rw [if_neg h2, hmiss head (List.mem_cons_self _ _)]

theorem arenas_miss_walk (m : Mem) (q fuel : Nat) (as1 : List Nat)
    (h : arenas_miss m q fuel as1) :
    ∀ B ∈ as1, find_arena_walk B q fuel m (B + 8) (arena_free_list m B) = some none := by
  intro B hB
  obtain ⟨l, h1, h2, h3⟩ := h B hB
  obtain ⟨k, hk⟩ := Nat.exists_eq_add_of_lt h1
  have := find_arena_walk_none B q m l k (B + 8) _ h2 h3
  rw [hk]
  rw [show l.length + k + 1 = l.length + (k + 1) by omega]
  exact this

/-- The split rule for `__find_arena_block`: the fit is the first block of size `q` or
more on the free list of the first arena that has one. -/
theorem find_arena_block_hit (fuel q : Nat) (s : State) (as1 as2 : List Nat) (A : Nat)
    (l1 l2 : List Nat) (fit : Nat)
    (harenas : chain (arena_next s.mem) s.arenas (as1 ++ A :: as2))
    (hbefore : arenas_miss s.mem q fuel as1)
    (hl : arena_list s.mem A (l1 ++ fit :: l2)) (hs : ∀ x ∈ l1, blk_size s.mem x < q)
    (hfit : q ≤ blk_size s.mem fit) (hq : 8 ≤ q)
    (hfuel1 : as1.length < fuel) (hfuel2 : l1.length < fuel) :
    __find_arena_block fuel s q
      = some (fit, { s with mem := taken_mem A q s.mem (last_link (A + 8) l1) fit }) := by
  obtain ⟨k1, hk1⟩ := Nat.exists_eq_add_of_lt hfuel1
  obtain ⟨k2, hk2⟩ := Nat.exists_eq_add_of_lt hfuel2
  have hA : A ≠ 0 := by
    refine chain_not_mem_zero _ _ _ harenas A ?_
    simp
  have hw := (find_arena_walk_hit A q s.mem l1 l2 fit k2 hl hs hfit hq).1
  rw [show l1.length + (k2 + 1) = fuel by omega] at hw
  unfold __find_arena_block
  have e : find_arena_loop q fuel fuel s.mem s.arenas
      = some (fit, taken_mem A q s.mem (last_link (A + 8) l1) fit) := by
    have hskip := find_arena_loop_skip q fuel s.mem as1 (A :: as2) (k1 + 1) s.arenas harenas
      (arenas_miss_walk _ _ _ _ hbefore)
    rw [show as1.length + (k1 + 1) = fuel by omega] at hskip
    rw [hskip]
    simp only [List.headD_cons]
    unfold find_arena_loop
    rw [if_neg hA, hw]
  rw [e]

/-- The split rule for `__find_global_block`. -/
theorem find_global_block_hit (fuel q : Nat) (s : State) (l1 l2 : List Nat) (fit : Nat)
    (hl : global_list s (l1 ++ fit :: l2)) (hs : ∀ x ∈ l1, blk_size s.mem x < q)
    (hfit : q ≤ blk_size s.mem fit) (hq : 8 ≤ q) (hfuel : l1.length < fuel) :
    __find_global_block fuel s q = some (fit, taken_state q s (last_glink none l1) fit) ∧
    (taken_state q s (last_glink none l1) fit).arenas = s.arenas ∧
    (taken_state q s (last_glink none l1) fit).mapped = s.mapped ∧
    (∀ x ∈ l1 ++ l2, blk_size (taken_state q s (last_glink none l1) fit).mem x
        = blk_size s.mem x) ∧
    (if HDR + MIN_ALLOC_SIZE ≤ blk_size s.mem fit - q then
       blk_size (taken_state q s (last_glink none l1) fit).mem fit = q ∧
       blk_size (taken_state q s (last_glink none l1) fit).mem (fit + q)
         = blk_size s.mem fit - q ∧
       global_list (taken_state q s (last_glink none l1) fit) ((fit + q) :: (l1 ++ l2))
     else
       blk_size (taken_state q s (last_glink none l1) fit).mem fit = blk_size s.mem fit ∧
       global_list (taken_state q s (last_glink none l1) fit) (l1 ++ l2)) := by
  obtain ⟨k, hk⟩ := Nat.exists_eq_add_of_lt hfuel
  have hw := find_global_walk_hit_eq q s l1 l2 fit k hl hs hfit
  rw [show l1.length + (k + 1) = fuel by omega] at hw
  refine ⟨hw, ?_⟩
  obtain ⟨hf, hx, _, _⟩ := blocks_ok_facts s.mem l1 l2 fit hl.2
  obtain ⟨hu1, hu2, hu3, hu4, hu5, hu6, _⟩ := unlinked_global_list s l1 l2 fit hl
  unfold taken_state
  by_cases hsp : HDR + MIN_ALLOC_SIZE ≤ blk_size s.mem fit - q
  · simp only [if_pos hsp]
    simp only [HDR, MIN_ALLOC_SIZE] at hsp
    obtain ⟨g1, g2, g3, g4⟩ := split_global_list _ q (blk_size s.mem fit) fit (l1 ++ l2) hu1
      hu4 (by omega)
      (by
        intro x hx'
        rw [hu2 x hx']
        exact (hx x hx').2.2)
      hq (by omega) _ rfl
    exact ⟨hu5, hu6, fun x hx' => by rw [g2 x hx', hu2 x hx'], g3, g4, g1⟩
  · simp only [if_neg hsp]
    exact ⟨hu5, hu6, hu2, hu3, hu1⟩

theorem two_lists_state_layout :
    (two_lists_state.arenas,
     list_entries two_lists_state.mem 4 (arena_free_list two_lists_state.mem MAP0))
      = (MAP0, [(MAP0 + 16, 32, false), (MAP0 + 184, ARENA_SIZE - 168, false)]) ∧
    (two_lists_state.global_free_list,
     list_entries two_lists_state.mem 4 two_lists_state.global_free_list)
      = (MAP0 + 16 * MiB, [(MAP0 + 16 * MiB, 16 * MiB + 48, false)]) := by
  decide!

/-- Support for C15 and C16: when no free list of any arena holds a block of size `q` or
more, `__find_arena_block` returns `NULL` and the state it was given. -/
theorem find_arena_block_none (fuel q : Nat) (s : State) (arenas : List Nat)
    (hc : chain (arena_next s.mem) s.arenas arenas)
    (hm : arenas_miss s.mem q fuel arenas) (hf : arenas.length < fuel) :
    __find_arena_block fuel s q = some (0, s) := by
  obtain ⟨k, hk⟩ := Nat.exists_eq_add_of_lt hf
  have h := find_arena_loop_skip q fuel s.mem arenas [] (k + 1) s.arenas (by simpa using hc)
    (arenas_miss_walk _ _ _ _ hm)
  rw [show arenas.length + (k + 1) = fuel by omega] at h
  unfold __find_arena_block
  rw [h]
  simp [find_arena_loop]

/-- Support for C15: when the global free list holds no block of size `q` or more,
`__find_global_block` returns `NULL` and the state it was given. -/
theorem find_global_block_none (fuel q : Nat) (s : State) (l : List Nat)
    (hc : chain (blk_next s.mem) s.global_free_list l)
    (hs : ∀ x ∈ l, blk_size s.mem x < q) (hf : l.length < fuel) :
    __find_global_block fuel s q = some (0, s) := by
  obtain ⟨k, hk⟩ := Nat.exists_eq_add_of_lt hf
  have h := find_global_walk_skip q s l [] (k + 1) none s.global_free_list
    (by simpa using hc) hs
  rw [show l.length + (k + 1) = fuel by omega] at h
  unfold __find_global_block
  rw [h.1]
  simp [find_global_walk]

/-! ## The round trip of a small block -/

theorem same_outside_refl (lo hi : Nat) (m : Mem) : same_outside lo hi m m :=
  fun _ _ => rfl

theorem same_outside_trans (lo hi : Nat) (m1 m2 m3 : Mem)
    (h1 : same_outside lo hi m1 m2) (h2 : same_outside lo hi m2 m3) :
    same_outside lo hi m1 m3 :=
  fun b hb => (h2 b hb).trans (h1 b hb)

theorem same_outside_write64 (lo hi : Nat) (m : Mem) (a v : Nat) (h1 : lo ≤ a)
    (h2 : a + 8 ≤ hi) : same_outside lo hi m (write64 m a v) :=
  fun b hb => read8_write64_out m a v b (by omega)

theorem same_outside_write8 (lo hi : Nat) (m : Mem) (a v : Nat) (h1 : lo ≤ a)
    (h2 : a < hi) : same_outside lo hi m (write8 m a v) :=
  fun b hb => read8_write8_ne m a v b (by omega)

theorem readN_congr (m m' : Mem) (b n : Nat)
    (h : ∀ i, i < n → read8 m' (b + i) = read8 m (b + i)) : readN m' b n = readN m b n := by
  induction n generalizing b with
  | zero => simp only [readN]
  | succ n ih =>
    simp only [readN]
    have h0 := h 0 (by omega)
    simp only [Nat.add_zero] at h0
    rw [h0, ih (b + 1) (fun i hi => by
      have := h (i + 1) (by omega)
      rw [show b + (i + 1) = b + 1 + i by omega] at this
      exact this)]

theorem read64_same_outside (lo hi : Nat) (m m' : Mem) (h : same_outside lo hi m m')
    (b : Nat) (hb : b + 8 ≤ lo ∨ hi ≤ b) : read64 m' b = read64 m b := by
  unfold read64
  exact readN_congr m m' b 8 (fun i hi => h (b + i) (by omega))

/-- A list walked by `__remove_free_list_entry` that does not hold the block. -/
theorem remove_walk_absent (t : Nat) (m : Mem) (l : List Nat) (k prev cur : Nat)
    (hc : chain (blk_next m) cur l) (ht : t ∉ l) :
    remove_walk t (l.length + (k + 1)) m prev cur = some m := by
  induction l generalizing prev cur with
  | nil =>
    have : cur = 0 := hc
    subst this
    simp [remove_walk]
  | cons x l ih =>
    obtain ⟨h1, h2, h3⟩ := hc
    subst h1
    have hx : cur ≠ t := fun e => ht (by simp [e])
    have := ih (cur + 8) (blk_next m cur) h3 (fun h => ht (List.mem_cons_of_mem _ h))
    rw [show (cur :: l).length + (k + 1) = (l.length + (k + 1)) + 1 by simp; omega]
    conv => lhs; unfold remove_walk
    rw [if_neg h2, if_neg hx]
    exact this

/-- A list walked by `__remove_free_list_entry` that holds the block. -/
theorem remove_walk_present (t : Nat) (m : Mem) (l1 l2 : List Nat) (k prev cur : Nat)
    (hc : chain (blk_next m) cur (l1 ++ t :: l2)) (ht : t ∉ l1) :
    remove_walk t (l1.length + (k + 1)) m prev cur
      = some (write64 m (last_link prev l1) (blk_next m t)) := by
  induction l1 generalizing prev cur with
  | nil =>
    obtain ⟨h1, h2, _⟩ := hc
    subst h1
    simp only [List.length_nil, Nat.zero_add, last_link]
    unfold remove_walk
    rw [if_neg h2, if_pos rfl]
  | cons x l1 ih =>
    obtain ⟨h1, h2, h3⟩ := hc
    subst h1
    have hx : cur ≠ t := fun e => ht (by simp [e])
    have := ih (cur + 8) (blk_next m cur) h3 (fun h => ht (List.mem_cons_of_mem _ h))
    rw [show (cur :: l1).length + (k + 1) = (l1.length + (k + 1)) + 1 by simp; omega]
    conv => lhs; unfold remove_walk
    rw [if_neg h2, if_neg hx]
    exact this

theorem chain_next_mem (nxt : Nat → Nat) (l : List Nat) (h : Nat) (hc : chain nxt h l) :
    ∀ x ∈ l, nxt x = 0 ∨ nxt x ∈ l := by
  induction l generalizing h with
  | nil => intro x hx; cases hx
  | cons y l ih =>
    obtain ⟨h1, h2, h3⟩ := hc
    intro x hx
    rcases List.mem_cons.mp hx with e | hx
    · rw [e]
      cases l with
      | nil => exact Or.inl h3
      | cons z l => exact Or.inr (by rw [h3.1]; simp)
    · rcases ih _ h3 x hx with h | h
      · exact Or.inl h
      · exact Or.inr (List.mem_cons_of_mem _ h)

/-- The walk of `__find_previous_block` over a list that does not hold `blk` finds
nothing. -/
theorem prev_walk_absent (m : Mem) (blk : Nat) (l : List Nat) (k head : Nat)
    (hc : chain (blk_next m) head l) (hb : blk ∉ l) (hb0 : blk ≠ 0) :
    prev_walk m blk (l.length + (k + 1)) head = some 0 := by
  have hnx := chain_next_mem _ _ _ hc
  induction l generalizing head with
  | nil =>
    have : head = 0 := hc
    subst this
    simp [prev_walk]
  | cons x l ih =>
    obtain ⟨h1, h2, h3⟩ := hc
    subst h1
    have hne : blk_next m head ≠ blk := by
      intro e
      rcases hnx head (List.mem_cons_self _ _) with h | h
      · exact hb0 (e ▸ h)
      · exact hb (e ▸ h)
    rw [show (head :: l).length + (k + 1) = (l.length + (k + 1)) + 1 by simp; omega]
    conv => lhs; unfold prev_walk
    rw [if_neg h2, if_neg hne]
    exact ih _ h3 (fun h => hb (List.mem_cons_of_mem _ h)) (chain_next_mem _ _ _ h3)

/-- The walk of `__find_container_arena` passes the arenas that do not contain the
block and stops at the first that does. -/
theorem find_container_walk_skip (m : Mem) (blk : Nat) (as1 rest : List Nat) (k head : Nat)
    (hc : chain (arena_next m) head (as1 ++ rest))
    (hout : ∀ B ∈ as1, ¬ (arena_data B ≤ blk ∧ blk < arena_end B)) :
    find_container_walk m blk (as1.length + k) head
      = find_container_walk m blk k (rest.headD 0) := by
  induction as1 generalizing head with
  | nil =>
    simp only [List.nil_append] at hc
    have := chain_head _ _ _ hc
    subst this
    simp
  | cons B as1 ih =>
    obtain ⟨h1, h2, h3⟩ := hc
    subst h1
    rw [show (head :: as1).length + k = (as1.length + k) + 1 by simp; omega,
      ← ih _ h3 (fun C hC => hout C (List.mem_cons_of_mem _ hC))]
    conv => lhs; unfold find_container_walk
    rw [if_neg h2, if_neg (hout head (List.mem_cons_self _ _))]

theorem arena_list_congr (m m' : Mem) (A : Nat) (l : List Nat)
    (hsz : ∀ x ∈ l, blk_size m' x = blk_size m x)
    (hnx : ∀ x ∈ l, blk_next m' x = blk_next m x)
    (hh : arena_free_list m' A = arena_free_list m A)
    (h : arena_list m A l) : arena_list m' A l := by
  obtain ⟨h1, h2, h3, h4⟩ := h
  refine ⟨?_, blocks_ok_congr m m' l hsz h2, h3, ?_⟩
  · rw [hh]
    exact chain_congr _ _ _ _ hnx h1
  · intro x hx
    rw [hsz x hx]
    exact h4 x hx

/-- What holds after `r_malloc` has taken `fit` from the free list `l1 ++ fit :: l2` of
the arena `A` and flagged it live: the list that remains, the size of `fit`, and the
block that follows `fit`. -/
theorem taken_facts (A q : Nat) (m : Mem) (l1 l2 : List Nat) (fit : Nat)
    (hl : arena_list m A (l1 ++ fit :: l2)) (hs : ∀ x ∈ l1, blk_size m x < q)
    (hfit : q ≤ blk_size m fit) (hq : 32 ≤ q)
    (hnext : fit + blk_size m fit = A + 8388624 ∨
      blk_size m (fit + blk_size m fit) ≤ 8388608)
    (m1 : Mem)
    (hm1 : m1 = set_active (taken_mem A q m (last_link (A + 8) l1) fit) fit true) :
    ∃ L, arena_list m1 A L ∧ L.length ≤ (l1 ++ l2).length + 1 ∧
      q ≤ blk_size m1 fit ∧ A + 16 ≤ fit ∧ fit + blk_size m1 fit ≤ A + 8388624 ∧
      (∀ x ∈ L, x + blk_size m1 x ≤ fit ∨ fit + blk_size m1 fit ≤ x) ∧
      (fit + blk_size m1 fit = A + 8388624 ∨
        blk_size m1 (fit + blk_size m1 fit) ≤ 8388608) ∧
      same_outside (A + 8) (A + 8388624) m m1 := by
  obtain ⟨h0, hf, hx, _, _⟩ := arena_list_facts m A l1 l2 fit hl
  obtain ⟨hk1, hk2, hk3, hk4⟩ := link_facts m A l1 l2 fit hl
  obtain ⟨_, h2, h3⟩ := find_arena_walk_hit A q m l1 l2 fit 0 hl hs hfit (by omega)
  have hact : ∀ (M : Mem) (b : Nat), b + 8 ≤ fit + 16 ∨ fit + 16 < b →
      read64 (set_active M fit true) b = read64 M b := by
    intro M b hb
    unfold set_active
    rw [read64_write8_out _ _ _ _ (by omega)]
  generalize hlk : last_link (A + 8) l1 = lk at *
  by_cases hsp : HDR + MIN_ALLOC_SIZE ≤ blk_size m fit - q
  · simp only [if_pos hsp] at h3
    obtain ⟨g1, g2, g3⟩ := h3
    simp only [HDR, MIN_ALLOC_SIZE] at hsp
    have hfr : same_outside (A + 8) (A + 8388624) m m1 := by
      subst hm1
      unfold taken_mem
      rw [if_pos (by simp only [HDR, MIN_ALLOC_SIZE]; omega)]
      unfold set_active set_size set_next
      refine same_outside_trans _ _ _ _ _ ?_ (same_outside_write8 _ _ _ _ _ (by omega) (by omega))
      refine same_outside_trans _ _ _ _ _ ?_ (same_outside_write64 _ _ _ _ _ (by omega) (by omega))
      refine same_outside_trans _ _ _ _ _ ?_ (same_outside_write64 _ _ _ _ _ (by omega) (by omega))
      refine same_outside_trans _ _ _ _ _ ?_ (same_outside_write64 _ _ _ _ _ (by omega) (by omega))
      refine same_outside_trans _ _ _ _ _ ?_ (same_outside_write64 _ _ _ _ _ (by omega) (by omega))
      exact same_outside_write64 _ _ _ _ _ (by omega) (by omega)
    generalize taken_mem A q m lk fit = T at *
    have e1 : blk_size m1 fit = q := by
      subst hm1
      simp only [blk_size] at g1 ⊢
      rw [hact _ _ (by omega), g1]
    have e2 : blk_size m1 (fit + q) = blk_size m fit - q := by
      subst hm1
      simp only [blk_size] at g2 ⊢
      rw [hact _ _ (by omega), g2]
    have hsz : ∀ x ∈ l1 ++ l2, blk_size m1 x = blk_size m x := by
      intro x hx'
      have := hx x hx'
      subst hm1
      rw [← h2 x hx']
      simp only [blk_size]
      rw [hact _ _ (by omega)]
    refine ⟨(fit + q) :: (l1 ++ l2), ?_, by simp, by omega, by omega, by omega, ?_, ?_, hfr⟩
    · refine arena_list_congr T m1 A _ ?_ ?_ ?_ g3
      · intro x hx'
        rcases List.mem_cons.mp hx' with e | hx'
        · rw [e, e2, g2]
        · rw [hsz x hx', h2 x hx']
      · intro x hx'
        subst hm1
        simp only [blk_next]
        rcases List.mem_cons.mp hx' with e | hx'
        · rw [e, hact _ _ (by omega)]
        · have := hx x hx'
          rw [hact _ _ (by omega)]
      · subst hm1
        simp only [arena_free_list]
        rw [hact _ _ (by omega)]
    · intro x hx'
      rw [e1]
      rcases List.mem_cons.mp hx' with e | hx'
      · right; omega
      · rw [hsz x hx']
        have := hx x hx'
        omega
    · right
      rw [e1, e2]
      omega
  · simp only [if_neg hsp] at h3
    obtain ⟨g1, g3⟩ := h3
    have hT : taken_mem A q m lk fit = write64 m lk (blk_next m fit) := by
      unfold taken_mem
      rw [if_neg hsp]
    have hfr : same_outside (A + 8) (A + 8388624) m m1 := by
      subst hm1
      rw [hT]
      unfold set_active
      refine same_outside_trans _ _ _ _ _ ?_ (same_outside_write8 _ _ _ _ _ (by omega) (by omega))
      exact same_outside_write64 _ _ _ _ _ (by omega) (by omega)
    have e1 : blk_size m1 fit = blk_size m fit := by
      subst hm1
      simp only [blk_size] at g1 ⊢
      rw [hact _ _ (by omega), g1]
    have hsz : ∀ x ∈ l1 ++ l2, blk_size m1 x = blk_size m x := by
      intro x hx'
      have := hx x hx'
      subst hm1
      rw [← h2 x hx']
      simp only [blk_size]
      rw [hact _ _ (by omega)]
    refine ⟨l1 ++ l2, ?_, by simp, by omega, by omega, by omega, ?_, ?_, hfr⟩
    · refine arena_list_congr (taken_mem A q m lk fit) m1 A _ ?_ ?_ ?_ g3
      · intro x hx'
        rw [hsz x hx', h2 x hx']
      · intro x hx'
        subst hm1
        simp only [blk_next]
        have := hx x hx'
        rw [hact _ _ (by omega)]
      · subst hm1
        simp only [arena_free_list]
        rw [hact _ _ (by omega)]
    · intro x hx'
      rw [e1, hsz x hx']
      exact (hx x hx').2.2.2
    · rw [e1]
      rcases hnext with h | h
      · exact Or.inl h
      · right
        subst hm1
        rw [hT]
        simp only [blk_size] at h hf hk3 ⊢
        rw [hact _ _ (by omega), read64_write64_out _ _ _ _ (by omega)]
        exact h

/-- The two coalescing steps of `__free_arena_block` for a block `fit` that is not on
the free list `L` of its arena: only the forward step can merge; the result differs
from the memory before only inside the arena, and the block has not shrunk. -/
theorem aggregate_forward (fuel A : Nat) (m1 : Mem) (L : List Nat) (fit : Nat)
    (hL : arena_list m1 A L) (hfuel : L.length < fuel)
    (h24 : 24 ≤ blk_size m1 fit) (hin : A + 16 ≤ fit)
    (hend : fit + blk_size m1 fit ≤ A + 8388624)
    (hA : A + 8388624 < 18446744073709551616)
    (hd : ∀ x ∈ L, x + blk_size m1 x ≤ fit ∨ fit + blk_size m1 fit ≤ x)
    (hnext : fit + blk_size m1 fit = A + 8388624 ∨
      blk_size m1 (fit + blk_size m1 fit) ≤ 8388608) :
    ∃ M, __aggregate_arena_blocks fuel m1 A fit = some M ∧
      same_outside (A + 8) (A + 8388624) m1 M ∧ blk_size m1 fit ≤ blk_size M fit := by
  obtain ⟨k, hk⟩ := Nat.exists_eq_add_of_lt hfuel
  have hfitL : fit ∉ L := by
    intro h
    have := hd fit h
    omega
  have hLx : ∀ x ∈ L, A + 16 ≤ x ∧ 24 ≤ blk_size m1 x ∧ x + blk_size m1 x ≤ A + 8388624 := by
    intro x hx
    have g1 := hL.2.1.1 x hx
    have g2 := hL.2.2.2 x hx
    simp only [HDR, arena_data, arena_end, ARENA_HDR, ARENA_SIZE_eq] at g1 g2
    omega
  have e1 : wrap (fit + blk_size m1 fit) = fit + blk_size m1 fit := by
    rw [wrap_eq]; omega
  have hpw : ∀ (M : Mem) (l : List Nat), chain (blk_next M) (arena_free_list M A) l →
      fit ∉ l → l.length ≤ L.length →
      (match __find_previous_block fuel M A fit with
        | none => none
        | some prev =>
          if prev ≠ 0 ∧ blk_active M prev = false ∧ wrap (prev + blk_size M prev) = fit then
            __remove_free_list_entry fuel (set_size M prev (wrap (blk_size M prev + blk_size M fit)))
              A fit
          else some M) = some M := by
    intro M l hc hf hlen
    unfold __find_previous_block
    have := prev_walk_absent M fit l (fuel - l.length - 1) _ hc hf (by omega)
    rw [show l.length + (fuel - l.length - 1 + 1) = fuel by omega] at this
    rw [this]
    simp
  unfold __aggregate_arena_blocks
  simp only [e1]
  by_cases c : fit + blk_size m1 fit < arena_end A ∧ blk_active m1 (fit + blk_size m1 fit) = false
  · rw [if_pos c]
    have hlt : fit + blk_size m1 fit < A + 8388624 := by
      have := c.1
      simp only [arena_data, arena_end, ARENA_HDR, ARENA_SIZE_eq] at this
      omega
    have hn : blk_size m1 (fit + blk_size m1 fit) ≤ 8388608 := by
      rcases hnext with h | h
      · omega
      · exact h
    have e2 : wrap (blk_size m1 fit + blk_size m1 (fit + blk_size m1 fit))
        = blk_size m1 fit + blk_size m1 (fit + blk_size m1 fit) := by
      rw [wrap_eq]; omega
    rw [e2]
    generalize hnsz : blk_size m1 (fit + blk_size m1 fit) = nsz at *
    generalize hMs : set_size m1 fit (blk_size m1 fit + nsz) = Ms
    have hMs_sz : ∀ x ∈ L, blk_size Ms x = blk_size m1 x := by
      intro x hx
      have := hd x hx
      have := hLx x hx
      subst hMs
      simp only [blk_size, set_size]
      rw [read64_write64_out _ _ _ _ (by simp only [blk_size] at *; omega)]
    have hMs_nx : ∀ x ∈ L, blk_next Ms x = blk_next m1 x := by
      intro x hx
      have := hd x hx
      have := hLx x hx
      subst hMs
      simp only [blk_next, set_size]
      rw [read64_write64_out _ _ _ _ (by simp only [blk_size] at *; omega)]
    have hMs_h : arena_free_list Ms A = arena_free_list m1 A := by
      subst hMs
      simp only [arena_free_list, set_size]
      rw [read64_write64_out _ _ _ _ (by omega)]
    have hMs_fit : blk_size Ms fit = blk_size m1 fit + nsz := by
      subst hMs
      simp only [blk_size, set_size]
      rw [read64_write64_same _ _ _ (by simp only [blk_size] at *; omega)]
    have hMs_fr : same_outside (A + 8) (A + 8388624) m1 Ms := by
      subst hMs
      exact same_outside_write64 _ _ _ _ _ (by omega) (by omega)
    have hLs : arena_list Ms A L := arena_list_congr m1 Ms A L hMs_sz hMs_nx hMs_h hL
    by_cases hmem : fit + blk_size m1 fit ∈ L
    · obtain ⟨L1, L2, hsplit, hnot⟩ := List.eq_append_cons_of_mem hmem
      subst hsplit
      have hrm := remove_walk_present (fit + blk_size m1 fit) Ms L1 L2
        (fuel - L1.length - 1) (A + 8) _ hLs.1 hnot
      simp only [List.length_append, List.length_cons] at hk
      rw [show L1.length + (fuel - L1.length - 1 + 1) = fuel by omega] at hrm
      unfold __remove_free_list_entry
      rw [hrm]
      obtain ⟨hu1, _, _⟩ := unlinked_arena_list Ms A L1 L2 _ hLs
      obtain ⟨hk1, hk2, _, _⟩ := link_facts Ms A L1 L2 _ hLs
      generalize hlk : last_link (A + 8) L1 = lk at *
      generalize hMr : write64 Ms lk (blk_next Ms (fit + blk_size m1 fit)) = Mr at *
      have hfit' : fit ∉ L1 ++ L2 := by
        intro h
        apply hfitL
        simp only [List.mem_append, List.mem_cons] at h ⊢
        tauto
      have hMr_fit : blk_size Mr fit = blk_size Ms fit := by
        rcases last_link_cases (A + 8) L1 with ⟨_, e⟩ | ⟨y, hy, e⟩
        · rw [hlk] at e
          subst hMr
          simp only [blk_size]
          rw [read64_write64_out _ _ _ _ (by omega)]
        · rw [hlk] at e
          have hyL : y ∈ L1 ++ (fit + blk_size m1 fit) :: L2 := List.mem_append_left _ hy
          have := hd y hyL
          have := hLx y hyL
          subst hMr
          simp only [blk_size]
          rw [read64_write64_out _ _ _ _ (by simp only [blk_size] at *; omega)]
      refine ⟨Mr, ?_, ?_, ?_⟩
      · simp only
        exact hpw Mr (L1 ++ L2) hu1.1 hfit' (by simp)
      · refine same_outside_trans _ _ _ _ _ hMs_fr ?_
        subst hMr
        exact same_outside_write64 _ _ _ _ _ (by omega) (by omega)
      · rw [hMr_fit, hMs_fit]
        omega
    · have hrm := remove_walk_absent (fit + blk_size m1 fit) Ms L (fuel - L.length - 1)
        (A + 8) _ hLs.1 hmem
      rw [show L.length + (fuel - L.length - 1 + 1) = fuel by omega] at hrm
      unfold __remove_free_list_entry
      rw [hrm]
      refine ⟨Ms, ?_, hMs_fr, by rw [hMs_fit]; omega⟩
      simp only
      exact hpw Ms L hLs.1 hfitL (le_refl _)
  · rw [if_neg c]
    refine ⟨m1, ?_, same_outside_refl _ _ _, le_refl _⟩
    simp only
    exact hpw m1 L hL.1 hfitL (le_refl _)

/-- The loop of `__find_arena_block` on a memory `M` that has the arena links of `m`:
the arenas whose free list holds no fit are passed. -/
theorem find_arena_loop_skip2 (q inner : Nat) (m M : Mem) (as1 rest : List Nat) (k head : Nat)
    (hc : chain (arena_next m) head (as1 ++ rest))
    (hsame : ∀ B ∈ as1, arena_next M B = arena_next m B)
    (hmiss : ∀ B ∈ as1, find_arena_walk B q inner M (B + 8) (arena_free_list M B) = some none) :
    find_arena_loop q inner (as1.length + k) M head
      = find_arena_loop q inner k M (rest.headD 0) := by
  induction as1 generalizing head with
  | nil =>
    simp only [List.nil_append] at hc
    have := chain_head _ _ _ hc
    subst this
    simp
  | cons B as1 ih =>
    obtain ⟨h1, h2, h3⟩ := hc
    subst h1
    have e : (head :: as1).length + k = (as1.length + k) + 1 := by simp; omega
    rw [e, ← ih _ h3 (fun C hC => hsame C (List.mem_cons_of_mem _ hC))
      (fun C hC => hmiss C (List.mem_cons_of_mem _ hC))]
    conv => lhs; unfold find_arena_loop
    rw [if_neg h2, hmiss head (List.mem_cons_self _ _), hsame head (List.mem_cons_self _ _)]

/-- The walk of `__find_container_arena` on a memory `M` that has the arena links of
`m`. -/
theorem find_container_walk_skip2 (m M : Mem) (blk : Nat) (as1 rest : List Nat) (k head : Nat)
    (hc : chain (arena_next m) head (as1 ++ rest))
    (hsame : ∀ B ∈ as1, arena_next M B = arena_next m B)
    (hout : ∀ B ∈ as1, ¬ (arena_data B ≤ blk ∧ blk < arena_end B)) :
    find_container_walk M blk (as1.length + k) head
      = find_container_walk M blk k (rest.headD 0) := by
  induction as1 generalizing head with
  | nil =>
    simp only [List.nil_append] at hc
    have := chain_head _ _ _ hc
    subst this
    simp
  | cons B as1 ih =>
    obtain ⟨h1, h2, h3⟩ := hc
    subst h1
    rw [show (head :: as1).length + k = (as1.length + k) + 1 by simp; omega,
      ← ih _ h3 (fun C hC => hsame C (List.mem_cons_of_mem _ hC))
        (fun C hC => hout C (List.mem_cons_of_mem _ hC))]
    conv => lhs; unfold find_container_walk
    rw [if_neg h2, if_neg (hout head (List.mem_cons_self _ _)),
      hsame head (List.mem_cons_self _ _)]

/-- A fit at the head of the free list is taken. -/
theorem find_arena_walk_head (p q k : Nat) (m : Mem) (prev cur : Nat) (h0 : cur ≠ 0)
    (hfit : q ≤ blk_size m cur) :
    ∃ m', find_arena_walk p q (k + 1) m prev cur = some (some (cur, m')) := by
  unfold find_arena_walk
  rw [if_neg h0, if_pos hfit]
  simp only
  split
  · exact ⟨_, rfl⟩
  · exact ⟨_, rfl⟩

theorem arenas_full_miss (m : Mem) (q fuel : Nat) (as1 : List Nat)
    (h : arenas_full m q fuel as1) : arenas_miss m q fuel as1 := by
  intro B hB
  obtain ⟨l, h1, h2, h3⟩ := h B hB
  exact ⟨l, h1, h2.1, h3⟩

/-- Full arenas stay full when memory changes only inside another arena. -/
theorem arenas_full_frame (m M : Mem) (q fuel A : Nat) (as1 : List Nat)
    (hfr : same_outside (A + 8) (A + 8388624) m M)
    (hapart : ∀ B ∈ as1, arena_end B ≤ A ∨ arena_end A ≤ B)
    (h : arenas_full m q fuel as1) :
    arenas_miss M q fuel as1 ∧ ∀ B ∈ as1, arena_next M B = arena_next m B := by
  constructor
  · intro B hB
    obtain ⟨l, h1, h2, h3⟩ := h B hB
    have ha := hapart B hB
    simp only [arena_end, arena_data, ARENA_HDR, ARENA_SIZE_eq] at ha
    have hx : ∀ x ∈ l, B + 16 ≤ x ∧ 24 ≤ blk_size m x ∧ x + blk_size m x ≤ B + 8388624 := by
      intro x hx
      have g1 := h2.2.1.1 x hx
      have g2 := h2.2.2.2 x hx
      simp only [HDR, arena_data, arena_end, ARENA_HDR, ARENA_SIZE_eq] at g1 g2
      omega
    have hsz : ∀ x ∈ l, blk_size M x = blk_size m x := by
      intro x hx'
      have := hx x hx'
      exact read64_same_outside _ _ m M hfr x (by omega)
    have hnx : ∀ x ∈ l, blk_next M x = blk_next m x := by
      intro x hx'
      have := hx x hx'
      exact read64_same_outside _ _ m M hfr (x + 8) (by omega)
    have hh : arena_free_list M B = arena_free_list m B :=
      read64_same_outside _ _ m M hfr (B + 8) (by omega)
    refine ⟨l, h1, ?_, fun x hx' => by rw [hsz x hx']; exact h3 x hx'⟩
    rw [hh]
    exact chain_congr _ _ _ _ hnx h2.1
  · intro B hB
    have ha := hapart B hB
    simp only [arena_end, arena_data, ARENA_HDR, ARENA_SIZE_eq] at ha
    exact read64_same_outside _ _ m M hfr B (by omega)

/-- Function `__free_arena_block` on a block `fit` of the arena `A` that is not on the
free list `L` of `A`: the block is pushed at the head of the list, not smaller than
before, and then the arena is handed to `__remove_arena` exactly when the block has
the size of the arena. -/
theorem free_arena_block_pushed (fuel A : Nat) (s1 : State) (m : Mem) (as1 as2 L : List Nat)
    (fit : Nat)
    (harenas : chain (arena_next m) s1.arenas (as1 ++ A :: as2))
    (hsame : ∀ B ∈ as1, arena_next s1.mem B = arena_next m B)
    (hapart : ∀ B ∈ as1, arena_end B ≤ A ∨ arena_end A ≤ B)
    (hfuel1 : as1.length < fuel)
    (hL : arena_list s1.mem A L) (hfuel : L.length < fuel)
    (h24 : 24 ≤ blk_size s1.mem fit) (hin : A + 16 ≤ fit)
    (hend : fit + blk_size s1.mem fit ≤ A + 8388624)
    (hA : A + 8388624 < 18446744073709551616)
    (hd : ∀ x ∈ L, x + blk_size s1.mem x ≤ fit ∨ fit + blk_size s1.mem fit ≤ x)
    (hnext : fit + blk_size s1.mem fit = A + 8388624 ∨
      blk_size s1.mem (fit + blk_size s1.mem fit) ≤ 8388608) :
    ∃ M, same_outside (A + 8) (A + 8388624) s1.mem M ∧ arena_free_list M A = fit ∧
      blk_size s1.mem fit ≤ blk_size M fit ∧
      __free_arena_block fuel s1 fit
        = if blk_size M fit = ARENA_SIZE then __remove_arena fuel { s1 with mem := M } A
          else some { s1 with mem := M } := by
  obtain ⟨k, hk⟩ := Nat.exists_eq_add_of_lt hfuel1
  have hA0 : A ≠ 0 := by
    refine chain_not_mem_zero _ _ _ harenas A ?_
    simp
  obtain ⟨M', hagg, hfr, hsz⟩ := aggregate_forward fuel A s1.mem L fit hL hfuel h24 hin hend hA
    hd hnext
  have hcont : __find_container_arena fuel s1 fit = some A := by
    unfold __find_container_arena
    have h := find_container_walk_skip2 m s1.mem fit as1 (A :: as2) (k + 1) s1.arenas harenas
      hsame (by
        intro B hB
        have := hapart B hB
        simp only [arena_end, arena_data, ARENA_HDR, ARENA_SIZE_eq] at this ⊢
        omega)
    rw [show as1.length + (k + 1) = fuel by omega] at h
    rw [h]
    simp only [List.headD_cons]
    unfold find_container_walk
    rw [if_neg hA0, if_pos (by
      simp only [arena_end, arena_data, ARENA_HDR, ARENA_SIZE_eq]
      omega)]
  generalize hM : set_active (write64 (set_next M' fit (arena_free_list M' A)) (A + 8) fit)
    fit false = M
  have hM_h : arena_free_list M A = fit := by
    subst hM
    simp only [arena_free_list, set_active, set_next]
    rw [read64_write8_out _ _ _ _ (by omega), read64_write64_same _ _ _ (by omega)]
  have hM_sz : blk_size M fit = blk_size M' fit := by
    subst hM
    simp only [blk_size, set_active, set_next]
    rw [read64_write8_out _ _ _ _ (by omega), read64_write64_out _ _ _ _ (by omega),
      read64_write64_out _ _ _ _ (by omega)]
  have hM_fr : same_outside (A + 8) (A + 8388624) s1.mem M := by
    refine same_outside_trans _ _ _ _ _ hfr ?_
    subst hM
    unfold set_active set_next
    refine same_outside_trans _ _ _ _ _ ?_ (same_outside_write8 _ _ _ _ _ (by omega) (by omega))
    refine same_outside_trans _ _ _ _ _ ?_ (same_outside_write64 _ _ _ _ _ (by omega) (by omega))
    exact same_outside_write64 _ _ _ _ _ (by omega) (by omega)
  refine ⟨M, hM_fr, hM_h, by rw [hM_sz]; exact hsz, ?_⟩
  unfold __free_arena_block
  rw [hcont]
  simp only [if_neg hA0, hagg, hM, hM_h]

/-- Support for C11: the round trip when the first request is served from the free list
of an arena already in the sequence. -/
theorem round_trip_hit (fuel n : Nat) (os os2 : Option Nat) (s : State) (as1 as2 : List Nat)
    (A : Nat) (l1 l2 : List Nat) (fit : Nat)
    (hinit : s.manager_initialized = true)
    (hn : 0 < n) (hsmall : HDR + (n + 7) / 8 * 8 < ARENA_SIZE / 16)
    (harenas : chain (arena_next s.mem) s.arenas (as1 ++ A :: as2))
    (hapart : ∀ B ∈ as1, arena_end B ≤ A ∨ arena_end A ≤ B)
    (hbefore : arenas_full s.mem (__alloc_size n) fuel as1)
    (hl : arena_list s.mem A (l1 ++ fit :: l2)) (hend : arena_end A < W)
    (hs : ∀ x ∈ l1, blk_size s.mem x < __alloc_size n)
    (hfit : __alloc_size n ≤ blk_size s.mem fit)
    (hnext : fit + blk_size s.mem fit = arena_end A ∨
      blk_size s.mem (fit + blk_size s.mem fit) ≤ ARENA_SIZE)
    (hfuel1 : as1.length < fuel) (hfuel2 : (l1 ++ fit :: l2).length < fuel) :
    arena_data A ≤ fit ∧ fit + HDR < arena_end A ∧
    ∃ s1, r_malloc fuel os s n = some (fit + HDR, s1) ∧
      ((∃ M, blk_size M fit = ARENA_SIZE ∧
          r_free fuel s1 (fit + HDR) = __remove_arena fuel { s1 with mem := M } A) ∨
       (∃ s2 s3, r_free fuel s1 (fit + HDR) = some s2 ∧ s2.arenas = s.arenas ∧
          s2.mapped = s.mapped ∧ r_malloc fuel os2 s2 n = some (fit + HDR, s3))) := by
  have h16 : ARENA_SIZE / 16 = 524288 := by decide
  simp only [HDR, h16] at hsmall
  have hq := alloc_size_eq n (by omega)
  have hq2' : __alloc_size n < ARENA_SIZE / 16 := by rw [h16]; omega
  generalize hqq : __alloc_size n = q at *
  simp only [arena_end, arena_data, ARENA_HDR, ARENA_SIZE_eq, W] at hend hnext
  obtain ⟨h0, hf, _, _, _⟩ := arena_list_facts s.mem A l1 l2 fit hl
  have hfuel2' : l1.length < fuel := by
    simp only [List.length_append, List.length_cons] at hfuel2
    omega
  obtain ⟨k1, hk1⟩ := Nat.exists_eq_add_of_lt hfuel1
  have hA0 : A ≠ 0 := by
    refine chain_not_mem_zero _ _ _ harenas A ?_
    simp
  have hfind := find_arena_block_hit fuel q s as1 as2 A l1 l2 fit harenas
    (arenas_full_miss _ _ _ _ hbefore) hl hs hfit (by omega) hfuel1 hfuel2'
  have hp : __block_to_ptr fit = fit + 24 := by
    simp only [__block_to_ptr, wrap_eq, HDR]; omega
  have hb : __ptr_to_block (fit + 24) = fit := by
    simp only [__ptr_to_block, HDR]
    rw [wsub_of_le _ _ (by omega)]
    omega
  generalize hT : taken_mem A q s.mem (last_link (A + 8) l1) fit = T at hfind
  obtain ⟨L, hL, hLlen, t1, t2, t3, t4, t5, t6⟩ := taken_facts A q s.mem l1 l2 fit hl hs hfit
    (by omega) (by omega) (set_active T fit true) (by rw [hT])
  have hm : r_malloc fuel os s n
      = some (fit + 24, { s with mem := set_active T fit true }) := by
    unfold r_malloc
    rw [if_neg (by omega)]
    have hne : ¬ fit = 0 := by omega
    simp only [hqq, get_manager_initialized s hinit, hq2', if_true, hfind, hne, if_false,
      ne_eq, not_false_eq_true, hp]
  simp only [arena_end, arena_data, ARENA_HDR, ARENA_SIZE_eq, HDR]
  refine ⟨by omega, by omega, _, hm, ?_⟩
  generalize hm1 : set_active T fit true = m1 at *
  obtain ⟨_, hsame1⟩ := arenas_full_frame s.mem m1 q fuel A as1 t6 hapart hbefore
  have t1' : 24 ≤ blk_size m1 fit := by omega
  obtain ⟨M, hfr, hMh, hMsz, hfree⟩ := free_arena_block_pushed fuel A
    { s with mem := m1 } s.mem as1 as2 L fit harenas hsame1 hapart hfuel1 hL
    (by simp only [List.length_append, List.length_cons] at hfuel2 hLlen; omega)
    t1' t2 t3 (by omega) t4 t5
  have hMsz' : blk_size m1 fit ≤ blk_size M fit := hMsz
  have hrf : r_free fuel { s with mem := m1 } (fit + 24)
      = __free_arena_block fuel { s with mem := m1 } fit := by
    unfold r_free
    rw [if_neg (by omega), hb]
    have hi : ({ s with mem := m1 } : State).manager_initialized = true := hinit
    simp only [get_manager_initialized _ hi]
    rw [if_pos (by rw [ARENA_SIZE_eq]; show blk_size m1 fit ≤ 8388608; omega)]
  rw [hrf, hfree]
  by_cases hrec : blk_size M fit = ARENA_SIZE
  · left
    exact ⟨M, hrec, by rw [if_pos hrec]⟩
  · right
    rw [if_neg hrec]
    obtain ⟨hmiss2, hsame2⟩ := arenas_full_frame s.mem M q fuel A as1
      (same_outside_trans _ _ _ _ _ t6 hfr) hapart hbefore
    have hskip := find_arena_loop_skip2 q fuel s.mem M as1 (A :: as2) (k1 + 1) s.arenas
      harenas hsame2 (arenas_miss_walk _ _ _ _ hmiss2)
    rw [show as1.length + (k1 + 1) = fuel by omega] at hskip
    obtain ⟨k2, hk2⟩ : ∃ k2, fuel = k2 + 1 := ⟨fuel - 1, by omega⟩
    obtain ⟨X, hX⟩ := find_arena_walk_head A q k2 M (A + 8) fit (by omega)
      (le_trans t1 hMsz')
    rw [← hk2] at hX
    have hfind2 : __find_arena_block fuel { s with mem := M } q
        = some (fit, { s with mem := X }) := by
      unfold __find_arena_block
      simp only
      rw [hskip]
      simp only [List.headD_cons]
      conv => lhs; rw [hk1]
      unfold find_arena_loop
      rw [if_neg hA0, ← hk1, hMh, hX]
    refine ⟨{ s with mem := M }, { s with mem := set_active X fit true }, rfl, rfl, rfl, ?_⟩
    have hi : ({ s with mem := M } : State).manager_initialized = true := hinit
    have hne : ¬ fit = 0 := by omega
    unfold r_malloc
    rw [if_neg (by omega)]
    simp only [hqq, get_manager_initialized _ hi, hq2', if_true, hfind2, hne, if_false,
      ne_eq, not_false_eq_true, hp]

theorem get_manager_is_initialized (s : State) : (get_manager s).manager_initialized = true := by
  unfold get_manager
  split
  · assumption
  · rfl

/-- The release of the only block of a new arena hands the arena to `__remove_arena`. -/
theorem r_free_carved_reclaims (s1 : State) (m : Mem) (a nx q fuel : Nat)
    (hinit : s1.manager_initialized = true) (hmem : s1.mem = carved_mem m a nx q)
    (harenas : s1.arenas = a) (ha0 : a ≠ 0)
    (ha : a + 8388624 ≤ 18446744073709551616) (hq1 : 24 ≤ q) (hq2 : q < 524288) :
    ∃ M, blk_size M (a + 16) = 8388608 ∧
      r_free (fuel + 1) s1 (a + 40) = __remove_arena (fuel + 1) { s1 with mem := M } a := by
  have hb : __ptr_to_block (a + 40) = a + 16 := by
    simp only [__ptr_to_block, HDR]
    rw [wsub_of_le _ _ (by omega)]
    omega
  have r1 : blk_size (carved_mem m a nx q) (a + 16) = q := by
    simp (disch := omega) only [blk_size, carved_mem, split_mem, fresh_mem, set_active, set_next,
      set_size, arena_data, ARENA_HDR, ARENA_SIZE_eq, read64_write8_out, read64_write64_same]
  have r6 : arena_free_list
      (write64 (set_size (carved_mem m a nx q) (a + 16) 8388608) (a + 8) 0) a = 0 := by
    simp (disch := omega) only [arena_free_list, read64_write64_same]
  generalize hM : set_active (write64 (set_next
      (write64 (set_size (carved_mem m a nx q) (a + 16) 8388608) (a + 8) 0) (a + 16) 0)
      (a + 8) (a + 16)) (a + 16) false = M
  have r7 : arena_free_list M a = a + 16 := by
    subst hM
    simp (disch := omega) only [arena_free_list, set_active, set_next, read64_write8_out,
      read64_write64_same]
  have r8 : blk_size M (a + 16) = 8388608 := by
    subst hM
    simp (disch := omega) only [blk_size, set_active, set_next, set_size, read64_write8_out,
      read64_write64_out, read64_write64_same]
  refine ⟨M, r8, ?_⟩
  unfold r_free
  rw [if_neg (by omega), hb]
  simp only [get_manager_initialized s1 hinit]
  rw [hmem, r1, if_pos (by rw [ARENA_SIZE_eq]; omega)]
  unfold __free_arena_block __find_container_arena find_container_walk
  rw [harenas, if_neg ha0,
    if_pos (by simp only [arena_data, arena_end, ARENA_HDR, ARENA_SIZE_eq]; omega)]
  simp only [if_neg ha0]
  rw [hmem, aggregate_carved m a nx q fuel ha hq1 hq2]
  simp only
  rw [r6, hM, r7, r8, if_pos ARENA_SIZE_eq.symm]

/-- Support for C11: the round trip when the first request finds no fit and is served
from a new arena: the release hands the new arena to `__remove_arena`. -/
theorem round_trip_miss (fuel n a : Nat) (s : State) (hn : 0 < n)
    (hsmall : HDR + (n + 7) / 8 * 8 < ARENA_SIZE / 16) (ha : map_ok a)
    (hmiss : (__find_arena_block (fuel + 1) (get_manager s) (__alloc_size n)).map Prod.fst
               = some 0) :
    ∃ s1 M, r_malloc (fuel + 1) (some a) s n = some (arena_data a + HDR, s1) ∧
      s1.arenas = a ∧ blk_size M (arena_data a) = ARENA_SIZE ∧
      r_free (fuel + 1) s1 (arena_data a + HDR)
        = __remove_arena (fuel + 1) { s1 with mem := M } a := by
  obtain ⟨ha0, ha1⟩ := ha
  have ha2 : a + 8388624 ≤ 18446744073709551616 := by
    simpa only [W, ARENA_HDR, ARENA_SIZE] using ha1
  have h16 : ARENA_SIZE / 16 = 524288 := by decide
  simp only [HDR, h16] at hsmall
  have hq := alloc_size_eq n (by omega)
  have hq1 : 24 ≤ __alloc_size n := by omega
  have hq2 : __alloc_size n < 524288 := by omega
  have hm := r_malloc_fresh_arena s a _ n fuel ha0 ha2 (by omega) rfl hq1 hq2 hmiss
  generalize hS : ({ get_manager s with
      mem := carved_mem s.mem a (get_manager s).arenas (__alloc_size n), arenas := a,
      mapped := (a, ARENA_HDR + ARENA_SIZE) :: s.mapped } : State) = s1 at hm
  have hi : s1.manager_initialized = true := by
    subst hS
    exact get_manager_is_initialized s
  have hmem : s1.mem = carved_mem s.mem a (get_manager s).arenas (__alloc_size n) := by
    subst hS
    rfl
  have har : s1.arenas = a := by
    subst hS
    rfl
  obtain ⟨M, hM1, hM2⟩ := r_free_carved_reclaims s1 s.mem a (get_manager s).arenas
    (__alloc_size n) fuel hi hmem har ha0 ha2 hq1 hq2
  simp only [arena_data, ARENA_HDR, HDR, ARENA_SIZE_eq]
  exact ⟨s1, M, hm, har, hM1, hM2⟩

/-- Support for C11: the round trip of the witness, evaluated.  In `two_lists_state`
`r_malloc(64)` returns `MAP0 + 208`, the release keeps the arena `MAP0`, and the next
`r_malloc(64)` returns `MAP0 + 208` again. -/
theorem round_trip_example :
    (run_calls 8 [Call.malloc none 64, Call.free 0, Call.malloc none 64]
        two_lists_state []).map (fun r => (r.2, r.1.arenas))
      = some ([MAP0 + 208, MAP0 + 208], MAP0) := by
  decide!

/-! ## First fit, and the release of a large block -/

/-- A list either consists of elements that satisfy `P`, or has a first element that
does not. -/
theorem first_failure (P : Nat → Prop) [DecidablePred P] (l : List Nat) :
    (∀ x ∈ l, P x) ∨ ∃ l1 y l2, l = l1 ++ y :: l2 ∧ (∀ x ∈ l1, P x) ∧ ¬ P y := by
  induction l with
  | nil => exact Or.inl (fun x hx => absurd hx (List.not_mem_nil x))
  | cons a l ih =>
    by_cases ha : P a
    · rcases ih with h | ⟨l1, y, l2, e, h1, h2⟩
      · left
        intro x hx
        rcases List.mem_cons.mp hx with e | hx
        · rw [e]; exact ha
        · exact h x hx
      · right
        refine ⟨a :: l1, y, l2, by rw [e]; rfl, ?_, h2⟩
        intro x hx
        rcases List.mem_cons.mp hx with e | hx
        · rw [e]; exact ha
        · exact h1 x hx
    · exact Or.inr ⟨[], a, l, rfl, ⟨fun x hx => absurd hx (List.not_mem_nil x), ha⟩⟩

/-- The walk of `__find_arena_block` takes the first block of the free list that is
large enough. -/
theorem find_arena_walk_first (p q : Nat) (m : Mem) (l1 l2 : List Nat) (fit k prev cur : Nat)
    (hc : chain (blk_next m) cur (l1 ++ fit :: l2)) (hs : ∀ x ∈ l1, blk_size m x < q)
    (hfit : q ≤ blk_size m fit) :
    fit ≠ 0 ∧ ∃ m', find_arena_walk p q (l1.length + (k + 1)) m prev cur
      = some (some (fit, m')) := by
  have h := find_arena_walk_skip p q m l1 (fit :: l2) (k + 1) prev cur hc hs
  have h0 : fit ≠ 0 := h.2.2.1
  obtain ⟨m', hm'⟩ := find_arena_walk_head p q k m (last_link prev l1) fit h0 hfit
  refine ⟨h0, m', ?_⟩
  rw [h.1]
  exact hm'

/-- `__find_arena_block` returns the first fit of the first arena that has one. -/
theorem find_arena_block_first (fuel q : Nat) (s : State) (as1 as2 : List Nat) (A : Nat)
    (l1 l2 : List Nat) (fit : Nat)
    (harenas : chain (arena_next s.mem) s.arenas (as1 ++ A :: as2))
    (hbefore : arenas_miss s.mem q fuel as1)
    (hl : chain (blk_next s.mem) (arena_free_list s.mem A) (l1 ++ fit :: l2))
    (hs : ∀ x ∈ l1, blk_size s.mem x < q) (hfit : q ≤ blk_size s.mem fit)
    (hfuel1 : as1.length < fuel) (hfuel2 : l1.length < fuel) :
    fit ≠ 0 ∧ ∃ s', __find_arena_block fuel s q = some (fit, s') := by
  obtain ⟨k1, hk1⟩ := Nat.exists_eq_add_of_lt hfuel1
  obtain ⟨k2, hk2⟩ := Nat.exists_eq_add_of_lt hfuel2
  have hA : A ≠ 0 := by
    refine chain_not_mem_zero _ _ _ harenas A ?_
    simp
  obtain ⟨h0, m', hw⟩ := find_arena_walk_first A q s.mem l1 l2 fit k2 (A + 8) _ hl hs hfit
  rw [show l1.length + (k2 + 1) = fuel by omega] at hw
  refine ⟨h0, { s with mem := m' }, ?_⟩
  have hskip := find_arena_loop_skip q fuel s.mem as1 (A :: as2) (k1 + 1) s.arenas harenas
    (arenas_miss_walk _ _ _ _ hbefore)
  rw [show as1.length + (k1 + 1) = fuel by omega] at hskip
  unfold __find_arena_block
  rw [hskip]
  simp only [List.headD_cons]
  unfold find_arena_loop
  rw [if_neg hA, hw]

/-- Support for C21: in `two_lists_state`, whose arena free list holds a block of 32
bytes and then the remainder of the arena at `MAP0 + 184`, a search for 88 bytes returns
the remainder, a search for 32 bytes the first block, and a search for 8 MiB `NULL`. -/
theorem first_fit_example :
    ((__find_arena_block 4 two_lists_state 88).map Prod.fst,
     (__find_arena_block 4 two_lists_state 32).map Prod.fst,
     (__find_arena_block 4 two_lists_state ARENA_SIZE).map Prod.fst)
      = (some (MAP0 + 184), some (MAP0 + 16), some 0) := by
  decide!

/-- Support for C22: when the free entry lies behind the released block, the merge
works.  The run of `back_merge_calls` with the two releases swapped (`y` first, then
`x`) ends with the one block `[MAP0, MAP0 + 40 MiB + 48)` on the global free list. -/
theorem global_release_forward_example :
    (run_calls 8
        [ Call.malloc (some MAP0) (40 * MiB), Call.free 0,
          Call.malloc none (10 * MiB), Call.malloc none (30 * MiB),
          Call.free 2, Call.free 1 ] State.init []).map
        (fun r => list_entries r.1.mem 4 r.1.global_free_list)
      = some [(MAP0, 40 * MiB + 48, false)] := by
  decide!

/-! ## The searches on a free list that does not end -/

/-- The walk of `__find_global_block` does not end on a block that is too small and is
its own successor. -/
theorem find_global_walk_self_loop (q : Nat) (s : State) (Y : Nat) (hY : Y ≠ 0)
    (hnx : blk_next s.mem Y = Y) (hsz : blk_size s.mem Y < q) (fuel : Nat)
    (prev : Option Nat) : find_global_walk q fuel s prev Y = none := by
  induction fuel generalizing prev with
  | zero => rfl
  | succ k ih =>
    unfold find_global_walk
    rw [if_neg hY, if_neg (by omega), hnx]
    exact ih _

/-- The walk of `__find_arena_block` does not end on a block that is too small and is
its own successor. -/
theorem find_arena_walk_self_loop (p q : Nat) (m : Mem) (Y : Nat) (hY : Y ≠ 0)
    (hnx : blk_next m Y = Y) (hsz : blk_size m Y < q) (fuel prev : Nat) :
    find_arena_walk p q fuel m prev Y = none := by
  induction fuel generalizing prev with
  | zero => rfl
  | succ k ih =>
    unfold find_arena_walk
    rw [if_neg hY, if_neg (by omega), hnx]
    exact ih _

/-- The search `__find_arena_block` does not end when the free list of the first arena
is a block smaller than `q` that is its own successor. -/
theorem find_arena_block_self_loop (q : Nat) (s : State) (Y : Nat) (hA : s.arenas ≠ 0)
    (hh : arena_free_list s.mem s.arenas = Y) (hY : Y ≠ 0)
    (hnx : blk_next s.mem Y = Y) (hsz : blk_size s.mem Y < q) (fuel : Nat) :
    __find_arena_block fuel s q = none := by
  unfold __find_arena_block
  cases fuel with
  | zero => rfl
  | succ k =>
    unfold find_arena_loop
    rw [if_neg hA, hh, find_arena_walk_self_loop _ q s.mem Y hY hnx hsz]

/-- A small request `r_malloc(n)` does not return when the free list of the first arena
is a block smaller than the planned size that is its own successor. -/
theorem r_malloc_arena_self_loop (n : Nat) (s : State) (Y : Nat) (hn : n ≠ 0)
    (hinit : s.manager_initialized = true) (hq : __alloc_size n < ARENA_SIZE / 16)
    (hA : s.arenas ≠ 0) (hh : arena_free_list s.mem s.arenas = Y) (hY : Y ≠ 0)
    (hnx : blk_next s.mem Y = Y) (hsz : blk_size s.mem Y < __alloc_size n)
    (fuel : Nat) (os : Option Nat) : r_malloc fuel os s n = none := by
  unfold r_malloc
  rw [if_neg hn]
  simp only [get_manager_initialized s hinit, hq, if_true,
    find_arena_block_self_loop _ s Y hA hh hY hnx hsz]

/-- A large request `r_malloc(n)` does not return when the global free list is a block
smaller than the planned size that is its own successor. -/
theorem r_malloc_global_self_loop (n : Nat) (s : State) (Y : Nat) (hn : n ≠ 0)
    (hinit : s.manager_initialized = true) (hq : ¬ __alloc_size n < ARENA_SIZE / 16)
    (hh : s.global_free_list = Y) (hY : Y ≠ 0)
    (hnx : blk_next s.mem Y = Y) (hsz : blk_size s.mem Y < __alloc_size n)
    (fuel : Nat) (os : Option Nat) : r_malloc fuel os s n = none := by
  unfold r_malloc
  rw [if_neg hn]
  simp only [get_manager_initialized s hinit, hq, if_false, __find_global_block, hh,
    find_global_walk_self_loop _ s Y hY hnx hsz]

/-- A growing `r_realloc(p, n)` with a large `n` does not return when the global free
list is a block smaller than the planned size that is its own successor. -/
theorem r_realloc_global_self_loop (n p : Nat) (s : State) (Y : Nat) (hn : n ≠ 0)
    (hp : p ≠ 0) (hcap : r_alloc_size s p < n)
    (hinit : s.manager_initialized = true) (hq : ¬ __alloc_size n < ARENA_SIZE / 16)
    (hh : s.global_free_list = Y) (hY : Y ≠ 0)
    (hnx : blk_next s.mem Y = Y) (hsz : blk_size s.mem Y < __alloc_size n)
    (fuel : Nat) (os : Option Nat) : r_realloc fuel os s p n = none := by
  unfold r_alloc_size at hcap
  rw [if_neg hp] at hcap
  unfold r_realloc
  rw [if_neg hp, if_neg hn]
  simp only
  rw [if_neg (by omega), r_malloc_global_self_loop n s Y hn hinit hq hh hY hnx hsz]

/-- The states `loop_state` and `stale_state` are reached by their calls, which return
the pointers listed. -/
theorem loop_and_stale_state_reached :
    (run_calls 8 loop_calls State.init []).map Prod.snd = some [MAP0 + 40] ∧
    (run_calls 16 (stale_calls.take 12) State.init []).map Prod.snd
      = some [MAP0 + 24, MAP0 + 24, MAP0 + 10 * MiB + 48, MAP0 + 20 * MiB + 72,
              MAP0 + 10 * MiB + 48, MAP0 + 20 * MiB + 72, MAP0 + 24] := by
  decide!

/-- The Manager of `loop_state`: one arena, whose free list is the block `MAP0 + 16` of
size 0 that is its own successor. -/
theorem loop_state_facts :
    loop_state.manager_initialized = true ∧ loop_state.arenas = MAP0 ∧
    arena_free_list loop_state.mem loop_state.arenas = MAP0 + 16 ∧
    blk_next loop_state.mem (MAP0 + 16) = MAP0 + 16 ∧
    blk_size loop_state.mem (MAP0 + 16) = 0 := by
  decide!

/-- The Manager of `stale_state`: the global free list is the block `MAP0 + 10 MiB + 24`
of size `30 MiB + 24` that is its own successor; the pointer `MAP0 + 20 MiB + 72` has a
capacity of 10 MiB. -/
theorem stale_state_facts :
    stale_state.manager_initialized = true ∧
    stale_state.global_free_list = MAP0 + 10 * MiB + 24 ∧
    blk_next stale_state.mem (MAP0 + 10 * MiB + 24) = MAP0 + 10 * MiB + 24 ∧
    blk_size stale_state.mem (MAP0 + 10 * MiB + 24) = 30 * MiB + 24 ∧
    r_alloc_size stale_state (MAP0 + 20 * MiB + 72) = 10 * MiB ∧
    blk_active stale_state.mem (__ptr_to_block (MAP0 + 20 * MiB + 72)) = true := by
  decide!

/-! ## The claims -/

/-- C1, evaluated at its failing input: after `overlap_calls` (one `mmap`, every
release on a live pointer) the pointers returned by the last two requests are
distinct and both live, the second one's block is `[MAP0, MAP0 + 35 MiB + 24)` and
contains the first one's block, which starts at `MAP0 + 10 MiB + 24`. -/
theorem overlap_calls_overlap :
    (run_calls 16 overlap_calls State.init []).map
        (fun r => (r.2, __ptr_to_block (r.2.getD 4 0),
                   blk_size r.1.mem (__ptr_to_block (r.2.getD 4 0)),
                   __ptr_to_block (r.2.getD 5 0),
                   blk_size r.1.mem (__ptr_to_block (r.2.getD 5 0)),
                   blocks_overlap r.1 (r.2.getD 4 0) (r.2.getD 5 0)))
      = some ([MAP0 + 24, MAP0 + 24, MAP0 + 10 * MiB + 48, MAP0 + 20 * MiB + 72,
               MAP0 + 10 * MiB + 48, MAP0 + 24],
              MAP0 + 10 * MiB + 24, 10 * MiB + 24, MAP0, 35 * MiB + 24, true) := by
  decide!

/-- C2, evaluated at its failing input: on the fresh Manager `r_malloc(SIZE_MAX)`
returns the non-null pointer `MAP0 + 40`, and `r_alloc_size` of it is `0`. -/
theorem r_malloc_size_max :
    (r_malloc 8 (some MAP0) State.init (W - 1)).map (fun r => (r.1, r_alloc_size r.2 r.1))
      = some (MAP0 + 40, 0) := by
  decide!

/-- C3, evaluated at its failing input: `r_malloc(4 MiB)` returns the non-null
pointer `MAP0 + 24`, and `r_allocated` of it is `false`. -/
theorem r_allocated_large_false :
    (r_malloc 8 (some MAP0) State.init (4 * MiB)).map
        (fun r => (r.1, r_allocated 8 r.2 r.1))
      = some (MAP0 + 24, some false) := by
  decide!

/-- C4, evaluated at its failing input: after `stale_calls`, whose last two calls are
`p = r_malloc(1 MiB)` and `r_free(p)`, `r_allocated(p)` returns `true`. -/
theorem r_allocated_after_free_true :
    (run_calls 16 stale_calls State.init []).map
        (fun r => (r.2.getD 7 0, r_allocated 16 r.1 (r.2.getD 7 0)))
      = some (MAP0 + 10 * MiB + 48, some true) := by
  decide!

/-- C5, evaluated at its failing input: after `p = r_malloc(4 MiB)` the only live
pointer is `p` with `r_alloc_size(p) = 4 MiB + 24`, and `r_total_allocated()` is `0`. -/
theorem r_total_allocated_misses_large :
    (r_malloc 8 (some MAP0) State.init (4 * MiB)).map
        (fun r => (r.1, r_alloc_size r.2 r.1, r_total_allocated 8 r.2))
      = some (MAP0 + 24, 4 * MiB + 24, some 0) := by
  decide!

/-- C6, evaluated at its failing input: on the fresh Manager `r_malloc(SIZE_MAX - 23)`
plans `0` bytes, returns the non-null pointer `MAP0 + 40` and leaves the new arena
`MAP0` with a first block of size `0`, so the walk of the arena from its data start
never reaches the data end, whatever the number of steps. -/
theorem r_malloc_wrap_breaks_partition (fuel : Nat) :
    (r_malloc 8 (some MAP0) State.init (W - 24)).map
        (fun r => (r.1, r.2.arenas, blk_size r.2.mem (arena_data MAP0),
                   arena_partitioned r.2.mem (arena_end MAP0) fuel (arena_data MAP0)))
      = some (MAP0 + 40, MAP0, 0, false) := by
  have h : (r_malloc 8 (some MAP0) State.init (W - 24)).map
      (fun r => (r.1, r.2.arenas, blk_size r.2.mem (arena_data MAP0)))
        = some (MAP0 + 40, MAP0, 0) := by decide!
  cases hr : r_malloc 8 (some MAP0) State.init (W - 24) with
  | none => rw [hr] at h; cases h
  | some r =>
    rw [hr] at h
    simp only [Option.map_some', Option.some.injEq, Prod.mk.injEq] at h
    obtain ⟨h1, h2, h3⟩ := h
    have hne : arena_data MAP0 ≠ arena_end MAP0 := by decide
    have hlt : ¬ arena_end MAP0 < arena_data MAP0 := by decide
    cases fuel with
    | zero => simp [arena_partitioned, h1, h2, h3]
    | succ n => simp [arena_partitioned, h1, h2, h3, hne, hlt]

/-- C7, evaluated at its failing input: after three 200-byte requests and the release
of the first and then the second pointer, the arena's free list holds the second
block (`MAP0 + 240`), the first block (`MAP0 + 16`, size 224) and the remainder, all
free: the first block ends exactly where the second starts, and they are not merged. -/
theorem free_leaves_adjacent_free_blocks :
    (run_calls 8
        [Call.malloc (some MAP0) 200, Call.malloc none 200, Call.malloc none 200,
         Call.free 0, Call.free 1] State.init []).map
        (fun r => (r.2, r.1.arenas, list_entries r.1.mem 8 (arena_free_list r.1.mem MAP0)))
      = some ([MAP0 + 40, MAP0 + 264, MAP0 + 488], MAP0,
              [(MAP0 + 240, 224, false), (MAP0 + 16, 224, false),
               (MAP0 + 688, ARENA_SIZE - 672, false)]) := by
  decide!

/-- C8, evaluated at its failing input: after `p1 = r_malloc(200)`, `p2 = r_malloc(200)`,
`r_free(p1)`, `r_free(p2)` the arena `MAP0` is still the head of the arena sequence and
still mapped, and its free list holds two blocks, of sizes `8 MiB - 224` and `224`. -/
theorem free_in_order_keeps_arena :
    (run_calls 8
        [Call.malloc (some MAP0) 200, Call.malloc none 200, Call.free 0, Call.free 1]
        State.init []).map
        (fun r => (r.1.arenas, r.1.mapped,
                   list_entries r.1.mem 8 (arena_free_list r.1.mem MAP0)))
      = some (MAP0, [(MAP0, ARENA_HDR + ARENA_SIZE)],
              [(MAP0 + 240, ARENA_SIZE - 224, false), (MAP0 + 16, 224, false)]) := by
  decide!

/-- C9, evaluated at its failing input: after `p = r_malloc(4 MiB)` and `r_free(p)`
the global free list is empty and the mapping of `p` is still held; a second
`r_malloc(4 MiB)` returns null when the kernel refuses a new mapping, and the
address of the new mapping (here 8 MiB further up), not `p`, when it grants one. -/
theorem large_block_not_reused :
    ((run_calls 8 [Call.malloc (some MAP0) (4 * MiB), Call.free 0] State.init []).map
        (fun r => (r.2, r.1.global_free_list, r.1.mapped)),
     (run_calls 8 [Call.malloc (some MAP0) (4 * MiB), Call.free 0,
                   Call.malloc none (4 * MiB)] State.init []).map (fun r => r.2),
     (run_calls 8 [Call.malloc (some MAP0) (4 * MiB), Call.free 0,
                   Call.malloc (some (MAP0 + 8 * MiB)) (4 * MiB)] State.init []).map
        (fun r => (r.2, r.1.mapped.length)))
      = (some ([MAP0 + 24], 0, [(MAP0, 4 * MiB + 48)]),
         some [MAP0 + 24, 0],
         some ([MAP0 + 24, MAP0 + 8 * MiB + 24], 2)) := by
  decide!

/-- C10, the claim refuted: in the run `p = r_malloc(64); r_free(p); q = r_malloc(64)`
on the fresh Manager, one arena is mapped after the first call, none after the
release (the arena sequence is empty again), and the second request maps a second
arena, at the address the kernel answers then. -/
theorem benchmark_arena_reclaimed :
    ((run_calls 8 [Call.malloc (some MAP0) 64] State.init []).map (fun r => r.1.mapped),
     (run_calls 8 [Call.malloc (some MAP0) 64, Call.free 0] State.init []).map
        (fun r => (r.1.arenas, r.1.mapped)),
     (run_calls 8 [Call.malloc (some MAP0) 64, Call.free 0,
                   Call.malloc (some (MAP0 + 16 * MiB)) 64] State.init []).map
        (fun r => (r.2, r.1.mapped)))
      = (some [(MAP0, ARENA_HDR + ARENA_SIZE)],
         some (0, []),
         some ([MAP0 + 40, MAP0 + 16 * MiB + 40],
               [(MAP0 + 16 * MiB, ARENA_HDR + ARENA_SIZE)])) := by
  decide!

/-- C10, amended: from a vacant Manager, for every benchmark size and every number of
iterations of `{ p = r_malloc(size); r_free(p) }` in which each `mmap` succeeds, the
run ends in a vacant Manager (no arena in the sequence, no mapping held) where
`r_total_allocated()` is `0`; and the next iteration again maps one new arena, which
is the only mapping held until the release that follows unmaps it. -/
theorem benchmark_reclaims_every_arena (fuel size : Nat) (hsize : size ∈ test_sizes)
    (oss : List Nat) (hos : ∀ a ∈ oss, map_ok a) (s : State) (hs : vacant s) :
    ∃ s', benchmark_loop (fuel + 1) size (oss.map some) s = some s' ∧ vacant s' ∧
      r_total_allocated (fuel + 1) s' = some 0 ∧
      ∀ a, map_ok a → ∃ s1 s2, r_malloc (fuel + 1) (some a) s' size = some (a + 40, s1) ∧
        s1.arenas = a ∧ s1.mapped = [(a, ARENA_HDR + ARENA_SIZE)] ∧
        r_free (fuel + 1) s1 (a + 40) = some s2 ∧ vacant s2 := by
  induction oss generalizing s with
  | nil =>
    exact ⟨s, rfl, hs, r_total_allocated_vacant s fuel hs,
      fun a ha => benchmark_iteration s a size fuel hs ha hsize⟩
  | cons a rest ih =>
    obtain ⟨s1, s2, hm, _, _, hf, hv⟩ :=
      benchmark_iteration s a size fuel hs (hos a (List.mem_cons_self a rest)) hsize
    obtain ⟨s', hl, hrest⟩ := ih (fun b hb => hos b (List.mem_cons_of_mem a hb)) s2 hv
    refine ⟨s', ?_, hrest⟩
    simp only [List.map_cons, benchmark_loop, hm, hf, hl]

/-- C10, amended, at a concrete input: two iterations with size 64 from the initial
state, both mappings granted at `MAP0`. -/
theorem benchmark_reclaims_every_arena_witness :
    64 ∈ test_sizes ∧ (∀ a ∈ [MAP0, MAP0], map_ok a) ∧ vacant State.init ∧
    ∃ s', benchmark_loop 1 64 ([MAP0, MAP0].map some) State.init = some s' ∧ vacant s' ∧
      r_total_allocated 1 s' = some 0 ∧
      ∀ a, map_ok a → ∃ s1 s2, r_malloc 1 (some a) s' 64 = some (a + 40, s1) ∧
        s1.arenas = a ∧ s1.mapped = [(a, ARENA_HDR + ARENA_SIZE)] ∧
        r_free 1 s1 (a + 40) = some s2 ∧ vacant s2 :=
  ⟨by decide, by decide, ⟨rfl, rfl, rfl⟩,
   benchmark_reclaims_every_arena 0 64 (by decide) [MAP0, MAP0] (by decide) State.init
     ⟨rfl, rfl, rfl⟩⟩

/-- Support for C11, on well-formed free lists:
the round trip `p = r_malloc(n); r_free(p); q = r_malloc(n)` for `n > 0` that
plans less than 512 KiB.  First part, the request is served from a free list: the
Manager exists, the arenas `as1` in front of the arena `A` are full for the planned
size and lie apart from `A`, the free list of `A` is the well-formed list
`l1 ++ fit :: l2` whose first fit is `fit`, and the size field that follows `fit` in
the arena is at most 8 MiB.  Then `r_malloc(n)` returns `p = fit + 24` inside `A`, and
either `r_free(p)` hands `A` to `__remove_arena` (the block has grown to the size of
the arena), or `r_free(p)` keeps the arena sequence and the mappings, and the next
`r_malloc(n)` returns `p` again, so memory of the same arena.  Second part, no free
list holds a fit and `mmap` gives a new arena at `a`: `r_malloc(n)` returns the first
block of `a`, and `r_free` of it always hands `a` to `__remove_arena`. -/
theorem locality_round_trip :
    (∀ (fuel n : Nat) (os os2 : Option Nat) (s : State) (as1 as2 : List Nat) (A : Nat)
        (l1 l2 : List Nat) (fit : Nat),
      s.manager_initialized = true →
      0 < n → HDR + (n + 7) / 8 * 8 < ARENA_SIZE / 16 →
      chain (arena_next s.mem) s.arenas (as1 ++ A :: as2) →
      (∀ B ∈ as1, arena_end B ≤ A ∨ arena_end A ≤ B) →
      arenas_full s.mem (__alloc_size n) fuel as1 →
      arena_list s.mem A (l1 ++ fit :: l2) → arena_end A < W →
      (∀ x ∈ l1, blk_size s.mem x < __alloc_size n) →
      __alloc_size n ≤ blk_size s.mem fit →
      (fit + blk_size s.mem fit = arena_end A ∨
        blk_size s.mem (fit + blk_size s.mem fit) ≤ ARENA_SIZE) →
      as1.length < fuel → (l1 ++ fit :: l2).length < fuel →
      arena_data A ≤ fit ∧ fit + HDR < arena_end A ∧
      ∃ s1, r_malloc fuel os s n = some (fit + HDR, s1) ∧
        ((∃ M, blk_size M fit = ARENA_SIZE ∧
            r_free fuel s1 (fit + HDR) = __remove_arena fuel { s1 with mem := M } A) ∨
         (∃ s2 s3, r_free fuel s1 (fit + HDR) = some s2 ∧ s2.arenas = s.arenas ∧
            s2.mapped = s.mapped ∧ r_malloc fuel os2 s2 n = some (fit + HDR, s3)))) ∧
    (∀ (fuel n a : Nat) (s : State),
      0 < n → HDR + (n + 7) / 8 * 8 < ARENA_SIZE / 16 → map_ok a →
      (__find_arena_block (fuel + 1) (get_manager s) (__alloc_size n)).map Prod.fst = some 0 →
      ∃ s1 M, r_malloc (fuel + 1) (some a) s n = some (arena_data a + HDR, s1) ∧
        s1.arenas = a ∧ blk_size M (arena_data a) = ARENA_SIZE ∧
        r_free (fuel + 1) s1 (arena_data a + HDR)
          = __remove_arena (fuel + 1) { s1 with mem := M } a) :=
  ⟨fun fuel n os os2 s as1 as2 A l1 l2 fit hinit hn hsmall harenas hapart hbefore hl hend hs
      hfit hnext hfuel1 hfuel2 =>
    round_trip_hit fuel n os os2 s as1 as2 A l1 l2 fit hinit hn hsmall harenas hapart hbefore
      hl hend hs hfit hnext hfuel1 hfuel2,
   fun fuel n a s hn hsmall ha hmiss => round_trip_miss fuel n a s hn hsmall ha hmiss⟩

/-- Support for C11, at concrete inputs:
in `two_lists_state` a request of 64 bytes (planned size 88)
passes the free block of 32 bytes and is served from the remainder of the arena `MAP0`,
which reaches the end of the arena; on the fresh Manager the same request is served
from a new arena at `MAP0`. -/
theorem locality_round_trip_witness :
    (two_lists_state.manager_initialized = true ∧
     chain (arena_next two_lists_state.mem) two_lists_state.arenas ([] ++ MAP0 :: []) ∧
     arenas_full two_lists_state.mem (__alloc_size 64) 4 [] ∧
     arena_list two_lists_state.mem MAP0 ([MAP0 + 16] ++ (MAP0 + 184) :: []) ∧
     arena_end MAP0 < W ∧
     (∀ x ∈ [MAP0 + 16], blk_size two_lists_state.mem x < __alloc_size 64) ∧
     __alloc_size 64 ≤ blk_size two_lists_state.mem (MAP0 + 184) ∧
     MAP0 + 184 + blk_size two_lists_state.mem (MAP0 + 184) = arena_end MAP0 ∧
     arena_data MAP0 ≤ MAP0 + 184 ∧ MAP0 + 184 + HDR < arena_end MAP0 ∧
     ∃ s1, r_malloc 4 none two_lists_state 64 = some (MAP0 + 184 + HDR, s1) ∧
       ((∃ M, blk_size M (MAP0 + 184) = ARENA_SIZE ∧
           r_free 4 s1 (MAP0 + 184 + HDR)
             = __remove_arena 4 { s1 with mem := M } MAP0) ∨
        (∃ s2 s3, r_free 4 s1 (MAP0 + 184 + HDR) = some s2 ∧
           s2.arenas = two_lists_state.arenas ∧ s2.mapped = two_lists_state.mapped ∧
           r_malloc 4 none s2 64 = some (MAP0 + 184 + HDR, s3)))) ∧
    (map_ok MAP0 ∧
     (__find_arena_block 1 (get_manager State.init) (__alloc_size 64)).map Prod.fst = some 0 ∧
     ∃ s1 M, r_malloc 1 (some MAP0) State.init 64 = some (arena_data MAP0 + HDR, s1) ∧
       s1.arenas = MAP0 ∧ blk_size M (arena_data MAP0) = ARENA_SIZE ∧
       r_free 1 s1 (arena_data MAP0 + HDR) = __remove_arena 1 { s1 with mem := M } MAP0) := by
  have h1 : two_lists_state.manager_initialized = true := by decide!
  have h2 : chain (arena_next two_lists_state.mem) two_lists_state.arenas ([] ++ MAP0 :: []) := by
    decide!
  have h3 : arenas_full two_lists_state.mem (__alloc_size 64) 4 [] :=
    fun B hB => absurd hB (List.not_mem_nil _)
  have h4 : arena_list two_lists_state.mem MAP0 ([MAP0 + 16] ++ (MAP0 + 184) :: []) := by
    decide!
  have h5 : arena_end MAP0 < W := by decide
  have h6 : ∀ x ∈ [MAP0 + 16], blk_size two_lists_state.mem x < __alloc_size 64 := by decide!
  have h7 : __alloc_size 64 ≤ blk_size two_lists_state.mem (MAP0 + 184) := by decide!
  have h8 : MAP0 + 184 + blk_size two_lists_state.mem (MAP0 + 184) = arena_end MAP0 := by
    decide!
  have g1 : map_ok MAP0 := by decide
  have g2 : (__find_arena_block 1 (get_manager State.init) (__alloc_size 64)).map Prod.fst
      = some 0 := by decide!
  have r := locality_round_trip.1 4 64 none none two_lists_state [] [] MAP0 [MAP0 + 16] []
    (MAP0 + 184) h1 (by decide) (by decide) h2 (fun B hB => absurd hB (List.not_mem_nil _))
    h3 h4 h5 h6 h7 (Or.inl h8) (by decide) (by decide)
  exact ⟨⟨h1, h2, h3, h4, h5, h6, h7, h8, r.1, r.2.1, r.2.2⟩,
    ⟨g1, g2, locality_round_trip.2 0 64 MAP0 State.init (by decide) (by decide) g1 g2⟩⟩

/-- C12: `r_malloc(0)` returns null together with the very state it was called in,
for every state, every fuel and every answer the kernel might give: no field of the
Manager, no byte of memory and no mapping changes, and `mmap` is not consulted. -/
theorem r_malloc_zero (fuel : Nat) (os : Option Nat) (s : State) :
    r_malloc fuel os s 0 = some (0, s) := by
  simp [r_malloc]

/-- C13: for a non-null pointer `p` and `0 < n ≤ r_alloc_size(p)`, `r_realloc(p, n)`
returns `p` together with the very state it was called in (no header is rewritten,
nothing is split, allocated or released), for every state and every fuel. -/
theorem r_realloc_within_capacity (fuel : Nat) (os : Option Nat) (s : State) (p n : Nat)
    (hp : p ≠ 0) (hn : 0 < n) (hcap : n ≤ r_alloc_size s p) :
    r_realloc fuel os s p n = some (p, s) := by
  unfold r_alloc_size at hcap
  rw [if_neg hp] at hcap
  unfold r_realloc
  rw [if_neg hp, if_neg (by omega)]
  simp only
  rw [if_pos hcap]

/-- C13 at a concrete input: in the state after `p = r_malloc(100)`, where
`r_alloc_size(p)` is 104, `r_realloc(p, 100)` returns `p` and the same state. -/
theorem r_realloc_within_capacity_witness :
    MAP0 + 40 ≠ 0 ∧ 0 < 100 ∧ 100 ≤ r_alloc_size one_block_state (MAP0 + 40) ∧
    r_realloc 1 none one_block_state (MAP0 + 40) 100 = some (MAP0 + 40, one_block_state) :=
  ⟨by decide, by decide, by decide!,
   r_realloc_within_capacity 1 none one_block_state (MAP0 + 40) 100 (by decide) (by decide)
     (by decide!)⟩

/-- C14, evaluated at its failing input: after `p = r_malloc(100)` on the fresh
Manager, `r_realloc(p, SIZE_MAX)` returns the non-null pointer `MAP0 + 168`, and
`r_alloc_size` of it is `0`. -/
theorem r_realloc_size_max :
    (run_calls 8 [Call.malloc (some MAP0) 100, Call.realloc none 0 (W - 1)]
        State.init []).map (fun r => (r.2, r.2.map (r_alloc_size r.1)))
      = some ([MAP0 + 40, MAP0 + 168], [104, 0]) := by
  decide!

/-- Support for C15, given the result of the search:
when the search for a block of the planned size returns `NULL` and `mmap`
fails, `r_malloc(n)` with `n > 0` returns null and the state that `get_manager` set up
at the start of the call, which has the memory and the mappings of the state before.
Once the Manager exists that is the state before itself, and then for every non-null
`p` with `r_alloc_size(p) < n`, `r_realloc(p, n)` also returns null and the very
state it was called in (no byte of `p` and no list is touched). -/
theorem failed_allocation_keeps_state (fuel n : Nat) (s : State) (hn : 0 < n)
    (hmiss : (find_step fuel (get_manager s) (__alloc_size n)).map Prod.fst = some 0) :
    r_malloc fuel none s n = some (0, get_manager s) ∧
    (get_manager s).mem = s.mem ∧ (get_manager s).mapped = s.mapped ∧
    (s.manager_initialized = true →
      get_manager s = s ∧
      ∀ p, p ≠ 0 → r_alloc_size s p < n → r_realloc fuel none s p n = some (0, s)) := by
  have hm := r_malloc_refused fuel n s (by omega) hmiss
  refine ⟨hm, ?_, ?_, ?_⟩
  · unfold get_manager; split <;> rfl
  · unfold get_manager; split <;> rfl
  · intro hi
    have e := get_manager_initialized s hi
    refine ⟨e, ?_⟩
    intro p hp hcap
    unfold r_alloc_size at hcap
    rw [if_neg hp] at hcap
    unfold r_realloc
    rw [if_neg hp, if_neg (by omega)]
    simp only
    rw [if_neg (by omega), hm, e]
    simp

/-- Support for C15, at a concrete input:
in the state after `p = r_malloc(100)`, a request of
1 MiB finds the global free list empty; with `mmap` failing, `r_malloc(1 MiB)` and
`r_realloc(p, 1 MiB)` return null and leave the state as it was. -/
theorem failed_allocation_keeps_state_witness :
    0 < MiB ∧
    (find_step 1 (get_manager one_block_state) (__alloc_size MiB)).map Prod.fst = some 0 ∧
    one_block_state.manager_initialized = true ∧ MAP0 + 40 ≠ 0 ∧
    r_alloc_size one_block_state (MAP0 + 40) < MiB ∧
    r_malloc 1 none one_block_state MiB = some (0, one_block_state) ∧
    r_realloc 1 none one_block_state (MAP0 + 40) MiB = some (0, one_block_state) :=
  have h := failed_allocation_keeps_state 1 MiB one_block_state (by decide) (by decide!)
  ⟨by decide, by decide!, rfl, by decide, by decide!,
   (h.2.2.2 rfl).1 ▸ h.1, (h.2.2.2 rfl).2 (MAP0 + 40) (by decide) (by decide!)⟩

/-- Support for C16, given the result of the search:
let `n > 0` plan less than 512 KiB, let the search of the arenas return
`NULL` and let `mmap` succeed at `a`.  Then `r_malloc(n)` returns the non-null pointer
to the block at the data start of `a`; `a` is the new head of the arena sequence and
its successor link is the former head; the block has the planned size and is flagged
live; and the free list of `a` holds exactly one block, at data start + planned, of
size 8 MiB - planned, flagged free.  The mapping of `a` is the only new one. -/
theorem fresh_arena_on_miss (fuel n a : Nat) (s : State) (hn : 0 < n)
    (hsmall : HDR + (n + 7) / 8 * 8 < ARENA_SIZE / 16) (ha : map_ok a)
    (hhead : (get_manager s).arenas < W)
    (hmiss : (__find_arena_block (fuel + 1) (get_manager s) (__alloc_size n)).map Prod.fst
               = some 0) :
    ∃ s', r_malloc (fuel + 1) (some a) s n = some (arena_data a + HDR, s') ∧
      arena_data a + HDR ≠ 0 ∧ __ptr_to_block (arena_data a + HDR) = arena_data a ∧
      __alloc_size n = HDR + (n + 7) / 8 * 8 ∧
      s'.arenas = a ∧ arena_next s'.mem a = (get_manager s).arenas ∧
      s'.mapped = (a, ARENA_HDR + ARENA_SIZE) :: s.mapped ∧
      s'.global_free_list = (get_manager s).global_free_list ∧
      blk_size s'.mem (arena_data a) = __alloc_size n ∧
      blk_active s'.mem (arena_data a) = true ∧
      ∀ k, list_entries s'.mem (k + 1) (arena_free_list s'.mem a)
             = [(arena_data a + __alloc_size n, ARENA_SIZE - __alloc_size n, false)] := by
  obtain ⟨ha0, ha1⟩ := ha
  have ha2 : a + 8388624 ≤ 18446744073709551616 := by
    simpa only [W, ARENA_HDR, ARENA_SIZE] using ha1
  have h16 : ARENA_SIZE / 16 = 524288 := by decide
  simp only [HDR, h16] at hsmall
  have hq := alloc_size_eq n (by omega)
  have hq1 : 24 ≤ __alloc_size n := by omega
  have hq2 : __alloc_size n < 524288 := by omega
  have hm := r_malloc_fresh_arena s a _ n fuel ha0 ha2 (by omega) rfl hq1 hq2 hmiss
  obtain ⟨l1, l2, l3, l4, l5, l6, l7⟩ :=
    carved_mem_layout s.mem a (get_manager s).arenas (__alloc_size n) ha2 hq1 hq2 hhead
  have hb : __ptr_to_block (a + 16 + 24) = a + 16 := by
    simp only [__ptr_to_block, HDR]
    rw [wsub_of_le _ _ (by omega)]
    omega
  simp only [arena_data, ARENA_HDR, HDR, ARENA_SIZE_eq]
  refine ⟨_, hm, by omega, hb, hq, rfl, l1, rfl, rfl, l3, l4, ?_⟩
  intro k
  simp only [l2]
  rw [list_entries_single _ _ _ (by omega) l6, l5, l7]

/-- Support for C16, at a concrete input:
in `filled_state` the only arena has 128 free bytes, so
`r_malloc(200)` (planned size 224) finds no fit and is served from a new arena,
mapped at `MAP0 + 16 MiB`. -/
theorem fresh_arena_on_miss_witness :
    0 < 200 ∧ HDR + (200 + 7) / 8 * 8 < ARENA_SIZE / 16 ∧ map_ok (MAP0 + 16 * MiB) ∧
    (get_manager filled_state).arenas < W ∧
    (__find_arena_block 4 (get_manager filled_state) (__alloc_size 200)).map Prod.fst
      = some 0 ∧
    ∃ s', r_malloc 4 (some (MAP0 + 16 * MiB)) filled_state 200
            = some (arena_data (MAP0 + 16 * MiB) + HDR, s') ∧
      arena_data (MAP0 + 16 * MiB) + HDR ≠ 0 ∧
      __ptr_to_block (arena_data (MAP0 + 16 * MiB) + HDR) = arena_data (MAP0 + 16 * MiB) ∧
      __alloc_size 200 = HDR + (200 + 7) / 8 * 8 ∧
      s'.arenas = MAP0 + 16 * MiB ∧
      arena_next s'.mem (MAP0 + 16 * MiB) = (get_manager filled_state).arenas ∧
      s'.mapped = (MAP0 + 16 * MiB, ARENA_HDR + ARENA_SIZE) :: filled_state.mapped ∧
      s'.global_free_list = (get_manager filled_state).global_free_list ∧
      blk_size s'.mem (arena_data (MAP0 + 16 * MiB)) = __alloc_size 200 ∧
      blk_active s'.mem (arena_data (MAP0 + 16 * MiB)) = true ∧
      ∀ k, list_entries s'.mem (k + 1) (arena_free_list s'.mem (MAP0 + 16 * MiB))
             = [(arena_data (MAP0 + 16 * MiB) + __alloc_size 200,
                 ARENA_SIZE - __alloc_size 200, false)] :=
  ⟨by decide, by decide, by decide, by decide!, by decide!,
   fresh_arena_on_miss 3 200 (MAP0 + 16 * MiB) filled_state (by decide) (by decide)
     (by decide) (by decide!) (by decide!)⟩

/-- C17, evaluated at its failing input: after `r_malloc(8)`, `b = r_malloc(24)`,
`c = r_malloc(64)`, `r_free(c)`, `r_free(b)`, `r_malloc(8)` on the fresh Manager (no
payload byte is ever written), the free list of the arena holds one block, the
remainder of the last split at `MAP0 + 80`, and its liveness flag reads `true`. -/
theorem split_remainder_flagged_live :
    (run_calls 8
        [Call.malloc (some MAP0) 8, Call.malloc none 24, Call.malloc none 64,
         Call.free 2, Call.free 1, Call.malloc none 8] State.init []).map
        (fun r => (r.2, list_entries r.1.mem 8 (arena_free_list r.1.mem MAP0)))
      = some ([MAP0 + 40, MAP0 + 72, MAP0 + 120, MAP0 + 72],
              [(MAP0 + 80, ARENA_SIZE - 64, true)]) := by
  decide!

/-- C18, evaluated at its failing input: on the fresh Manager `r_malloc(SIZE_MAX - 7)`
plans 16 bytes and returns the non-null pointer `MAP0 + 40`; the size field of its
block is 16, below the header size, and the size field of the one block on the
arena's free list is 8388353, which is odd. -/
theorem block_sizes_after_wrap :
    (__alloc_size (W - 8),
     (r_malloc 8 (some MAP0) State.init (W - 8)).map
        (fun r => (r.1, blk_size r.2.mem (__ptr_to_block r.1))),
     (r_malloc 8 (some MAP0) State.init (W - 8)).map
        (fun r => list_entries r.2.mem 8 (arena_free_list r.2.mem MAP0)))
      = (16, some (MAP0 + 40, 16), some [(MAP0 + 32, 8388353, false)]) := by
  decide!

/-- C19, evaluated at its failing input: on the fresh Manager `r_malloc(1 MiB)` plans
`1 MiB + 24` bytes, asks the kernel for `1 MiB + 48` bytes, stores `1 MiB + 48` in the
size field, and `r_alloc_size` of the returned pointer is `1 MiB + 24`. -/
theorem global_mapping_has_two_headers :
    (r_malloc 8 (some MAP0) State.init MiB).map
        (fun r => (r.1, __alloc_size MiB, r.2.mapped,
                   blk_size r.2.mem (__ptr_to_block r.1), r_alloc_size r.2 r.1))
      = some (MAP0 + 24, MiB + 24, [(MAP0, MiB + 48)], MiB + 48, MiB + 24) := by
  decide!

/-- Support for C20, on well-formed free lists:
the split rule of the two find functions, for a planned size `q` that holds
at least the header.  Arena part: the arenas `as1` in front of the arena `A` hold no
fit, the free list of `A` is `l1 ++ fit :: l2` (blocks inside the arena, not
overlapping), the blocks `l1` are smaller than `q` and `fit` has size `s ≥ q`.  Then
`__find_arena_block` returns `fit`; if `s - q ≥ 24 + 32` the free list of `A` becomes
`(fit + q) :: l1 ++ l2`, `fit` has size `q` and the block at `fit + q` has size `s - q`;
otherwise the list becomes `l1 ++ l2` and `fit` keeps the size `s`.  Global part: the
same for `__find_global_block` and the global free list.  In both, the other blocks
keep their size, `q ≤ size(fit) < q + 24 + 32` afterwards, and the sizes of `fit` and
of the pushed remainder add up to `s`. -/
theorem split_rule :
    (∀ (fuel q : Nat) (s : State) (as1 as2 : List Nat) (A : Nat) (l1 l2 : List Nat)
        (fit : Nat),
      HDR ≤ q →
      chain (arena_next s.mem) s.arenas (as1 ++ A :: as2) →
      arenas_miss s.mem q fuel as1 →
      arena_list s.mem A (l1 ++ fit :: l2) → (∀ x ∈ l1, blk_size s.mem x < q) →
      q ≤ blk_size s.mem fit → as1.length < fuel → l1.length < fuel →
      ∃ s', __find_arena_block fuel s q = some (fit, s') ∧
        s'.arenas = s.arenas ∧ s'.global_free_list = s.global_free_list ∧
        s'.mapped = s.mapped ∧
        (∀ x ∈ l1 ++ l2, blk_size s'.mem x = blk_size s.mem x) ∧
        (HDR + MIN_ALLOC_SIZE ≤ blk_size s.mem fit - q →
           blk_size s'.mem fit = q ∧ blk_size s'.mem (fit + q) = blk_size s.mem fit - q ∧
           arena_list s'.mem A ((fit + q) :: (l1 ++ l2)) ∧
           blk_size s'.mem fit + blk_size s'.mem (fit + q) = blk_size s.mem fit) ∧
        (blk_size s.mem fit - q < HDR + MIN_ALLOC_SIZE →
           blk_size s'.mem fit = blk_size s.mem fit ∧ arena_list s'.mem A (l1 ++ l2)) ∧
        q ≤ blk_size s'.mem fit ∧ blk_size s'.mem fit < q + (HDR + MIN_ALLOC_SIZE)) ∧
    (∀ (fuel q : Nat) (s : State) (l1 l2 : List Nat) (fit : Nat),
      HDR ≤ q →
      global_list s (l1 ++ fit :: l2) → (∀ x ∈ l1, blk_size s.mem x < q) →
      q ≤ blk_size s.mem fit → l1.length < fuel →
      ∃ s', __find_global_block fuel s q = some (fit, s') ∧
        s'.arenas = s.arenas ∧ s'.mapped = s.mapped ∧
        (∀ x ∈ l1 ++ l2, blk_size s'.mem x = blk_size s.mem x) ∧
        (HDR + MIN_ALLOC_SIZE ≤ blk_size s.mem fit - q →
           blk_size s'.mem fit = q ∧ blk_size s'.mem (fit + q) = blk_size s.mem fit - q ∧
           global_list s' ((fit + q) :: (l1 ++ l2)) ∧
           blk_size s'.mem fit + blk_size s'.mem (fit + q) = blk_size s.mem fit) ∧
        (blk_size s.mem fit - q < HDR + MIN_ALLOC_SIZE →
           blk_size s'.mem fit = blk_size s.mem fit ∧ global_list s' (l1 ++ l2)) ∧
        q ≤ blk_size s'.mem fit ∧ blk_size s'.mem fit < q + (HDR + MIN_ALLOC_SIZE)) := by
  constructor
  · intro fuel q s as1 as2 A l1 l2 fit hq harenas hbefore hl hs hfit hf1 hf2
    simp only [HDR] at hq
    have h1 := find_arena_block_hit fuel q s as1 as2 A l1 l2 fit harenas hbefore hl hs hfit
      (by omega) hf1 hf2
    obtain ⟨_, h2, h3⟩ := find_arena_walk_hit A q s.mem l1 l2 fit 0 hl hs hfit (by omega)
    refine ⟨_, h1, rfl, rfl, rfl, h2, ?_⟩
    by_cases hsp : HDR + MIN_ALLOC_SIZE ≤ blk_size s.mem fit - q
    · simp only [if_pos hsp] at h3
      obtain ⟨g1, g2, g3⟩ := h3
      simp only [HDR, MIN_ALLOC_SIZE] at hsp ⊢
      exact ⟨fun _ => ⟨g1, g2, g3, by omega⟩, fun h => by omega, by omega, by omega⟩
    · simp only [if_neg hsp] at h3
      obtain ⟨g1, g3⟩ := h3
      simp only [HDR, MIN_ALLOC_SIZE] at hsp ⊢
      exact ⟨fun h => by omega, fun _ => ⟨g1, g3⟩, by omega, by omega⟩
  · intro fuel q s l1 l2 fit hq hl hs hfit hf
    simp only [HDR] at hq
    obtain ⟨h1, ha, hm, h2, h3⟩ := find_global_block_hit fuel q s l1 l2 fit hl hs hfit
      (by omega) hf
    refine ⟨_, h1, ha, hm, h2, ?_⟩
    by_cases hsp : HDR + MIN_ALLOC_SIZE ≤ blk_size s.mem fit - q
    · simp only [if_pos hsp] at h3
      obtain ⟨g1, g2, g3⟩ := h3
      simp only [HDR, MIN_ALLOC_SIZE] at hsp ⊢
      exact ⟨fun _ => ⟨g1, g2, g3, by omega⟩, fun h => by omega, by omega, by omega⟩
    · simp only [if_neg hsp] at h3
      obtain ⟨g1, g3⟩ := h3
      simp only [HDR, MIN_ALLOC_SIZE] at hsp ⊢
      exact ⟨fun h => by omega, fun _ => ⟨g1, g3⟩, by omega, by omega⟩

/-- Support for C20, at a concrete input, `two_lists_state`:
a planned size of 88 passes the block of
32 bytes on the arena's free list and takes the remainder of the arena, which is
split; a planned size of `1 MiB + 24` takes the block on the global free list, which is
split. -/
theorem split_rule_witness :
    (HDR ≤ 88 ∧
     chain (arena_next two_lists_state.mem) two_lists_state.arenas ([] ++ MAP0 :: []) ∧
     arenas_miss two_lists_state.mem 88 4 [] ∧
     arena_list two_lists_state.mem MAP0 ([MAP0 + 16] ++ (MAP0 + 184) :: []) ∧
     (∀ x ∈ [MAP0 + 16], blk_size two_lists_state.mem x < 88) ∧
     88 ≤ blk_size two_lists_state.mem (MAP0 + 184) ∧
     HDR + MIN_ALLOC_SIZE ≤ blk_size two_lists_state.mem (MAP0 + 184) - 88 ∧
     ∃ s', __find_arena_block 4 two_lists_state 88 = some (MAP0 + 184, s') ∧
       blk_size s'.mem (MAP0 + 184) = 88 ∧
       blk_size s'.mem (MAP0 + 184 + 88) = blk_size two_lists_state.mem (MAP0 + 184) - 88 ∧
       arena_list s'.mem MAP0 ((MAP0 + 184 + 88) :: ([MAP0 + 16] ++ []))) ∧
    (HDR ≤ MiB + 24 ∧ global_list two_lists_state ([] ++ (MAP0 + 16 * MiB) :: []) ∧
     MiB + 24 ≤ blk_size two_lists_state.mem (MAP0 + 16 * MiB) ∧
     HDR + MIN_ALLOC_SIZE ≤ blk_size two_lists_state.mem (MAP0 + 16 * MiB) - (MiB + 24) ∧
     ∃ s', __find_global_block 4 two_lists_state (MiB + 24) = some (MAP0 + 16 * MiB, s') ∧
       blk_size s'.mem (MAP0 + 16 * MiB) = MiB + 24 ∧
       blk_size s'.mem (MAP0 + 16 * MiB + (MiB + 24))
         = blk_size two_lists_state.mem (MAP0 + 16 * MiB) - (MiB + 24) ∧
       global_list s' ((MAP0 + 16 * MiB + (MiB + 24)) :: ([] ++ []))) := by
  have ha1 : chain (arena_next two_lists_state.mem) two_lists_state.arenas ([] ++ MAP0 :: []) := by
    decide!
  have ha2 : arenas_miss two_lists_state.mem 88 4 [] := fun B hB => absurd hB (List.not_mem_nil _)
  have ha3 : arena_list two_lists_state.mem MAP0 ([MAP0 + 16] ++ (MAP0 + 184) :: []) := by
    decide!
  have ha4 : ∀ x ∈ [MAP0 + 16], blk_size two_lists_state.mem x < 88 := by decide!
  have ha5 : 88 ≤ blk_size two_lists_state.mem (MAP0 + 184) := by decide!
  have hsp : HDR + MIN_ALLOC_SIZE ≤ blk_size two_lists_state.mem (MAP0 + 184) - 88 := by
    decide!
  have hg1 : global_list two_lists_state ([] ++ (MAP0 + 16 * MiB) :: []) := by decide!
  have hg2 : MiB + 24 ≤ blk_size two_lists_state.mem (MAP0 + 16 * MiB) := by decide!
  have hgsp : HDR + MIN_ALLOC_SIZE
      ≤ blk_size two_lists_state.mem (MAP0 + 16 * MiB) - (MiB + 24) := by decide!
  obtain ⟨s1, e⟩ := split_rule.1 4 88 two_lists_state [] [] MAP0
    [MAP0 + 16] [] (MAP0 + 184) (by decide) ha1 ha2 ha3 ha4 ha5 (by decide) (by decide)
  obtain ⟨s2, f⟩ := split_rule.2 4 (MiB + 24) two_lists_state [] []
    (MAP0 + 16 * MiB) (by decide) hg1 (fun _ h => absurd h (List.not_mem_nil _)) hg2
    (by decide)
  have e5 := e.2.2.2.2.2.1 hsp
  have f5 := f.2.2.2.2.1 hgsp
  exact ⟨⟨by decide, ha1, ha2, ha3, ha4, ha5, hsp, s1, e.1, e5.1, e5.2.1, e5.2.2.1⟩,
    ⟨by decide, hg1, hg2, hgsp, s2, f.1, f5.1, f5.2.1, f5.2.2.1⟩⟩

/-- Support for C21, on free lists that end:
first-fit of `__find_arena_block`.  Let the arena sequence be the list `arenas`
and let the free list of each arena `B` be the list `lists B` (both ending in `NULL`
and short enough for `fuel`).  Then either no free block of any arena has size `q` or
more, and the search returns `NULL` and the state it was given; or the search returns
`fit`, where `arenas = as1 ++ A :: as2`, `lists A = l1 ++ fit :: l2`, `fit` has size `q`
or more, and every free block before it in this order (all blocks of the arenas
`as1`, and the blocks `l1`) is smaller than `q`.  So the result is `NULL` exactly when
no free block fits, and a `NULL` result leaves the state unchanged. -/
theorem first_fit (fuel q : Nat) (s : State) (arenas : List Nat) (lists : Nat → List Nat)
    (hc : chain (arena_next s.mem) s.arenas arenas) (hf : arenas.length < fuel)
    (hl : ∀ B ∈ arenas, chain (blk_next s.mem) (arena_free_list s.mem B) (lists B) ∧
      (lists B).length < fuel) :
    (((∀ B ∈ arenas, ∀ x ∈ lists B, blk_size s.mem x < q) ∧
        __find_arena_block fuel s q = some (0, s)) ∨
     (∃ as1 A as2 l1 fit l2 s',
        arenas = as1 ++ A :: as2 ∧ lists A = l1 ++ fit :: l2 ∧
        (∀ B ∈ as1, ∀ x ∈ lists B, blk_size s.mem x < q) ∧
        (∀ x ∈ l1, blk_size s.mem x < q) ∧
        q ≤ blk_size s.mem fit ∧ fit ≠ 0 ∧ __find_arena_block fuel s q = some (fit, s'))) ∧
    ((__find_arena_block fuel s q).map Prod.fst = some 0 ↔
       ∀ B ∈ arenas, ∀ x ∈ lists B, blk_size s.mem x < q) ∧
    (∀ s', __find_arena_block fuel s q = some (0, s') → s' = s) := by
  have hnone : (∀ B ∈ arenas, ∀ x ∈ lists B, blk_size s.mem x < q) →
      __find_arena_block fuel s q = some (0, s) := by
    intro hall
    refine find_arena_block_none fuel q s arenas hc ?_ hf
    intro B hB
    exact ⟨lists B, (hl B hB).2, (hl B hB).1, hall B hB⟩
  have hmain : ((∀ B ∈ arenas, ∀ x ∈ lists B, blk_size s.mem x < q) ∧
        __find_arena_block fuel s q = some (0, s)) ∨
     (∃ as1 A as2 l1 fit l2 s',
        arenas = as1 ++ A :: as2 ∧ lists A = l1 ++ fit :: l2 ∧
        (∀ B ∈ as1, ∀ x ∈ lists B, blk_size s.mem x < q) ∧
        (∀ x ∈ l1, blk_size s.mem x < q) ∧
        q ≤ blk_size s.mem fit ∧ fit ≠ 0 ∧ __find_arena_block fuel s q = some (fit, s')) := by
    rcases first_failure (fun B => ∀ x ∈ lists B, blk_size s.mem x < q) arenas with
      hall | ⟨as1, A, as2, e, h1, h2⟩
    · exact Or.inl ⟨hall, hnone hall⟩
    · right
      have hA : A ∈ arenas := by rw [e]; simp
      rcases first_failure (fun x => blk_size s.mem x < q) (lists A) with
        hall | ⟨l1, fit, l2, e', g1, g2⟩
      · exact absurd hall h2
      · have hsub : ∀ B ∈ as1, B ∈ arenas := by
          intro B hB
          rw [e]
          exact List.mem_append_left _ hB
        have hmiss : arenas_miss s.mem q fuel as1 := by
          intro B hB
          exact ⟨lists B, (hl B (hsub B hB)).2, (hl B (hsub B hB)).1, h1 B hB⟩
        have hlA := hl A hA
        rw [e'] at hlA
        have hlen : l1.length < fuel := by
          have := hlA.2
          simp only [List.length_append, List.length_cons] at this
          omega
        have hlen1 : as1.length < fuel := by
          rw [e] at hf
          simp only [List.length_append, List.length_cons] at hf
          omega
        obtain ⟨h0, s', hs'⟩ := find_arena_block_first fuel q s as1 as2 A l1 l2 fit
          (by rw [← e]; exact hc) hmiss hlA.1 g1 (Nat.le_of_not_lt g2) hlen1 hlen
        exact ⟨as1, A, as2, l1, fit, l2, s', e, e', h1, g1, Nat.le_of_not_lt g2, h0, hs'⟩
  refine ⟨hmain, ⟨?_, fun hall => by rw [hnone hall]; rfl⟩, fun s' h => find_arena_block_miss _ _ _ _ h⟩
  intro hz
  rcases hmain with ⟨hall, _⟩ | ⟨_, _, _, _, fit, _, s', _, _, _, _, _, h0, hs'⟩
  · exact hall
  · rw [hs'] at hz
    simp only [Option.map_some', Option.some.injEq] at hz
    exact absurd hz h0

/-- Support for C21, at concrete inputs, `two_lists_state` with the planned sizes 88 and 8 MiB:
for
88 the result is `NULL` only if both free blocks are smaller than 88 (they are not, see
`first_fit_example`); for 8 MiB no free block fits and the search returns `NULL`. -/
theorem first_fit_witness :
    chain (arena_next two_lists_state.mem) two_lists_state.arenas [MAP0] ∧
    [MAP0].length < 4 ∧
    (∀ B ∈ [MAP0], chain (blk_next two_lists_state.mem)
        (arena_free_list two_lists_state.mem B) [MAP0 + 16, MAP0 + 184] ∧
      [MAP0 + 16, MAP0 + 184].length < 4) ∧
    (((∀ B ∈ [MAP0], ∀ x ∈ [MAP0 + 16, MAP0 + 184], blk_size two_lists_state.mem x < 88) ∧
        __find_arena_block 4 two_lists_state 88 = some (0, two_lists_state)) ∨
     (∃ as1 A as2 l1 fit l2 s',
        [MAP0] = as1 ++ A :: as2 ∧ [MAP0 + 16, MAP0 + 184] = l1 ++ fit :: l2 ∧
        (∀ B ∈ as1, ∀ x ∈ [MAP0 + 16, MAP0 + 184], blk_size two_lists_state.mem x < 88) ∧
        (∀ x ∈ l1, blk_size two_lists_state.mem x < 88) ∧
        88 ≤ blk_size two_lists_state.mem fit ∧ fit ≠ 0 ∧
        __find_arena_block 4 two_lists_state 88 = some (fit, s'))) ∧
    ((__find_arena_block 4 two_lists_state 88).map Prod.fst = some 0 ↔
       ∀ B ∈ [MAP0], ∀ x ∈ [MAP0 + 16, MAP0 + 184], blk_size two_lists_state.mem x < 88) ∧
    (∀ B ∈ [MAP0], ∀ x ∈ [MAP0 + 16, MAP0 + 184],
       blk_size two_lists_state.mem x < ARENA_SIZE) ∧
    (__find_arena_block 4 two_lists_state ARENA_SIZE).map Prod.fst = some 0 :=
  have h1 : chain (arena_next two_lists_state.mem) two_lists_state.arenas [MAP0] := by decide!
  have h3 : ∀ B ∈ [MAP0], chain (blk_next two_lists_state.mem)
        (arena_free_list two_lists_state.mem B) [MAP0 + 16, MAP0 + 184] ∧
      [MAP0 + 16, MAP0 + 184].length < 4 := by decide!
  have h4 : ∀ B ∈ [MAP0], ∀ x ∈ [MAP0 + 16, MAP0 + 184],
       blk_size two_lists_state.mem x < ARENA_SIZE := by decide!
  ⟨h1, by decide, h3,
   (first_fit 4 88 two_lists_state [MAP0] (fun _ => [MAP0 + 16, MAP0 + 184]) h1 (by decide)
      h3).1,
   (first_fit 4 88 two_lists_state [MAP0] (fun _ => [MAP0 + 16, MAP0 + 184]) h1 (by decide)
      h3).2.1,
   h4,
   (first_fit 4 ARENA_SIZE two_lists_state [MAP0] (fun _ => [MAP0 + 16, MAP0 + 184]) h1
      (by decide) h3).2.1.mpr h4⟩

/-- C22, evaluated at its failing input: after `back_merge_calls` the global free list
holds the one block `x = [MAP0, MAP0 + 10 MiB + 24)`, and the live block `y` of size
`30 MiB + 24` starts where `x` ends.  After `r_free(y)` the list holds the one block `y`
with its old size; the block at `MAP0` has size `40 MiB + 48` and is not on the list. -/
theorem global_release_drops_absorber :
    (run_calls 8 back_merge_calls State.init []).map
        (fun r => (r.2, list_entries r.1.mem 4 r.1.global_free_list))
      = some ([MAP0 + 24, MAP0 + 24, MAP0 + 10 * MiB + 48], [(MAP0, 10 * MiB + 24, false)]) ∧
    (run_calls 8 (back_merge_calls ++ [Call.free 2]) State.init []).map
        (fun r => (list_entries r.1.mem 4 r.1.global_free_list, blk_size r.1.mem MAP0))
      = some ([(MAP0 + 10 * MiB + 24, 30 * MiB + 24, false)], 40 * MiB + 48) := by
  decide!

/-- C11 at a reachable state where it fails.  The steps are `p0 = r_malloc(100)`, the
stores `((size_t*)p0)[0] = 32` and `((size_t*)p0)[4] = SIZE_MAX - 7` into that payload,
`r_realloc(p0, SIZE_MAX)`, `r_malloc(100)`, and then the round trip with `n = 8`:
`p = r_malloc(8)` is `MAP0 + 192`, memory of the arena `MAP0`; after `r_free(p)` the
arena `MAP0` is still the head of the arena sequence and still mapped (it is not
reclaimed), and its free list holds the block of `p` with size 24.  The second
`r_malloc(8)` returns `MAP0 + 16 MiB + 40`, memory of a new arena mapped in front of
`MAP0`, and null when `mmap` fails: not memory of the arena of `p`. -/
theorem round_trip_leaves_arena :
    (run_steps 8 payload_steps State.init []).map
        (fun r => (r.2, r.1.arenas, r.1.mapped))
      = some ([MAP0 + 40, MAP0 + 168, MAP0 + 40, MAP0 + 192], MAP0,
              [(MAP0, ARENA_HDR + ARENA_SIZE)]) ∧
    (run_steps 8 payload_steps State.init []).map
        (fun r => list_entries r.1.mem 3 (arena_free_list r.1.mem MAP0))
      = some [(MAP0 + 168, 24, false)] ∧
    (run_steps 8 (payload_steps ++ [Step.call (Call.malloc (some (MAP0 + 16 * MiB)) 8)])
        State.init []).map
        (fun r => (r.2.getD 4 0, r.1.arenas, arena_next r.1.mem r.1.arenas))
      = some (MAP0 + 16 * MiB + 40, MAP0 + 16 * MiB, MAP0) ∧
    (run_steps 8 (payload_steps ++ [Step.call (Call.malloc none 8)])
        State.init []).map (fun r => (r.2.getD 4 1, r.1.arenas))
      = some (0, MAP0) := by
  decide!

/-- C15 at a reachable state where it fails, `stale_state`.  The block of
`b = MAP0 + 20 MiB + 72` is live with a capacity of 10 MiB; the global free list is one
block of size `30 MiB + 24` that is its own successor, so no free block fits the planned
size `40 MiB + 24`.  Whatever `mmap` would answer, `r_malloc(40 MiB)` and
`r_realloc(b, 40 MiB)` do not return: the model gives `none` for every fuel. -/
theorem refused_request_never_returns (fuel : Nat) (os : Option Nat) :
    blk_active stale_state.mem (__ptr_to_block (MAP0 + 20 * MiB + 72)) = true ∧
    r_alloc_size stale_state (MAP0 + 20 * MiB + 72) = 10 * MiB ∧
    list_entries stale_state.mem 3 stale_state.global_free_list
      = [(MAP0 + 10 * MiB + 24, 30 * MiB + 24, false),
         (MAP0 + 10 * MiB + 24, 30 * MiB + 24, false),
         (MAP0 + 10 * MiB + 24, 30 * MiB + 24, false)] ∧
    __alloc_size (40 * MiB) = 40 * MiB + 24 ∧
    r_malloc fuel os stale_state (40 * MiB) = none ∧
    r_realloc fuel os stale_state (MAP0 + 20 * MiB + 72) (40 * MiB) = none := by
  obtain ⟨hi, hh, hnx, hsz, hcap, hlive⟩ := stale_state_facts
  have hq : __alloc_size (40 * MiB) = 40 * MiB + 24 := by decide!
  have hM : MiB = 1048576 := rfl
  have hA : ARENA_SIZE = 8388608 := rfl
  have h0 : MAP0 = 0x7f0000000000 := rfl
  refine ⟨hlive, hcap, by decide!, hq, ?_, ?_⟩
  · exact r_malloc_global_self_loop _ _ _ (by decide) hi (by rw [hq]; omega) hh (by omega)
      hnx (by rw [hq, hsz]; omega) fuel os
  · exact r_realloc_global_self_loop _ _ _ _ (by decide) (by omega) (by rw [hcap]; omega)
      hi (by rw [hq]; omega) hh (by omega) hnx (by rw [hq, hsz]; omega) fuel os

/-- C16 at a reachable state where it fails, `loop_state`.  The only arena is `MAP0`
and its free list is one block of size 0 that is its own successor, so no free block
of any arena fits the planned size 88 of `r_malloc(64)`.  Whatever `mmap` would answer,
`r_malloc(64)` does not return and maps no arena: the model gives `none` for every
fuel. -/
theorem fresh_arena_never_mapped (fuel : Nat) (os : Option Nat) :
    loop_state.arenas = MAP0 ∧ arena_next loop_state.mem MAP0 = 0 ∧
    loop_state.mapped = [(MAP0, ARENA_HDR + ARENA_SIZE)] ∧
    list_entries loop_state.mem 3 (arena_free_list loop_state.mem MAP0)
      = [(MAP0 + 16, 0, false), (MAP0 + 16, 0, false), (MAP0 + 16, 0, false)] ∧
    __alloc_size 64 = 88 ∧
    r_malloc fuel os loop_state 64 = none := by
  obtain ⟨hi, ha, hh, hnx, hsz⟩ := loop_state_facts
  have hq : __alloc_size 64 = 88 := by decide!
  have hA : ARENA_SIZE = 8388608 := rfl
  have h0 : MAP0 = 0x7f0000000000 := rfl
  refine ⟨ha, by decide!, by decide!, by decide!, hq, ?_⟩
  exact r_malloc_arena_self_loop _ _ _ (by decide) hi (by rw [hq, hA]; omega)
    (by rw [ha]; omega) hh (by omega) hnx (by rw [hq, hsz]; omega) fuel os

/-- C20 at a reachable state where it fails, `stale_state`.  For the planned size
`1 MiB + 24`, `__find_global_block` selects the block `MAP0 + 10 MiB + 24` of size
`30 MiB + 24` and splits it, but does not remove it from the global free list: the
list is afterwards the remainder `MAP0 + 11 MiB + 48` followed by the selected block,
which is its own successor. -/
theorem selected_fit_stays_listed :
    (__find_global_block 16 stale_state (MiB + 24)).map
        (fun r => (r.1, r.2.global_free_list))
      = some (MAP0 + 10 * MiB + 24, MAP0 + 11 * MiB + 48) ∧
    (__find_global_block 16 stale_state (MiB + 24)).map
        (fun r => list_entries r.2.mem 4 r.2.global_free_list)
      = some [(MAP0 + 11 * MiB + 48, 29 * MiB, false),
              (MAP0 + 10 * MiB + 24, MiB + 24, false),
              (MAP0 + 10 * MiB + 24, MiB + 24, false),
              (MAP0 + 10 * MiB + 24, MiB + 24, false)] := by
  decide!

/-- C21 at a reachable state where it fails, `loop_state`.  The only arena has one free
block, of size 0, which is its own successor: no free block of any arena has size 88 or
more, yet `__find_arena_block` with the planned size 88 does not return `NULL`; it does
not return at all, the model gives `none` for every fuel. -/
theorem first_fit_never_ends (fuel : Nat) :
    list_entries loop_state.mem 3 (arena_free_list loop_state.mem loop_state.arenas)
      = [(MAP0 + 16, 0, false), (MAP0 + 16, 0, false), (MAP0 + 16, 0, false)] ∧
    arena_next loop_state.mem loop_state.arenas = 0 ∧
    __find_arena_block fuel loop_state 88 = none := by
  obtain ⟨hi, ha, hh, hnx, hsz⟩ := loop_state_facts
  have h0 : MAP0 = 0x7f0000000000 := rfl
  refine ⟨by decide!, by decide!, ?_⟩
  exact find_arena_block_self_loop _ _ _ (by rw [ha]; omega) hh (by omega) hnx
    (by rw [hsz]; omega) fuel

end Ralloc
